import Mathlib

/-! # Sippora: circular playback buffer, waveform evaluators and noise colour filter

A shallow embedding of `AudioSource.cpp`, `NoisePwrSpectrum.cpp` and the data
types of `SignalItem.h`.

Modelling conventions

* `double` is modelled by an arbitrary linear ordered field `K` with a floor
  function: arithmetic is exact (no rounding, no infinities; `x / 0 = 0`).  The
  definitions are computable and run at `K = ℚ`.
* the `<cmath>` functions `sin`, `cos`, `exp`, `pow`, `log10` and the constant
  `M_PI` come from a record `LibM K`; `LibM.IsReal` says that a record over `ℝ` holds
  the mathematical functions.
* `qint64` values are `Int`.  `int32_t` values are `Int` as well: the arithmetic of
  `generateRandomDek` stays inside the 32-bit range, and the counter arithmetic of
  `generateRandomNag` (`++( *pIdum )`, `-( *pIdum )`) is kept in 32 bits by
  `wrapInt32`.  Signed overflow is undefined in C++; the two's complement result is
  taken, and what is proved about the counter is stated for calls that do not
  overflow.
* `uint32_t` values are `Nat` reduced `% 2^32`.  A conversion from `double` truncates
  toward zero; out of the target range C++ leaves it undefined, here the truncated
  value is reduced `% 2^32` (resp. `% 2^16` for `int16_t`).
* a byte is a `Nat` below `256`; `QByteArray` and `std::vector` are `List`.
* function-local `static` variables are passed explicitly (`Statics`).
* a function that can fault (out-of-bounds `memcpy`, throwing `at`) or loop
  forever returns `Option`.
-/

namespace Sippora

/-! ## Numeric helpers -/

/-- The `<cmath>` functions and `M_PI`, as used by the sources. -/
structure LibM (K : Type) where
  sin : K → K
  cos : K → K
  exp : K → K
  pow : K → K → K
  log10 : K → K
  M_PI : K

/-- The `<cmath>` record is the mathematical one over the reals: `sin`, `cos`, `exp`
    are the real functions, `pow` and `log10` agree with the real power and the
    logarithm to base 10 on positive arguments, `M_PI` is `π`. -/
def LibM.IsReal (M : LibM ℝ) : Prop :=
  M.sin = Real.sin ∧ M.cos = Real.cos ∧ M.exp = Real.exp
    ∧ (∀ x y : ℝ, 0 < x → M.pow x y = x ^ y)
    ∧ (∀ x : ℝ, 0 < x → M.log10 x = Real.log x / Real.log 10)
    ∧ M.M_PI = Real.pi

section Numeric

variable {K : Type} [LinearOrderedField K] [FloorRing K]

/-- Truncation toward zero, the rounding of a C++ floating-to-integer conversion. -/
def truncate (x : K) : Int :=
  if 0 ≤ x then ⌊x⌋ else ⌈x⌉

/-- Conversion `double → uint32_t`: truncation, kept in 32 bits. -/
def toUInt32 (x : K) : Nat :=
  (truncate x % (2 ^ 32 : Int)).toNat

/-- Conversion `double → int16_t`: truncation, kept in 16 bits (two's complement);
    the result is the bit pattern, a number below `2^16`. -/
def toInt16Bits (x : K) : Nat :=
  (truncate x % (2 ^ 16 : Int)).toNat

end Numeric

/-! ## Memory helpers -/

/-- The C `memcpy( dst + dOff, src + sOff, n )` on byte lists: defined only when both
    ranges lie inside their arrays. -/
def memcpy (dst : List Nat) (dOff : Int) (src : List Nat) (sOff : Int) (n : Int) :
    Option (List Nat) :=
  if 0 ≤ n ∧ 0 ≤ dOff ∧ 0 ≤ sOff ∧ dOff + n ≤ dst.length ∧ sOff + n ≤ src.length then
    some (dst.take dOff.toNat ++ (src.drop sOff.toNat).take n.toNat
            ++ dst.drop (dOff.toNat + n.toNat))
  else
    none

/-! ## SignalItem.h: the signal data -/

structure SignalTriangle (K : Type) where
  tPeriod : K
  tRise : K
  tFall : K
  tDelay : K
  yMax : K
  yMin : K

structure SignalRectangle (K : Type) where
  tPeriod : K
  fillFactor : K
  tDelay : K
  yMax : K
  yMin : K

structure SignalPulse (K : Type) where
  tPeriod : K
  tRise : K
  tWidth : K
  tFall : K
  tDelay : K
  yMax : K
  yMin : K

structure SignalRiseFall (K : Type) where
  tDelay : K
  tDelayRise : K
  tRampRise : K
  tDelayFall : K
  tRampFall : K
  yMax : K
  yMin : K

structure SignalSinDamp (K : Type) where
  freqHz : K
  phiRad : K
  tDelay : K
  amplit : K
  offset : K
  damping : K

structure SignalSinRise (K : Type) where
  freqHz : K
  phiRad : K
  tEnd : K
  tDelay : K
  amplit : K
  offset : K
  damping : K

/-- Field `index` is a `uint8_t`. -/
structure SignalWavSin (K : Type) where
  freqHz : K
  phiRad : K
  tDelay : K
  amplit : K
  offset : K
  index : Nat

structure SignalAmSin (K : Type) where
  carrierFreqHz : K
  carrierAmplitude : K
  carrierOffset : K
  carrierTDelay : K
  modulationFreqHz : K
  modulationPhiRad : K
  modulationIndex : K

/-- Field `dampingType` is an `int8_t`. -/
structure SignalSinDampSin (K : Type) where
  freqSinHz : K
  tPeriodEnv : K
  tDelay : K
  amplit : K
  offset : K
  dampingType : Int

structure SignalTrapDampSin (K : Type) where
  tPeriod : K
  tRise : K
  tWidth : K
  tFall : K
  tDelay : K
  tCross : K
  freqHz : K
  amplit : K
  offset : K

inductive NoiseType where
  | NOISE_TYPE_DEK
  | NOISE_TYPE_NAG
deriving DecidableEq, Repr

structure SignalNoise (K : Type) where
  noiseType : NoiseType
  gamma : K
  tDelay : K
  amplit : K
  offset : K

/-- A `SignalItem` as its constructors build it: the type tag `mType` and the data
    of that type. -/
inductive SignalItem (K : Type) where
  | triangle (d : SignalTriangle K)
  | rectangle (d : SignalRectangle K)
  | pulse (d : SignalPulse K)
  | riseFall (d : SignalRiseFall K)
  | sinDamp (d : SignalSinDamp K)
  | sinRise (d : SignalSinRise K)
  | wavSin (d : SignalWavSin K)
  | amSin (d : SignalAmSin K)
  | sinDampSin (d : SignalSinDampSin K)
  | trapDampSin (d : SignalTrapDampSin K)
  | noise (d : SignalNoise K)

section Defaults

variable {K : Type} [LinearOrderedField K]

/-- Source `SignalTriangle()`: the default Triangle. -/
def SignalTriangle.default : SignalTriangle K :=
  { tPeriod := 1, tRise := 0.5, tFall := 0.5, tDelay := 0, yMax := 1, yMin := -1 }

/-- Source `SignalRectangle()`: the default Rectangle. -/
def SignalRectangle.default : SignalRectangle K :=
  { tPeriod := 1, fillFactor := 0.5, tDelay := 0, yMax := 1, yMin := -1 }

/-- Source `SignalPulse()`: the default Pulse. -/
def SignalPulse.default : SignalPulse K :=
  { tPeriod := 1, tRise := 0.125, tWidth := 0.25, tFall := 0.125, tDelay := 0,
    yMax := 1, yMin := -1 }

end Defaults



/-! ## AudioSource.cpp: the waveform evaluators -/

section Evaluators

variable {K : Type} [LinearOrderedField K] [FloorRing K]

/-- Source `AudioSource::getSignalValueTriangle`. -/
def getSignalValueTriangle (aSignalData : SignalTriangle K) (aTime : K) : K :=
  if aTime ≥ aSignalData.tDelay then
    let dt0 : K := aTime - aSignalData.tDelay
    let kPer : Nat := toUInt32 (dt0 / aSignalData.tPeriod)
    let tInPer : K := dt0 - (kPer : K) * aSignalData.tPeriod
    if tInPer ≤ aSignalData.tRise then
      aSignalData.yMin + (aSignalData.yMax - aSignalData.yMin) * tInPer / aSignalData.tRise
    else
      aSignalData.yMax
        - (aSignalData.yMax - aSignalData.yMin) * (tInPer - aSignalData.tRise) / aSignalData.tFall
  else
    0

/-- Source `AudioSource::getSignalValueRectangle`. -/
def getSignalValueRectangle (aSignalData : SignalRectangle K) (aTime : K) : K :=
  if aTime ≥ aSignalData.tDelay then
    let dt0 : K := aTime - aSignalData.tDelay
    let kPer : Nat := toUInt32 (dt0 / aSignalData.tPeriod)
    let tInPer : K := dt0 - (kPer : K) * aSignalData.tPeriod
    if tInPer ≤ aSignalData.tPeriod * aSignalData.fillFactor then
      aSignalData.yMax
    else
      aSignalData.yMin
  else
    0

/-- Source `AudioSource::getSignalValuePulse`. -/
def getSignalValuePulse (aSignalData : SignalPulse K) (aTime : K) : K :=
  if aTime ≥ aSignalData.tDelay then
    let dt0 : K := aTime - aSignalData.tDelay
    let kPer : Nat := toUInt32 (dt0 / aSignalData.tPeriod)
    let tInPer : K := dt0 - (kPer : K) * aSignalData.tPeriod
    if tInPer ≤ aSignalData.tRise then
      aSignalData.yMin + (aSignalData.yMax - aSignalData.yMin) * tInPer / aSignalData.tRise
    else if tInPer ≤ aSignalData.tRise + aSignalData.tWidth then
      aSignalData.yMax
    else if tInPer ≤ aSignalData.tRise + aSignalData.tWidth + aSignalData.tFall then
      aSignalData.yMax
        - (aSignalData.yMax - aSignalData.yMin)
            * (tInPer - aSignalData.tRise - aSignalData.tWidth) / aSignalData.tFall
    else
      aSignalData.yMin
  else
    0

/-- Source `AudioSource::getSignalValueRiseFall`. -/
def getSignalValueRiseFall (M : LibM K) (aSignalData : SignalRiseFall K) (aTime : K) : K :=
  if aTime ≥ aSignalData.tDelay then
    if aTime ≤ aSignalData.tDelayRise then
      aSignalData.yMin
    else if aTime > aSignalData.tDelayRise ∧ aTime ≤ aSignalData.tDelayFall then
      aSignalData.yMin
        + (aSignalData.yMax - aSignalData.yMin)
            * (1 - M.exp (-(aTime - aSignalData.tDelayRise) / aSignalData.tRampRise))
    else if aTime > aSignalData.tDelayFall then
      aSignalData.yMin
        + (aSignalData.yMax - aSignalData.yMin)
            * (1 - M.exp (-(aTime - aSignalData.tDelayRise) / aSignalData.tRampRise))
        + (aSignalData.yMin - aSignalData.yMax)
            * (1 - M.exp (-(aTime - aSignalData.tDelayFall) / aSignalData.tRampFall))
    else
      0
  else
    0

/-- Source `AudioSource::getSignalValueSinDamp`. -/
def getSignalValueSinDamp (M : LibM K) (aSignalData : SignalSinDamp K) (aTime : K) : K :=
  if aTime ≥ aSignalData.tDelay then
    let dt0 : K := aTime - aSignalData.tDelay
    aSignalData.offset
      + aSignalData.amplit * M.sin (2 * M.M_PI * aSignalData.freqHz * dt0 + aSignalData.phiRad)
          * M.exp (-aSignalData.damping * dt0)
  else
    0

/-- Source `AudioSource::getSignalValueSinRise`. -/
def getSignalValueSinRise (M : LibM K) (aSignalData : SignalSinRise K) (aTime : K) : K :=
  if aTime ≥ aSignalData.tDelay then
    if aTime < aSignalData.tEnd then
      let dtend : K := aTime - aSignalData.tEnd
      aSignalData.offset
        + aSignalData.amplit
            * M.sin (2 * M.M_PI * aSignalData.freqHz * dtend + aSignalData.phiRad)
            * M.exp (aSignalData.damping * dtend)
    else
      aSignalData.offset
  else
    0

/-- Source `AudioSource::getSignalValueWavSin`; `N` is a `uint8_t`. -/
def getSignalValueWavSin (M : LibM K) (aSignalData : SignalWavSin K) (aTime : K) : K :=
  if aTime ≥ aSignalData.tDelay then
    let N0 : Nat := aSignalData.index % 256
    let N : Nat := if N0 < 3 ∨ N0 % 2 ≠ 1 then 3 else N0
    let b : K := aSignalData.freqHz / (N : K)
    let T : K := 0.5 / b
    let dt0 : K := aTime - aSignalData.tDelay
    if aTime < T + aSignalData.tDelay then
      aSignalData.offset
        + aSignalData.amplit * M.sin (2 * M.M_PI * b * dt0)
            * M.sin (2 * M.M_PI * aSignalData.freqHz * dt0)
    else
      0
  else
    0

/-- Source `AudioSource::getSignalValueAmSin`. -/
def getSignalValueAmSin (M : LibM K) (aSignalData : SignalAmSin K) (aTime : K) : K :=
  if aTime ≥ aSignalData.carrierTDelay then
    let dt0 : K := aTime - aSignalData.carrierTDelay
    aSignalData.carrierOffset
      + aSignalData.carrierAmplitude * M.sin (2 * M.M_PI * aSignalData.carrierFreqHz * dt0)
          * (1 + aSignalData.modulationIndex
                  * M.cos (2 * M.M_PI * aSignalData.modulationFreqHz * dt0
                            + aSignalData.modulationPhiRad))
  else
    0

/-- Source `AudioSource::getSignalValueSinDampSin`; `kPer` is a `uint32_t`, the `switch`
    is on the `int8_t` damping type. -/
def getSignalValueSinDampSin (M : LibM K) (aSignalData : SignalSinDampSin K) (aTime : K) : K :=
  if aTime ≥ aSignalData.tDelay then
    let dt0 : K := aTime - aSignalData.tDelay
    let kPer : Nat := toUInt32 (1 + dt0 / aSignalData.tPeriodEnv)
    let eyeAmplit : K :=
      if aSignalData.dampingType = 0 then
        aSignalData.amplit
      else if aSignalData.dampingType = -3 then
        aSignalData.amplit * M.exp ((kPer : K) - 1.0)
      else if aSignalData.dampingType = -2 ∨ aSignalData.dampingType = -1
              ∨ aSignalData.dampingType = 1 ∨ aSignalData.dampingType = 2 then
        aSignalData.amplit * M.pow (kPer : K) ((-aSignalData.dampingType : Int) : K)
      else if aSignalData.dampingType = 3 then
        aSignalData.amplit * M.exp (-((kPer : K) - 1.0))
      else
        0
    aSignalData.offset
      + eyeAmplit * M.sin (M.M_PI / aSignalData.tPeriodEnv * dt0)
          * M.sin (2 * M.M_PI * aSignalData.freqSinHz * dt0)
  else
    0

/-- Source `AudioSource::getSignalValueTrapDampSin`; `kPer` is a `uint32_t`, so `kPer - 1` and
    the bare `kPer` are 32-bit unsigned values before they meet a `double`. -/
def getSignalValueTrapDampSin (M : LibM K) (aSignalData : SignalTrapDampSin K) (aTime : K) : K :=
  if aTime ≥ aSignalData.tDelay then
    let dt0 : K := aTime - aSignalData.tDelay
    let kPer : Nat := toUInt32 (1 + dt0 / aSignalData.tPeriod)
    let kPerM1 : K := (((kPer + 2 ^ 32 - 1) % 2 ^ 32 : Nat) : K)
    if aTime ≥ aSignalData.tCross
        ∨ (aTime > aSignalData.tDelay + kPerM1 * aSignalData.tPeriod + aSignalData.tRise
                    + aSignalData.tWidth + aSignalData.tFall
            ∧ aTime < aSignalData.tDelay + (kPer : K) * aSignalData.tPeriod) then
      aSignalData.offset
    else
      let y : K :=
        if aTime > aSignalData.tDelay + kPerM1 * aSignalData.tPeriod
            ∧ aTime ≤ aSignalData.tDelay + kPerM1 * aSignalData.tPeriod + aSignalData.tRise then
          let yEnv : K := aSignalData.amplit
            * (aSignalData.tCross - aSignalData.tDelay - kPerM1 * aSignalData.tPeriod
                - aSignalData.tRise)
          let yEnv : K := yEnv / aSignalData.tCross
          let y : K := (dt0 - kPerM1 * aSignalData.tPeriod) / aSignalData.tRise
          y * yEnv
        else if aTime > aSignalData.tDelay + kPerM1 * aSignalData.tPeriod + aSignalData.tRise
            ∧ aTime ≤ aSignalData.tDelay + kPerM1 * aSignalData.tPeriod + aSignalData.tRise
                        + aSignalData.tWidth then
          let yEnv : K := aSignalData.amplit
            * (aSignalData.tCross - aSignalData.tDelay - kPerM1 * aSignalData.tPeriod
                - aSignalData.tRise)
          let yEnv : K := yEnv / aSignalData.tCross
          yEnv - aSignalData.amplit
                  * (dt0 - kPerM1 * aSignalData.tPeriod - aSignalData.tRise) / aSignalData.tCross
        else if aTime > aSignalData.tDelay + kPerM1 * aSignalData.tPeriod + aSignalData.tRise
                          + aSignalData.tWidth
            ∧ aTime ≤ aSignalData.tDelay + kPerM1 * aSignalData.tPeriod + aSignalData.tRise
                        + aSignalData.tWidth + aSignalData.tFall then
          let yEnv : K := aSignalData.amplit
            * (aSignalData.tCross - aSignalData.tDelay - kPerM1 * aSignalData.tPeriod
                - aSignalData.tRise - aSignalData.tWidth)
          let yEnv : K := yEnv / aSignalData.tCross
          let y : K := 1 - (dt0 - kPerM1 * aSignalData.tPeriod - aSignalData.tRise
                              - aSignalData.tWidth) / aSignalData.tFall
          y * yEnv
        else
          0
      let y : K := y * M.sin (2 * M.M_PI * aSignalData.freqHz
                                * (dt0 - kPerM1 * aSignalData.tPeriod))
      y + aSignalData.offset
  else
    0

/-- Source `AudioSource::getSignalValue`: the superposition of all signals but the noise. -/
def getSignalValue (M : LibM K) (mSignalsVector : List (SignalItem K)) (aTime : K) : K :=
  mSignalsVector.foldl
    (fun y item =>
      match item with
      | .triangle d => y + getSignalValueTriangle d aTime
      | .rectangle d => y + getSignalValueRectangle d aTime
      | .pulse d => y + getSignalValuePulse d aTime
      | .riseFall d => y + getSignalValueRiseFall M d aTime
      | .sinDamp d => y + getSignalValueSinDamp M d aTime
      | .sinRise d => y + getSignalValueSinRise M d aTime
      | .wavSin d => y + getSignalValueWavSin M d aTime
      | .amSin d => y + getSignalValueAmSin M d aTime
      | .sinDampSin d => y + getSignalValueSinDampSin M d aTime
      | .trapDampSin d => y + getSignalValueTrapDampSin M d aTime
      | .noise _ => y)
    0

end Evaluators

/-! ## AudioSource.cpp: the pseudorandom generators -/

/-- The function-local `static` variables of `generateRandomDek`: `inext`, `inextp`,
    the table `ma[56]` and the flag `iff`. -/
structure DekStatics where
  inext : Int
  inextp : Int
  ma : List Int
  iff : Int
deriving DecidableEq, Repr

/-- The statics of `generateRandomDek` at program start (zero-initialised). -/
def DekStatics.init : DekStatics :=
  { inext := 0, inextp := 0, ma := List.replicate 56 0, iff := 0 }

def MBIG : Int := 1000000000

def MSEED : Int := 161803398

def MZ : Int := 0

/-- The seeding block of `generateRandomDek` (the body of its first `if`): returns
    the table `ma` after the two initialisation loops. -/
def dekSeedTable (idum : Int) (ma : List Int) : List Int :=
  let mj0 : Int := Int.tmod (abs (MSEED - abs idum)) MBIG
  let ma1 : List Int := ma.set 55 mj0
  let st := (List.range' 1 54).foldl
    (fun (st : List Int × Int × Int) (i : Nat) =>
      let ma := st.1
      let mj := st.2.1
      let mk := st.2.2
      let ii : Nat := (21 * i) % 55
      let ma := ma.set ii mk
      let mk := mj - mk
      let mk := if mk < MZ then mk + MBIG else mk
      let mj := ma.getD ii 0
      (ma, mj, mk))
    (ma1, mj0, 1)
  (List.range' 1 4).foldl
    (fun (ma : List Int) (_k : Nat) =>
      (List.range' 1 55).foldl
        (fun (ma : List Int) (i : Nat) =>
          let ma := ma.set i (ma.getD i 0 - ma.getD (1 + (i + 30) % 55) 0)
          if ma.getD i 0 < MZ then ma.set i (ma.getD i 0 + MBIG) else ma)
        ma)
    st.1

/-- Source `AudioSource::generateRandomDek( pIdum )`: returns the random number, the new
    value of `*pIdum` and the new statics.  `FAC = 1.0 / MBIG`. -/
def generateRandomDek {K : Type} [LinearOrderedField K] (pIdum : Int) (s : DekStatics) :
    K × Int × DekStatics :=
  let FAC : K := 1.0 / (MBIG : K)
  let seeded : Int × DekStatics :=
    if pIdum < 0 ∨ s.iff = 0 then
      (1, { inext := 0, inextp := 31, ma := dekSeedTable pIdum s.ma, iff := 1 })
    else
      (pIdum, s)
  let pIdum := seeded.1
  let s := seeded.2
  let inext : Int := if s.inext + 1 = 56 then 1 else s.inext + 1
  let inextp : Int := if s.inextp + 1 = 56 then 1 else s.inextp + 1
  let mj : Int := s.ma.getD inext.toNat 0 - s.ma.getD inextp.toNat 0
  let mj : Int := if mj < MZ then mj + MBIG else mj
  let ma : List Int := s.ma.set inext.toNat mj
  ((mj : K) * FAC, pIdum, { inext := inext, inextp := inextp, ma := ma, iff := s.iff })

/-- Source `AudioSource::pseudoDes( lword, irword )` on 32-bit words: returns the new
    `(*lword, *irword)`. -/
def pseudoDes (lword irword : Nat) : Nat × Nat :=
  let C1 : List Nat := [0xbaa96887, 0x1e17d32c, 0x03bcdc3c, 0x0f33d1b2]
  let C2 : List Nat := [0x4b0f3b58, 0xe874f0c3, 0x6955c5a6, 0x55a7ca46]
  (List.range 4).foldl
    (fun (w : Nat × Nat) (i : Nat) =>
      let lword := w.1
      let irword := w.2
      let iswap := irword
      let ia := iswap ^^^ C1.getD i 0
      let itmpl := ia &&& 0xffff
      let itmph := ia >>> 16
      let ib := (itmpl * itmpl + (2 ^ 32 - 1 - (itmph * itmph) % 2 ^ 32)) % 2 ^ 32
      let ia := (ib >>> 16) ||| ((ib &&& 0xffff) <<< 16)
      let irword := lword ^^^ (((ia ^^^ C2.getD i 0) + itmpl * itmph) % 2 ^ 32)
      (iswap, irword))
    (lword, irword)

/-- The result of an `int32_t` operation whose mathematical value is `x`: `x` itself
    when it fits 32 bits, its two's complement reduction otherwise (where C++ leaves
    the operation undefined). -/
def wrapInt32 (x : Int) : Int :=
  (x + 2 ^ 31) % 2 ^ 32 - 2 ^ 31

/-- Source `AudioSource::generateRandomNag( pIdum )` with its static `idums`: returns the
    random number, the new `*pIdum` and the new `idums`.  The counter `*pIdum` and
    `idums` are `int32_t`: `idums = -( *pIdum )` and `++( *pIdum )` are 32-bit
    operations.  The bit pattern `JFLONE | ( JFLMSK & irword )` read as an IEEE-754
    single is `1 + m / 2^23` with `m` the low 23 bits of `irword`. -/
def generateRandomNag {K : Type} [LinearOrderedField K] (pIdum : Int) (idums : Int) :
    K × Int × Int :=
  let seeded : Int × Int := if pIdum < 0 then (1, wrapInt32 (-pIdum)) else (pIdum, idums)
  let pIdum := seeded.1
  let idums := seeded.2
  let irword : Nat := (pIdum % (2 ^ 32 : Int)).toNat
  let lword : Nat := (idums % (2 ^ 32 : Int)).toNat
  let w := pseudoDes lword irword
  let m : Nat := 0x007fffff &&& w.2
  ((1 + (m : K) / 2 ^ 23) - 1.0, wrapInt32 (pIdum + 1), idums)

/-- All function-local statics of the noise path: those of `generateRandomDek`, the
    `idums` of `generateRandomNag` and the `seedNag` of `getSignalValueNoise` (given
    its value by `rand()` on the first call). -/
structure Statics where
  dek : DekStatics
  idums : Int
  seedNag : Int
deriving DecidableEq, Repr

/-- Source `AudioSource::getSignalValueNoise`: one white noise sample and the new statics. -/
def getSignalValueNoise {K : Type} [LinearOrderedField K] (aSignalData : SignalNoise K)
    (aTime : K) (g : Statics) : K × Statics :=
  if aTime ≥ aSignalData.tDelay then
    match aSignalData.noiseType with
    | .NOISE_TYPE_DEK =>
      let seedDek : Int := 1
      let r := generateRandomDek (K := K) seedDek g.dek
      let y : K := r.1
      let y : K := 2 * y - 1
      let y : K := y * aSignalData.amplit
      let y : K := y + aSignalData.offset
      (y, { g with dek := r.2.2 })
    | .NOISE_TYPE_NAG =>
      let r := generateRandomNag (K := K) g.seedNag g.idums
      let y : K := r.1
      let y : K := 2 * y - 1
      let y : K := y * aSignalData.amplit
      let y : K := y + aSignalData.offset
      (y, { g with seedNag := r.2.1, idums := r.2.2 })
  else
    (0, g)

/-! ## NoisePwrSpectrum.cpp -/

section Noise

variable {K : Type} [LinearOrderedField K]

def GAMMA_MIN : K := -2

def GAMMA_MAX : K := 2

def NR_OF_FILTER_BLOCKS : Nat := 7

/-- Source `NoisePwrSpectrum::DigitalFilter`. -/
structure DigitalFilter (K : Type) where
  N : Nat
  b : List K
  a : List K

/-- The member variables of a `NoisePwrSpectrum`. -/
structure NoisePwrSpectrum (K : Type) where
  mGamma : K
  mBBlockCoeffVec : List K
  mABlockCoeffVec : List K
  mFilter : DigitalFilter K

/-- Source `NoisePwrSpectrum::calculateFilterBlockCoeffs`: the new `mABlockCoeffVec` and
    `mBBlockCoeffVec` for the stored `mGamma`. -/
def calculateFilterBlockCoeffs (M : LibM K) (mGamma : K) : List K × List K :=
  let POLE_DENSITY : K := 1.1
  let C : K := -M.log10 0.5
  (List.range' 1 NR_OF_FILTER_BLOCKS).foldl
    (fun (v : List K × List K) (i : Nat) =>
      let e : K := ((i : K) - (NR_OF_FILTER_BLOCKS : K)) / POLE_DENSITY
                    - 0.5 * mGamma / POLE_DENSITY - C
      let a : K := M.exp (-2.0 * M.M_PI * M.pow 10.0 e)
      let e : K := e + 0.5 * mGamma / POLE_DENSITY
      let b : K := M.exp (-2.0 * M.M_PI * M.pow 10.0 e)
      (v.1.set (i - 1) a, v.2.set (i - 1) b))
    (List.replicate NR_OF_FILTER_BLOCKS 0, List.replicate NR_OF_FILTER_BLOCKS 0)

/-- Source `NoisePwrSpectrum::calculateFilterPolyCoeffs( aBlockCoeffVec, aPolyCoeffVec )`:
    returns `aPolyCoeffVec` after the call. -/
def calculateFilterPolyCoeffs (aBlockCoeffVec : List K) (aPolyCoeffVec : List K) : List K :=
  let bv : List K := (0 : K) :: aBlockCoeffVec
  let b : Nat → K := fun i => bv.getD i 0
  -- 0
  let p := aPolyCoeffVec.set 0 1
  -- 1
  let s12 := b 1 + b 2
  let s13 := s12 + b 3
  let s14 := s13 + b 4
  let s15 := s14 + b 5
  let s16 := s15 + b 6
  let s17 := s16 + b 7
  let p := p.set 1 (-s17)
  -- 2
  let b1b2 := b 1 * b 2
  let b1b3 := b 1 * b 3
  let b1b4 := b 1 * b 4
  let b1b5 := b 1 * b 5
  let b1b6 := b 1 * b 6
  let b1b7 := b 1 * b 7
  let b2b3 := b 2 * b 3
  let b2b4 := b 2 * b 4
  let b2b5 := b 2 * b 5
  let b2b6 := b 2 * b 6
  let b2b7 := b 2 * b 7
  let b3b4 := b 3 * b 4
  let b3b5 := b 3 * b 5
  let b3b6 := b 3 * b 6
  let b3b7 := b 3 * b 7
  let b4b5 := b 4 * b 5
  let b4b6 := b 4 * b 6
  let b4b7 := b 4 * b 7
  let b5b6 := b 5 * b 6
  let b5b7 := b 5 * b 7
  let b6b7 := b 6 * b 7
  let p := p.set 2 (b1b2 + b1b3 + b1b4 + b1b5 + b1b6 + b1b7
                      + b2b3 + b2b4 + b2b5 + b2b6 + b2b7
                      + b3b4 + b3b5 + b3b6 + b3b7
                      + b4b5 + b4b6 + b4b7
                      + b5b6 + b5b7
                      + b6b7)
  -- 3
  let s67 := b 6 + b 7
  let s57 := b 5 + s67
  let s47 := b 4 + s57
  let s37 := b 3 + s47
  let tmp := s37 * b1b2
              + s47 * b 3 * s12
              + s57 * b 4 * s13
              + s67 * b 5 * s14
              + b6b7 * s15
  let p := p.set 3 (-tmp)
  -- 4
  let sTmp5 := b6b7
  let tmp := b1b5 * sTmp5
  let sTmp4 := b 5 * s67 + sTmp5
  let tmp := tmp + b1b4 * sTmp4
  let sTmp3 := b 4 * s57 + sTmp4
  let tmp := tmp + b1b3 * sTmp3
  let sTmp2 := b 3 * s47 + sTmp3
  let tmp := tmp + b1b2 * sTmp2
  let tmp := tmp + b2b5 * sTmp5
  let tmp := tmp + b2b4 * sTmp4
  let tmp := tmp + b2b3 * sTmp3
  let tmp := tmp + b3b5 * sTmp5
  let tmp := tmp + b3b4 * sTmp4
  let tmp := tmp + b4b5 * sTmp5
  let p := p.set 4 tmp
  -- 5
  let sTmpx3 := b4b5 * s67 + b4b6 * b 7
                  + b5b6 * b 7
  let tmp := b1b2 * (b3b4 * s57 + b3b5 * s67 + b3b6 * b 7 + sTmpx3)
              + b1b3 * sTmpx3
              + b1b4 * b5b6 * b 7
              + b2b3 * sTmpx3
              + b4b5 * b6b7 * (b 2 + b 3)
  let p := p.set 5 (-tmp)
  -- 6
  let tmp := b1b2 * b3b4 * b5b6
              + b1b2 * b3b4 * b5b7
              + b1b2 * b3b4 * b6b7
              + b1b2 * b3b5 * b6b7
              + b1b2 * b4b5 * b6b7
              + b1b3 * b4b5 * b6b7
              + b2b3 * b4b5 * b6b7
  let p := p.set 6 tmp
  -- 7
  let tmp := b1b2 * b3b4 * b5b6 * b 7
  p.set 7 (-tmp)

/-- Source `NoisePwrSpectrum::updateFilter`: the new `mFilter.b` and `mFilter.a`;
    `fabs` is the absolute value. -/
def updateFilter (M : LibM K) (mGamma : K) (mBBlockCoeffVec mABlockCoeffVec : List K) :
    List K × List K :=
  let B := calculateFilterPolyCoeffs mBBlockCoeffVec (List.replicate (NR_OF_FILTER_BLOCKS + 1) 0)
  let A := calculateFilterPolyCoeffs mABlockCoeffVec (List.replicate (NR_OF_FILTER_BLOCKS + 1) 0)
  let nCoeff : K :=
    if mGamma < 0 then
      1 + 0.39 * M.pow |mGamma| 1.35845
    else if mGamma > 0 then
      1 + 19 * M.pow mGamma 4.39232
    else
      1
  let B := (List.range B.length).foldl (fun (B : List K) (i : Nat) => B.set i (B.getD i 0 / nCoeff)) B
  (B, A)

/-- The constructor `NoisePwrSpectrum::NoisePwrSpectrum( aGamma )`; the
    `DigitalFilter()` constructor sets `N = NR_OF_FILTER_BLOCKS`. -/
def NoisePwrSpectrum.new (M : LibM K) (aGamma : K) : NoisePwrSpectrum K :=
  let mGamma : K := if GAMMA_MIN ≤ aGamma ∧ aGamma ≤ GAMMA_MAX then aGamma else 0
  let blocks := calculateFilterBlockCoeffs M mGamma
  let f := updateFilter M mGamma blocks.2 blocks.1
  { mGamma := mGamma
    mBBlockCoeffVec := blocks.2
    mABlockCoeffVec := blocks.1
    mFilter := { N := NR_OF_FILTER_BLOCKS, b := f.1, a := f.2 } }

/-- Source `NoisePwrSpectrum::setGamma( aGamma )`. -/
def NoisePwrSpectrum.setGamma (M : LibM K) (s : NoisePwrSpectrum K) (aGamma : K) :
    NoisePwrSpectrum K :=
  if GAMMA_MIN ≤ aGamma ∧ aGamma ≤ GAMMA_MAX then
    let blocks := calculateFilterBlockCoeffs M aGamma
    let f := updateFilter M aGamma blocks.2 blocks.1
    { mGamma := aGamma
      mBBlockCoeffVec := blocks.2
      mABlockCoeffVec := blocks.1
      mFilter := { s.mFilter with b := f.1, a := f.2 } }
  else
    s

/-- One pass of the sample loop of `filterData` for sample `i`: the delay line
    `coeffVec` and the output vector after the pass. -/
def filterStep (mFilter : DigitalFilter K) (aInSignal : List K) (st : List K × List K)
    (i : Nat) : List K × List K :=
  let coeffVec := st.1
  let aOutSignal := st.2
  let coeffVec := if 0 = i % 512 then List.replicate coeffVec.length 0 else coeffVec
  -- for( j = mFilter.N; j >= 1; j-- ) coeffVec[j] = coeffVec[j - 1];
  let coeffVec := ((List.range' 1 mFilter.N).reverse).foldl
    (fun (c : List K) (j : Nat) => c.set j (c.getD (j - 1) 0)) coeffVec
  let coeffVec := coeffVec.set 0 (aInSignal.getD i 0)
  -- for( j = 1; j <= mFilter.N; j++ ) coeffVec[0] -= mFilter.a[j] * coeffVec[j];
  let coeffVec := (List.range' 1 mFilter.N).foldl
    (fun (c : List K) (j : Nat) => c.set 0 (c.getD 0 0 - mFilter.a.getD j 0 * c.getD j 0)) coeffVec
  let aOutSignal := aOutSignal.set i 0
  -- for( j = 0; j <= mFilter.N; j++ ) aOutSignal[i] += mFilter.b[j] * coeffVec[j];
  let aOutSignal := (List.range (mFilter.N + 1)).foldl
    (fun (o : List K) (j : Nat) => o.set i (o.getD i 0 + mFilter.b.getD j 0 * coeffVec.getD j 0))
    aOutSignal
  (coeffVec, aOutSignal)

/-- Source `NoisePwrSpectrum::filterData( aInSignal, aOutSignal )`: returns `aOutSignal`
    after the call. -/
def filterData (mFilter : DigitalFilter K) (aInSignal : List K) (aOutSignal : List K) : List K :=
  let nrPoints := aInSignal.length
  if nrPoints ≠ 0 then
    ((List.range nrPoints).foldl (filterStep mFilter aInSignal)
      (List.replicate (1 + mFilter.N) 0, aOutSignal)).2
  else
    aOutSignal

end Noise

/-! ## AudioSource.cpp: the audio source -/

/-- The part of a `QAudioFormat` the audio source reads (`int` getters). -/
structure QAudioFormat where
  sampleRate : Int
  channelCount : Int
  sampleSize : Int
deriving DecidableEq, Repr

/-- Source `QAudioFormat::isValid` on the modelled fields: a default-constructed format
    holds `-1` in each of them. -/
def QAudioFormat.isValid (f : QAudioFormat) : Bool :=
  f.sampleRate != -1 && f.channelCount != -1 && f.sampleSize != -1

/-- The format `Sippora::initializeAudio` builds: 44100 Hz, one channel, 16 bits. -/
def pcmFormat : QAudioFormat :=
  { sampleRate := 44100, channelCount := 1, sampleSize := 16 }

/-- The member variables of an `AudioSource` and the open flag of its `QIODevice`;
    `mAudioBufferLengthSeconds` is a `uint32_t`. -/
structure AudioSource (K : Type) where
  mAudioFormat : QAudioFormat
  mAudioBufferLengthSeconds : Nat
  mBufferPos : Int
  mAudioBuffer : List Nat
  mSignalsVector : List (SignalItem K)
  isOpen : Bool

/-- Source `QByteArray::resize( int )`: a negative size counts as 0, the kept bytes stay,
    new bytes (uninitialised in Qt) are modelled as 0. -/
def QByteArray.resize (a : List Nat) (size : Int) : List Nat :=
  let size32 : Int := (size + 2 ^ 31) % 2 ^ 32 - 2 ^ 31
  let n : Nat := (if size32 < 0 then 0 else size32).toNat
  a.take n ++ List.replicate (n - a.length) 0

section Render

variable {K : Type} [LinearOrderedField K] [FloorRing K]

/-- The time of sample `i` as both loops of `fillDataBuffer` compute it:
    `(double)( i % rate ) / rate` plus `(size_t)( i / rate )`, `i` being a `size_t`. -/
def sampleTime (sampleRate : Int) (i : Nat) : K :=
  let rate : Nat := (sampleRate % (2 ^ 64 : Int)).toNat
  let time : K := ((i % rate : Nat) : K) / (sampleRate : K)
  time + ((i / rate : Nat) : K)

/-- The first loop of `fillDataBuffer`: for every Noise signal the white samples
    `crtNoiseBuffer`, filtered unless `gamma` is 0, are added to `totalNoiseBuffer`.
    Returns `totalNoiseBuffer` and the statics afterwards. -/
def fillNoiseBuffer (M : LibM K) (sampleRate : Int) (mSignalsVector : List (SignalItem K))
    (bufferLength : Nat) (g : Statics) : List K × Statics :=
  mSignalsVector.foldl
    (fun (st : List K × Statics) (item : SignalItem K) =>
      match item with
      | .noise sig =>
        let r := (List.range bufferLength).foldl
          (fun (c : List K × Statics) (i : Nat) =>
            let v := getSignalValueNoise sig (sampleTime sampleRate i) c.2
            (c.1.set i v.1, v.2))
          (List.replicate bufferLength 0, st.2)
        let crtNoiseBuffer := r.1
        if 0 = sig.gamma then
          ((List.range bufferLength).foldl
            (fun (t : List K) (i : Nat) => t.set i (t.getD i 0 + crtNoiseBuffer.getD i 0))
            st.1, r.2)
        else
          let noisePwrSpectrum := NoisePwrSpectrum.new M sig.gamma
          let filteredNoiseBuffer :=
            filterData noisePwrSpectrum.mFilter crtNoiseBuffer (List.replicate bufferLength 0)
          ((List.range bufferLength).foldl
            (fun (t : List K) (i : Nat) => t.set i (t.getD i 0 + filteredNoiseBuffer.getD i 0))
            st.1, r.2)
      | _ => st)
    (List.replicate bufferLength 0, g)

/-- The last loop of `fillDataBuffer`,
    `for( size_t i = 0; bufferLength > 0; bufferLength -= SAMPLE_BYTES, i++ )`, writing
    the two bytes of `yValue` (low byte first) at `bufferData`.  `none`: exhausted
    fuel, `totalNoiseBuffer.at( i )` out of range, or a write outside the buffer. -/
def renderLoop (M : LibM K) (sampleRate : Int) (mSignalsVector : List (SignalItem K))
    (totalNoiseBuffer : List K) (SAMPLE_BYTES : Int) :
    Nat → Int → Nat → Int → List Nat → Option (List Nat)
  | fuel, bufferLength, i, bufferData, mAudioBuffer =>
    if bufferLength > 0 then
      match fuel with
      | 0 => none
      | fuel + 1 =>
        let time : K := sampleTime sampleRate i
        match totalNoiseBuffer[i]? with
        | none => none
        | some noise =>
          let yGenerated : K := getSignalValue M mSignalsVector time + noise
          let yValue : Nat := toInt16Bits (yGenerated * 32767)
          match memcpy mAudioBuffer bufferData [yValue % 256, yValue / 256] 0 2 with
          | none => none
          | some mAudioBuffer1 =>
            renderLoop M sampleRate mSignalsVector totalNoiseBuffer SAMPLE_BYTES fuel
              (bufferLength - SAMPLE_BYTES) (i + 1) (bufferData + SAMPLE_BYTES) mAudioBuffer1
    else
      some mAudioBuffer

/-- Source `AudioSource::fillDataBuffer`: the audio source and the statics afterwards.  The
    products with the `uint32_t` duration are 32-bit unsigned. -/
def fillDataBuffer (M : LibM K) (s : AudioSource K) (g : Statics) :
    Option (AudioSource K × Statics) :=
  let SAMPLE_BYTES : Int := Int.tdiv s.mAudioFormat.sampleSize 8
  let CHANNEL_BYTES : Int := s.mAudioFormat.channelCount * SAMPLE_BYTES
  let bufferLength : Int :=
    (s.mAudioFormat.sampleRate * (s.mAudioBufferLengthSeconds : Int)) % 2 ^ 32
  let noise := fillNoiseBuffer M s.mAudioFormat.sampleRate s.mSignalsVector bufferLength.toNat g
  let bufferLength : Int :=
    (s.mAudioFormat.sampleRate * CHANNEL_BYTES * (s.mAudioBufferLengthSeconds : Int)) % 2 ^ 32
  let mAudioBuffer := QByteArray.resize s.mAudioBuffer bufferLength
  match renderLoop M s.mAudioFormat.sampleRate s.mSignalsVector noise.1 SAMPLE_BYTES
          bufferLength.toNat bufferLength 0 0 mAudioBuffer with
  | none => none
  | some mAudioBuffer => some ({ s with mAudioBuffer := mAudioBuffer }, noise.2)

/-- The constructor `AudioSource::AudioSource( aFormat, aBufferLengthSeconds )`. -/
def AudioSource.new (aFormat : QAudioFormat) (aBufferLengthSeconds : Nat) : AudioSource K :=
  { mAudioFormat := aFormat
    mAudioBufferLengthSeconds := aBufferLengthSeconds % 2 ^ 32
    mBufferPos := 0
    mAudioBuffer := []
    mSignalsVector := []
    isOpen := false }

/-- Source `AudioSource::setBufferLength( aLength )`. -/
def AudioSource.setBufferLength (M : LibM K) (s : AudioSource K) (aLength : Nat) (g : Statics) :
    Option (AudioSource K × Statics) :=
  let s : AudioSource K :=
    { s with mAudioBufferLengthSeconds := aLength % 2 ^ 32, mBufferPos := 0, isOpen := false,
             mAudioBuffer := [] }
  if s.mAudioFormat.isValid then fillDataBuffer M s g else some (s, g)

/-- Source `AudioSource::setData( aSignalsVector )`. -/
def AudioSource.setData (M : LibM K) (s : AudioSource K) (aSignalsVector : List (SignalItem K))
    (g : Statics) : Option (AudioSource K × Statics) :=
  let s : AudioSource K :=
    { s with mBufferPos := 0, isOpen := false, mAudioBuffer := [],
             mSignalsVector := aSignalsVector }
  if s.mAudioFormat.isValid then fillDataBuffer M s g else some (s, g)

end Render

/-- Source `AudioSource::start()`: `open( QIODevice::ReadOnly )`. -/
def AudioSource.start {K : Type} (s : AudioSource K) : AudioSource K :=
  { s with isOpen := true }

/-- Source `AudioSource::stop()`. -/
def AudioSource.stop {K : Type} (s : AudioSource K) : AudioSource K :=
  { s with mBufferPos := 0, isOpen := false }

/-! ## AudioSource::readData -/

/-- Result of `readData`: the cursor `mBufferPos` after the call, the caller's
    buffer `aData` after the call and the returned byte count. -/
structure ReadResult where
  mBufferPos : Int
  aData : List Nat
  bytesRead : Int
deriving DecidableEq, Repr

/-- The `while( aLength - bytesRead > 0 )` loop of `AudioSource::readData`; `fuel`
    bounds the number of iterations, `none` is a faulting `memcpy` or exhausted fuel. -/
def readDataLoop (mAudioBuffer : List Nat) (aLength : Int) :
    Nat → Int → List Nat → Int → Option ReadResult
  | fuel, mBufferPos, aData, bytesRead =>
    if aLength - bytesRead > 0 then
      match fuel with
      | 0 => none
      | fuel + 1 =>
        let chunk : Int := min ((mAudioBuffer.length : Int) - mBufferPos) (aLength - bytesRead)
        match memcpy aData bytesRead mAudioBuffer mBufferPos chunk with
        | none => none
        | some aData1 =>
          readDataLoop mAudioBuffer aLength fuel
            (Int.tmod (mBufferPos + chunk) (mAudioBuffer.length : Int)) aData1
            (bytesRead + chunk)
    else
      some ⟨mBufferPos, aData, bytesRead⟩

/-- Source `AudioSource::readData( aData, aLength )` on the fields it touches: the audio
    buffer `mAudioBuffer` and the cursor `mBufferPos`.  Every iteration but possibly
    the first copies at least one byte, so `aLength + 1` iterations are enough. -/
def readData (mAudioBuffer : List Nat) (mBufferPos : Int) (aData : List Nat) (aLength : Int) :
    Option ReadResult :=
  if !mAudioBuffer.isEmpty then
    readDataLoop mAudioBuffer aLength (aLength.toNat + 1) mBufferPos aData 0
  else
    some ⟨mBufferPos, aData, 0⟩

/-- Source `AudioSource::readData` as a step on the audio source. -/
def AudioSource.readData {K : Type} (s : AudioSource K) (aData : List Nat) (aLength : Int) :
    Option (AudioSource K × List Nat × Int) :=
  (Sippora.readData s.mAudioBuffer s.mBufferPos aData aLength).map
    (fun r => ({ s with mBufferPos := r.mBufferPos }, r.aData, r.bytesRead))

/-! ## Specification-side definitions -/

/-- The bytes a wrapping read of `n` bytes from cursor `p` delivers:
    `buffer[(p + j) mod L]` for `j < n`. -/
def wrapBytes (buffer : List Nat) (p n : Nat) : List Nat :=
  (List.range n).map (fun j => buffer.getD ((p + j) % buffer.length) 0)

/-- The folded time of the periodic shapes as the specification words it:
    `tau = (t - tDelay) - floor((t - tDelay) / tPeriod) * tPeriod`. -/
def foldedTime {K : Type} [LinearOrderedField K] [FloorRing K] (tDelay tPeriod t : K) : K :=
  (t - tDelay) - (⌊(t - tDelay) / tPeriod⌋ : K) * tPeriod

/-- The two bytes (low, high) of sample `i` as the specification words them: the
    16-bit truncation of `32767 * (deterministic sum at t_i + total noise sample i)`. -/
def sampleBytes {K : Type} [LinearOrderedField K] [FloorRing K] (M : LibM K) (sampleRate : Int)
    (mSignalsVector : List (SignalItem K)) (totalNoiseBuffer : List K) (i : Nat) : List Nat :=
  [toInt16Bits ((getSignalValue M mSignalsVector (sampleTime sampleRate i)
      + totalNoiseBuffer.getD i 0) * 32767) % 256,
   toInt16Bits ((getSignalValue M mSignalsVector (sampleTime sampleRate i)
      + totalNoiseBuffer.getD i 0) * 32767) / 256]

/-- The bytes of samples `i, i + 1, ..., i + m - 1` in order. -/
def renderedBytes {K : Type} [LinearOrderedField K] [FloorRing K] (M : LibM K) (sampleRate : Int)
    (mSignalsVector : List (SignalItem K)) (totalNoiseBuffer : List K) (i m : Nat) : List Nat :=
  ((List.range' i m).map (sampleBytes M sampleRate mSignalsVector totalNoiseBuffer)).flatten

/-! ## Specification-side definitions for the rendered sample -/

/-- The generator state after the calls `generateRandomDek( seed )` for the seeds of the
    list, in order, from the zero-initialised statics: the states reachable from first
    use (the empty list gives the statics before first use). -/
def dekRun (K : Type) [LinearOrderedField K] (seeds : List Int) : DekStatics :=
  seeds.foldl (fun s idum => (generateRandomDek (K := K) idum s).2.2) DekStatics.init

/-- The range condition on the statics of `generateRandomDek`: a 56-slot table whose
    entries are all in `[0, MBIG)` and two rotating indices in `0..55`. -/
def DekStatics.InRange (s : DekStatics) : Prop :=
  s.ma.length = 56 ∧ (∀ x ∈ s.ma, 0 ≤ x ∧ x < MBIG)
    ∧ 0 ≤ s.inext ∧ s.inext ≤ 55 ∧ 0 ≤ s.inextp ∧ s.inextp ≤ 55

instance (s : DekStatics) : Decidable s.InRange := by
  unfold DekStatics.InRange
  infer_instance

/-- The delay line `coeffVec` of `filterData` after the first `k` samples of `aInSignal`
    (the output vector does not enter the delay line). -/
def filterDelayLine {K : Type} [LinearOrderedField K] (mFilter : DigitalFilter K)
    (aInSignal : List K) (k : Nat) : List K :=
  ((List.range k).foldl (filterStep mFilter aInSignal)
    (List.replicate (1 + mFilter.N) 0, [])).1

/-- The output sample `filterData` computes from the delay line `coeffVec`:
    `sum over j = 0..N of mFilter.b[j] * coeffVec[j]`. -/
def filterOutput {K : Type} [LinearOrderedField K] (mFilter : DigitalFilter K)
    (coeffVec : List K) : K :=
  ((List.range (mFilter.N + 1)).map (fun j => mFilter.b.getD j 0 * coeffVec.getD j 0)).sum

/-- The calls a client can make on an `AudioSource` after the constructor. -/
inductive AudioCall (K : Type) where
  | setData (aSignalsVector : List (SignalItem K))
  | setBufferLength (aLength : Nat)
  | start
  | stop
  | readData (aData : List Nat) (aLength : Int)

/-- One call on the audio source and the generator statics; `none` when the call
    faults or runs out of fuel. -/
def AudioSource.call {K : Type} [LinearOrderedField K] [FloorRing K] (M : LibM K)
    (st : AudioSource K × Statics) : AudioCall K → Option (AudioSource K × Statics)
  | .setData aSignalsVector => AudioSource.setData M st.1 aSignalsVector st.2
  | .setBufferLength aLength => AudioSource.setBufferLength M st.1 aLength st.2
  | .start => some (st.1.start, st.2)
  | .stop => some (st.1.stop, st.2)
  | .readData aData aLength => (st.1.readData aData aLength).map (fun r => (r.1, st.2))

/-- A sequence of calls, in order. -/
def AudioSource.calls {K : Type} [LinearOrderedField K] [FloorRing K] (M : LibM K) :
    List (AudioCall K) → AudioSource K × Statics → Option (AudioSource K × Statics)
  | [], st => some st
  | c :: cs, st => (AudioSource.call M st c).bind (AudioSource.calls M cs)

/-- The cursor invariant: the cursor is 0 when the buffer is empty and inside the
    buffer otherwise. -/
def AudioSource.CursorOk {K : Type} (s : AudioSource K) : Prop :=
  (s.mAudioBuffer = [] → s.mBufferPos = 0)
    ∧ (s.mAudioBuffer ≠ [] → 0 ≤ s.mBufferPos ∧ s.mBufferPos < s.mAudioBuffer.length)

instance {K : Type} (s : AudioSource K) : Decidable s.CursorOk := by
  unfold AudioSource.CursorOk
  infer_instance

/-- The round function of `AudioSource::pseudoDes`: the value that round `i` of the loop
    XORs into `*lword`, as a function of the right word `irword` (the expression
    `( ( ia = ( ib >> 16 ) | ( ( ib & 0xffff ) << 16 ) ) ^ C2[i] ) + itmpl * itmph` of the
    source, in 32-bit arithmetic). -/
def pseudoDesF (i irword : Nat) : Nat :=
  let C1 : List Nat := [0xbaa96887, 0x1e17d32c, 0x03bcdc3c, 0x0f33d1b2]
  let C2 : List Nat := [0x4b0f3b58, 0xe874f0c3, 0x6955c5a6, 0x55a7ca46]
  let ia := irword ^^^ C1.getD i 0
  let itmpl := ia &&& 0xffff
  let itmph := ia >>> 16
  let ib := (itmpl * itmpl + (2 ^ 32 - 1 - (itmph * itmph) % 2 ^ 32)) % 2 ^ 32
  let ia := (ib >>> 16) ||| ((ib &&& 0xffff) <<< 16)
  ((ia ^^^ C2.getD i 0) + itmpl * itmph) % 2 ^ 32

/-- One round of the mixing as the specification words it: `(l, r)` goes to
    `(r, l XOR F_i(r))`. -/
def pseudoDesRound (i : Nat) (w : Nat × Nat) : Nat × Nat :=
  (w.2, w.1 ^^^ pseudoDesF i w.2)

/-- The inverse of one round: `(l, r)` goes to `(r XOR F_i(l), l)`. -/
def pseudoDesRoundInv (i : Nat) (w : Nat × Nat) : Nat × Nat :=
  (w.2 ^^^ pseudoDesF i w.1, w.1)

/-- The inverse of the 4-round mixing: the inverse rounds applied in the order 3, 2, 1, 0. -/
def pseudoDesInv (lword irword : Nat) : Nat × Nat :=
  [3, 2, 1, 0].foldl (fun (w : Nat × Nat) (i : Nat) => pseudoDesRoundInv i w) (lword, irword)

/-! # Theorems -/

/-! ## The circular playback buffer (`readData`) -/

theorem wrapBytes_length (buffer : List Nat) (p n : Nat) :
    (wrapBytes buffer p n).length = n := by
  simp [wrapBytes]


theorem wrapBytes_head (buffer : List Nat) (p c : Nat) (h : p + c ≤ buffer.length) :
    wrapBytes buffer p c = (buffer.drop p).take c := by
  apply List.ext_getElem
  · simp [wrapBytes]; omega
  · intro i h1 h2
    simp [wrapBytes] at h1 ⊢
    have hi : p + i < buffer.length := by omega
    rw [Nat.mod_eq_of_lt hi]
    simp [List.getD_eq_getElem?_getD, List.getElem?_eq_getElem hi]

theorem wrapBytes_add (buffer : List Nat) (p c m : Nat) :
    wrapBytes buffer p (c + m)
      = wrapBytes buffer p c ++ wrapBytes buffer ((p + c) % buffer.length) m := by
  simp only [wrapBytes, List.range_add, List.map_append, List.map_map]
  congr 1
  apply List.map_congr_left
  intro j _
  simp only [Function.comp]
  congr 1
  rw [Nat.add_mod ((p + c) % buffer.length) j, Nat.mod_mod, ← Nat.add_mod, Nat.add_assoc]


theorem memcpy_ok (dst src : List Nat) (r p c : Nat)
    (hd : r + c ≤ dst.length) (hs : p + c ≤ src.length) :
    memcpy dst r src p c
      = some (dst.take r ++ (src.drop p).take c ++ dst.drop (r + c)) := by
  unfold memcpy
  rw [if_pos (by omega)]
  simp

theorem readDataLoop_spec (buf : List Nat) (n : Nat) :
    ∀ (fuel r p : Nat) (aData : List Nat),
      p < buf.length → r ≤ n → n ≤ aData.length → n - r ≤ fuel →
      readDataLoop buf n fuel p aData r
        = some ⟨((p + (n - r)) % buf.length : Nat),
                aData.take r ++ wrapBytes buf p (n - r) ++ aData.drop n, n⟩ := by
  intro fuel
  induction fuel with
  | zero =>
    intro r p aData hp hr hn hf
    have hrn : r = n := by omega
    subst hrn
    unfold readDataLoop
    simp [wrapBytes, Nat.mod_eq_of_lt hp]
  | succ fuel ih =>
    intro r p aData hp hr hn hf
    unfold readDataLoop
    by_cases hrn : r = n
    · subst hrn
      simp [wrapBytes, Nat.mod_eq_of_lt hp]
    · have hpos : (n : Int) - (r : Int) > 0 := by omega
      rw [if_pos hpos]
      obtain ⟨c, hc⟩ : ∃ c : Nat, c = min (buf.length - p) (n - r) := ⟨_, rfl⟩
      have hcI : min ((buf.length : Int) - (p : Int)) ((n : Int) - (r : Int)) = (c : Int) := by
        omega
      simp only [hcI]
      rw [memcpy_ok aData buf r p c (by omega) (by omega)]
      simp only
      have htm : Int.tmod ((p : Int) + (c : Int)) (buf.length : Int)
          = (((p + c) % buf.length : Nat) : Int) := by
        rw [Int.tmod_eq_emod (by omega) (by omega)]
        push_cast
        rfl
      rw [htm]
      have hrc : (r : Int) + (c : Int) = ((r + c : Nat) : Int) := by push_cast; rfl
      rw [hrc]
      have hp1 : (p + c) % buf.length < buf.length := Nat.mod_lt _ (by omega)
      rw [ih (r + c) ((p + c) % buf.length) _ hp1 (by omega) (by simp; omega) (by omega)]
      have hsplit : n - r = c + (n - (r + c)) := by omega
      have hw : wrapBytes buf p (n - r)
          = (buf.drop p).take c ++ wrapBytes buf ((p + c) % buf.length) (n - (r + c)) := by
        rw [hsplit, wrapBytes_add, wrapBytes_head buf p c (by omega)]
      have hlen : (aData.take r ++ (buf.drop p).take c).length = r + c := by
        simp; omega
      have ht : (aData.take r ++ (buf.drop p).take c ++ aData.drop (r + c)).take (r + c)
          = aData.take r ++ (buf.drop p).take c := by
        rw [List.take_append_of_le_length (by omega), List.take_of_length_le (by omega)]
      have hd : (aData.take r ++ (buf.drop p).take c ++ aData.drop (r + c)).drop n
          = aData.drop n := by
        have : n = (aData.take r ++ (buf.drop p).take c).length + (n - (r + c)) := by omega
        rw [this, List.drop_append, List.drop_drop]
        congr 1
        omega
      have hmod : ((p + c) % buf.length + (n - (r + c))) % buf.length
          = (p + (n - r)) % buf.length := by
        rw [Nat.add_mod ((p + c) % buf.length), Nat.mod_mod, ← Nat.add_mod]
        have : p + c + (n - (r + c)) = p + (n - r) := by omega
        rw [this]
      rw [ht, hd, hw, hmod]
      simp only [List.append_assoc]


theorem readData_nonempty (buf aData : List Nat) (p n : Nat)
    (hp : p < buf.length) (hn : n ≤ aData.length) :
    readData buf p aData n
      = some ⟨((p + n) % buf.length : Nat), wrapBytes buf p n ++ aData.drop n, n⟩ := by
  unfold readData
  have hne : buf.isEmpty = false := by
    cases buf with
    | nil => simp at hp
    | cons a l => rfl
  simp only [hne, Bool.not_false, if_true]
  have h := readDataLoop_spec buf n (Int.toNat (n : Int) + 1) 0 p aData hp (by omega) hn
    (by simp)
  simpa using h

theorem wrapBytes_getElem_opt (buf : List Nat) (p n j : Nat) (hL : 0 < buf.length) (hj : j < n) :
    (wrapBytes buf p n)[j]? = buf[(p + j) % buf.length]? := by
  have hm : (p + j) % buf.length < buf.length := Nat.mod_lt _ hL
  simp [wrapBytes, List.getElem?_range hj, hj, List.getD_eq_getElem?_getD,
    List.getElem?_eq_getElem hm]

/-- C1: on a non-empty buffer of length `L` with cursor `p < L`, a read of `n` bytes
    succeeds, byte `j < n` handed to the caller is `buffer[(p + j) mod L]`, the cursor
    afterwards is `(p + n) mod L`, the caller's bytes from `n` on are untouched; a read
    running past the end delivers the tail followed by the head, also for `n > L`. -/
theorem readData_wraps (mAudioBuffer aData : List Nat) (p n : Nat)
    (hp : p < mAudioBuffer.length) (hn : n ≤ aData.length) :
    (∃ out : List Nat,
      readData mAudioBuffer p aData n
        = some ⟨((p + n) % mAudioBuffer.length : Nat), out, n⟩
      ∧ out.length = aData.length
      ∧ (∀ j, j < n → out[j]? = mAudioBuffer[(p + j) % mAudioBuffer.length]?)
      ∧ (∀ j, n ≤ j → out[j]? = aData[j]?)
      ∧ (mAudioBuffer.length ≤ p + n → p + n ≤ 2 * mAudioBuffer.length →
          out.take n = mAudioBuffer.drop p ++ mAudioBuffer.take (p + n - mAudioBuffer.length))) := by
  refine ⟨wrapBytes mAudioBuffer p n ++ aData.drop n,
    readData_nonempty mAudioBuffer aData p n hp hn, ?_, ?_, ?_, ?_⟩
  · simp [wrapBytes_length]; omega
  · intro j hj
    rw [List.getElem?_append_left (by simp [wrapBytes_length, hj])]
    exact wrapBytes_getElem_opt mAudioBuffer p n j (by omega) hj
  · intro j hj
    rw [List.getElem?_append_right (by simp [wrapBytes_length, hj])]
    simp only [wrapBytes_length, List.getElem?_drop]
    congr 1
    omega
  · intro h1 h2
    rw [List.take_append_of_le_length (by simp [wrapBytes_length]),
      List.take_of_length_le (by simp [wrapBytes_length])]
    have hsplit : n = (mAudioBuffer.length - p) + (p + n - mAudioBuffer.length) := by omega
    rw [hsplit, wrapBytes_add, wrapBytes_head mAudioBuffer p _ (by omega)]
    have h0 : (p + (mAudioBuffer.length - p)) % mAudioBuffer.length = 0 := by
      have : p + (mAudioBuffer.length - p) = mAudioBuffer.length := by omega
      rw [this, Nat.mod_self]
    rw [h0, wrapBytes_head mAudioBuffer 0 _ (by omega)]
    have hdl : (mAudioBuffer.drop p).length = mAudioBuffer.length - p := by simp
    rw [List.take_of_length_le (by omega)]
    simp
    congr 1
    omega

/-- Witness for C1: a 3-byte buffer read from cursor 2 for 4 bytes. -/
theorem readData_wraps_witness :
    (∃ out : List Nat,
      readData [10, 20, 30] ((2 : Nat) : Int) [0, 0, 0, 0, 0] ((4 : Nat) : Int)
        = some ⟨((2 + 4) % [10, 20, 30].length : Nat), out, (4 : Nat)⟩
      ∧ out.length = [0, 0, 0, 0, 0].length
      ∧ (∀ j, j < 4 → out[j]? = [10, 20, 30][(2 + j) % [10, 20, 30].length]?)
      ∧ (∀ j, 4 ≤ j → out[j]? = [0, 0, 0, 0, 0][j]?)
      ∧ ([10, 20, 30].length ≤ 2 + 4 → 2 + 4 ≤ 2 * [10, 20, 30].length →
          out.take 4 = [10, 20, 30].drop 2 ++ [10, 20, 30].take (2 + 4 - [10, 20, 30].length))) :=
  readData_wraps [10, 20, 30] [0, 0, 0, 0, 0] 2 4 (by decide) (by decide)



/-- C2: with an empty audio buffer `readData` returns 0 and leaves cursor and caller
    buffer as they were, for every requested length; with a non-empty buffer, a cursor
    inside it and `n ≥ 0` it returns exactly `n`. -/
theorem readData_count (mAudioBuffer aData : List Nat) (mBufferPos aLength : Int) :
    (mAudioBuffer = [] →
      readData mAudioBuffer mBufferPos aData aLength = some ⟨mBufferPos, aData, 0⟩)
    ∧ (mAudioBuffer ≠ [] → 0 ≤ mBufferPos → mBufferPos < mAudioBuffer.length →
        0 ≤ aLength → aLength ≤ aData.length →
        ∃ r, readData mAudioBuffer mBufferPos aData aLength = some r
              ∧ r.bytesRead = aLength) := by
  constructor
  · intro h
    subst h
    rfl
  · intro _ h0 h1 h2 h3
    obtain ⟨p, rfl⟩ := Int.eq_ofNat_of_zero_le h0
    obtain ⟨n, rfl⟩ := Int.eq_ofNat_of_zero_le h2
    exact ⟨_, readData_nonempty mAudioBuffer aData p n (by omega) (by omega), rfl⟩

/-- Witness for C2: the empty buffer with a negative request, and a 2-byte buffer. -/
theorem readData_count_witness :
    readData [] 5 [1, 2, 3] (-7) = some ⟨5, [1, 2, 3], 0⟩
    ∧ ∃ r, readData [7, 8] 1 [0, 0, 0, 0, 0] 5 = some r ∧ r.bytesRead = 5 :=
  ⟨(readData_count [] [1, 2, 3] 5 (-7)).1 rfl,
   (readData_count [7, 8] [0, 0, 0, 0, 0] 1 5).2 (by decide) (by decide) (by decide)
     (by decide) (by decide)⟩

/-- C3: reading exactly `L` bytes of a non-empty buffer of length `L` from cursor 0
    returns the whole buffer in order and leaves the cursor at 0; from any cursor
    `p < L` the cursor after reading `L` bytes is `p` again. -/
theorem readData_full_cycle (mAudioBuffer aData : List Nat) (p : Nat)
    (hp : p < mAudioBuffer.length) (hn : mAudioBuffer.length ≤ aData.length) :
    readData mAudioBuffer 0 aData mAudioBuffer.length
        = some ⟨0, mAudioBuffer ++ aData.drop mAudioBuffer.length, mAudioBuffer.length⟩
    ∧ readData mAudioBuffer p aData mAudioBuffer.length
        = some ⟨p, mAudioBuffer.drop p ++ mAudioBuffer.take p
                    ++ aData.drop mAudioBuffer.length, mAudioBuffer.length⟩ := by
  constructor
  · have h := readData_nonempty mAudioBuffer aData 0 mAudioBuffer.length (by omega) hn
    rw [wrapBytes_head mAudioBuffer 0 _ (by omega)] at h
    simpa using h
  · have h := readData_nonempty mAudioBuffer aData p mAudioBuffer.length hp hn
    rw [Nat.add_mod_right, Nat.mod_eq_of_lt hp] at h
    rw [h]
    have hsplit : mAudioBuffer.length = (mAudioBuffer.length - p) + p := by omega
    have hw : wrapBytes mAudioBuffer p mAudioBuffer.length
        = mAudioBuffer.drop p ++ mAudioBuffer.take p := by
      conv_lhs => rw [hsplit]
      rw [wrapBytes_add, wrapBytes_head mAudioBuffer p _ (by omega)]
      have h0 : (p + (mAudioBuffer.length - p)) % mAudioBuffer.length = 0 := by
        have : p + (mAudioBuffer.length - p) = mAudioBuffer.length := by omega
        rw [this, Nat.mod_self]
      rw [h0, wrapBytes_head mAudioBuffer 0 _ (by omega)]
      simp
    rw [hw]

/-- Witness for C3: a 3-byte buffer, cursor 1. -/
theorem readData_full_cycle_witness :
    readData [10, 20, 30] 0 [0, 0, 0, 0] ([10, 20, 30].length)
        = some ⟨0, [10, 20, 30] ++ [0, 0, 0, 0].drop [10, 20, 30].length, [10, 20, 30].length⟩
    ∧ readData [10, 20, 30] ((1 : Nat) : Int) [0, 0, 0, 0] [10, 20, 30].length
        = some ⟨((1 : Nat) : Int), [10, 20, 30].drop 1 ++ [10, 20, 30].take 1
                    ++ [0, 0, 0, 0].drop [10, 20, 30].length, [10, 20, 30].length⟩ :=
  readData_full_cycle [10, 20, 30] [0, 0, 0, 0] 1 (by decide) (by decide)

/-! ## The noise colour filter at `gamma = 0` -/

section FilterThms
variable {K : Type} [LinearOrderedField K]

theorem getD_set_self (o : List K) (i : Nat) (v : K) (hi : i < o.length) :
    (o.set i v).getD i 0 = v := by
  simp [List.getD_eq_getElem?_getD, List.getElem?_set_self, hi]

theorem set_getD_self (o : List K) (i : Nat) (hi : i < o.length) :
    o.set i (o.getD i 0) = o := by
  apply List.ext_getElem
  · simp
  · intro n h1 h2
    by_cases h : i = n
    · subst h
      simp [List.getD_eq_getElem?_getD, List.getElem?_eq_getElem hi]
    · simp [List.getElem_set_ne h]

theorem foldl_set_add (f : Nat → K) (i : Nat) (l : List Nat) :
    ∀ (o : List K), i < o.length →
      l.foldl (fun (o : List K) (j : Nat) => o.set i (o.getD i 0 + f j)) o
        = o.set i (o.getD i 0 + (l.map f).sum) := by
  induction l with
  | nil =>
    intro o hi
    simp only [List.foldl_nil, List.map_nil, List.sum_nil, add_zero]
    exact (set_getD_self o i hi).symm
  | cons j l ih =>
    intro o hi
    simp only [List.foldl_cons, List.map_cons, List.sum_cons]
    rw [ih _ (by simpa using hi), getD_set_self o i _ hi, List.set_set, add_assoc]

theorem filterStep_identity (f : DigitalFilter K) (hN : f.N = 7) (hab : f.b = f.a)
    (h0 : f.b.getD 0 0 = 1) (x : List K) (c out : List K) (i : Nat)
    (hc : c.length = 8) (hi : i < out.length) :
    ((filterStep f x (c, out) i).1).length = 8
      ∧ (filterStep f x (c, out) i).2 = out.set i (x.getD i 0) := by
  match c, hc with
  | [c0, c1, c2, c3, c4, c5, c6, c7], _ =>
    unfold filterStep
    simp only [hN]
    constructor
    · split_ifs <;> simp [List.range', List.replicate]
    · rw [foldl_set_add (fun j => f.b.getD j 0 * _) i _ _ (by simpa using hi)]
      rw [getD_set_self out i 0 hi, List.set_set]
      congr 1
      rw [← hab]
      have h0q : f.b[0]?.getD 0 = 1 := by
        rw [← List.getD_eq_getElem?_getD]
        exact h0
      split_ifs <;>
      · simp [List.range', List.replicate, List.range_succ, h0q]
        try ring


theorem filterFold_identity (f : DigitalFilter K) (hN : f.N = 7) (hab : f.b = f.a)
    (h0 : f.b.getD 0 0 = 1) (x out : List K) (hlen : x.length ≤ out.length) :
    ∀ n, n ≤ x.length →
      (((List.range n).foldl (filterStep f x) (List.replicate (1 + f.N) 0, out)).1).length = 8
      ∧ ((List.range n).foldl (filterStep f x) (List.replicate (1 + f.N) 0, out)).2
          = x.take n ++ out.drop n := by
  intro n
  induction n with
  | zero =>
    intro _
    simp [hN]
  | succ n ih =>
    intro hn
    obtain ⟨h1, h2⟩ := ih (by omega)
    rw [List.range_succ, List.foldl_append, List.foldl_cons, List.foldl_nil]
    generalize (List.range n).foldl (filterStep f x) (List.replicate (1 + f.N) 0, out) = r at h1 h2
    obtain ⟨c, o⟩ := r
    simp only at h1 h2
    have hio : n < o.length := by
      rw [h2]
      simp
      omega
    obtain ⟨h3, h4⟩ := filterStep_identity f hN hab h0 x c o n h1 hio
    refine ⟨h3, ?_⟩
    rw [h4, h2]
    have hnx : n < x.length := by omega
    have hno : n < out.length := by omega
    rw [List.set_append_right _ _ (by simp)]
    have ht : (x.take n).length = n := by simp; omega
    have hts : x.take (n + 1) = x.take n ++ [x[n]] := by
      rw [List.take_succ, List.getElem?_eq_getElem hnx]
      rfl
    rw [ht, Nat.sub_self, List.drop_eq_getElem_cons hno, List.set_cons_zero, hts,
      List.getD_eq_getElem?_getD, List.getElem?_eq_getElem hnx, List.append_assoc]
    rfl

theorem filterData_identity (f : DigitalFilter K) (hN : f.N = 7) (hab : f.b = f.a)
    (h0 : f.b.getD 0 0 = 1) (x out : List K) (hlen : x.length ≤ out.length) :
    filterData f x out = x ++ out.drop x.length := by
  unfold filterData
  by_cases hx : x.length = 0
  · have : x = [] := List.length_eq_zero.mp hx
    subst this
    simp
  · simp only [ne_eq, hx, not_false_eq_true, if_true]
    rw [(filterFold_identity f hN hab h0 x out hlen x.length le_rfl).2]
    simp


theorem calculateFilterBlockCoeffs_zero (M : LibM K) :
    (calculateFilterBlockCoeffs M (0 : K)).1 = (calculateFilterBlockCoeffs M (0 : K)).2 := by
  simp [calculateFilterBlockCoeffs, NR_OF_FILTER_BLOCKS, List.range', List.replicate]

theorem calculateFilterPolyCoeffs_head (c : List K) :
    (calculateFilterPolyCoeffs c (List.replicate (NR_OF_FILTER_BLOCKS + 1) 0)).getD 0 0 = 1 := by
  simp [calculateFilterPolyCoeffs, NR_OF_FILTER_BLOCKS, List.replicate]

theorem foldl_div_one (l : List K) :
    ∀ n, n ≤ l.length →
      (List.range n).foldl (fun (B : List K) (i : Nat) => B.set i (B.getD i 0 / 1)) l = l := by
  intro n
  induction n with
  | zero => intro _; rfl
  | succ n ih =>
    intro hn
    rw [List.range_succ, List.foldl_append, ih (by omega)]
    simp only [List.foldl_cons, List.foldl_nil, div_one]
    exact set_getD_self l n (by omega)

theorem updateFilter_zero (M : LibM K) (c : List K) :
    updateFilter M (0 : K) c c
      = (calculateFilterPolyCoeffs c (List.replicate (NR_OF_FILTER_BLOCKS + 1) 0),
         calculateFilterPolyCoeffs c (List.replicate (NR_OF_FILTER_BLOCKS + 1) 0)) := by
  unfold updateFilter
  simp only [lt_irrefl, gt_iff_lt, if_false]
  rw [foldl_div_one _ _ le_rfl]

theorem new_zero_filter (M : LibM K) :
    (NoisePwrSpectrum.new M (0 : K)).mFilter.N = 7
    ∧ (NoisePwrSpectrum.new M (0 : K)).mFilter.b = (NoisePwrSpectrum.new M (0 : K)).mFilter.a
    ∧ (NoisePwrSpectrum.new M (0 : K)).mFilter.b.getD 0 0 = 1 := by
  have hg : (if (GAMMA_MIN : K) ≤ 0 ∧ (0 : K) ≤ GAMMA_MAX then (0 : K) else 0) = 0 := by
    split_ifs <;> rfl
  unfold NoisePwrSpectrum.new
  simp only [hg]
  rw [← calculateFilterBlockCoeffs_zero, updateFilter_zero]
  exact ⟨rfl, rfl, calculateFilterPolyCoeffs_head _⟩

/-- C4: a `NoisePwrSpectrum` built with `gamma = 0` has equal numerator and denominator
    polynomials with leading coefficient 1 (gain constant 1), and its `filterData` copies
    every input sequence, of any length, to the output unchanged (exact arithmetic);
    output entries past the input length keep their value. -/
theorem filterData_gamma_zero (M : LibM K) (aInSignal aOutSignal : List K)
    (hlen : aInSignal.length ≤ aOutSignal.length) :
    (NoisePwrSpectrum.new M (0 : K)).mFilter.b = (NoisePwrSpectrum.new M (0 : K)).mFilter.a
    ∧ (NoisePwrSpectrum.new M (0 : K)).mGamma = 0
    ∧ filterData (NoisePwrSpectrum.new M (0 : K)).mFilter aInSignal aOutSignal
        = aInSignal ++ aOutSignal.drop aInSignal.length
    ∧ (aOutSignal.length = aInSignal.length →
        filterData (NoisePwrSpectrum.new M (0 : K)).mFilter aInSignal aOutSignal = aInSignal) := by
  obtain ⟨hN, hab, h0⟩ := new_zero_filter M
  have hid := filterData_identity _ hN hab h0 aInSignal aOutSignal hlen
  refine ⟨hab, ?_, hid, ?_⟩
  · unfold NoisePwrSpectrum.new
    simp only
    split_ifs <;> rfl
  · intro h
    rw [hid, ← h, List.drop_length, List.append_nil]

end FilterThms

/-- Witness for C4: a rational stand-in for the `<cmath>` functions, three samples. -/
theorem filterData_gamma_zero_witness :
    (NoisePwrSpectrum.new (⟨id, id, id, fun x _ => x, id, 3⟩ : LibM ℚ) 0).mFilter.b
      = (NoisePwrSpectrum.new (⟨id, id, id, fun x _ => x, id, 3⟩ : LibM ℚ) 0).mFilter.a
    ∧ (NoisePwrSpectrum.new (⟨id, id, id, fun x _ => x, id, 3⟩ : LibM ℚ) 0).mGamma = 0
    ∧ filterData (NoisePwrSpectrum.new (⟨id, id, id, fun x _ => x, id, 3⟩ : LibM ℚ) 0).mFilter
          [1, -2, 3] [0, 0, 0]
        = [1, -2, 3] ++ [0, 0, 0].drop [(1 : ℚ), -2, 3].length
    ∧ ([(0 : ℚ), 0, 0].length = [(1 : ℚ), -2, 3].length →
        filterData (NoisePwrSpectrum.new (⟨id, id, id, fun x _ => x, id, 3⟩ : LibM ℚ) 0).mFilter
          [1, -2, 3] [0, 0, 0] = [1, -2, 3]) :=
  filterData_gamma_zero _ [1, -2, 3] [0, 0, 0] (by decide)

/-! ## The periodic shapes -/

section PeriodicThms
variable {K : Type} [LinearOrderedField K] [FloorRing K]

theorem toUInt32_cast (x : K) (h0 : 0 ≤ x) (h1 : x < 2 ^ 32) :
    ((toUInt32 x : Nat) : K) = (⌊x⌋ : K) := by
  unfold toUInt32 truncate
  rw [if_pos h0]
  have hf0 : 0 ≤ ⌊x⌋ := Int.floor_nonneg.mpr h0
  have hf1 : ⌊x⌋ < 2 ^ 32 := by
    rw [Int.floor_lt]
    exact_mod_cast h1
  rw [Int.emod_eq_of_lt hf0 hf1]
  have : ((⌊x⌋.toNat : Int)) = ⌊x⌋ := Int.toNat_of_nonneg hf0
  calc ((⌊x⌋.toNat : Nat) : K) = (((⌊x⌋.toNat : Nat) : Int) : K) := by push_cast; rfl
    _ = (⌊x⌋ : K) := by rw [this]

theorem toUInt32_lt (x : K) : toUInt32 x < 2 ^ 32 := by
  unfold toUInt32
  have h := Int.emod_lt_of_pos (truncate x) (show (0 : Int) < 2 ^ 32 by norm_num)
  have h2 := Int.emod_nonneg (truncate x) (show (2 ^ 32 : Int) ≠ 0 by norm_num)
  omega

theorem tInPer_eq (tDelay tPeriod t : K) (hP : 0 < tPeriod) (ht : tDelay ≤ t)
    (hb : (t - tDelay) / tPeriod < 2 ^ 32) :
    (t - tDelay) - ((toUInt32 ((t - tDelay) / tPeriod) : Nat) : K) * tPeriod
      = foldedTime tDelay tPeriod t := by
  unfold foldedTime
  rw [toUInt32_cast _ (div_nonneg (sub_nonneg.mpr ht) hP.le) hb]

theorem foldedTime_unit (t : K) (h0 : 0 ≤ t) (h1 : t < 1) : foldedTime 0 1 t = t := by
  unfold foldedTime
  have hf : ⌊(t - 0) / 1⌋ = 0 := by
    rw [Int.floor_eq_iff]
    constructor
    · simpa using h0
    · simpa using h1
  rw [hf]
  simp

theorem getSignalValueTriangle_eq (s : SignalTriangle K) (t : K)
    (hP : 0 < s.tPeriod) (ht : s.tDelay ≤ t) (hb : (t - s.tDelay) / s.tPeriod < 2 ^ 32) :
    getSignalValueTriangle s t
      = if foldedTime s.tDelay s.tPeriod t ≤ s.tRise then
          s.yMin + (s.yMax - s.yMin) * foldedTime s.tDelay s.tPeriod t / s.tRise
        else
          s.yMax - (s.yMax - s.yMin) * (foldedTime s.tDelay s.tPeriod t - s.tRise) / s.tFall := by
  unfold getSignalValueTriangle
  rw [if_pos (ge_iff_le.mpr ht)]
  simp only [tInPer_eq s.tDelay s.tPeriod t hP ht hb]

theorem getSignalValueTriangle_default (t : K) (h0 : 0 ≤ t) (h1 : t < 1) :
    getSignalValueTriangle (SignalTriangle.default : SignalTriangle K) t
      = if t ≤ 0.5 then -1 + (1 - -1) * t / 0.5 else 1 - (1 - -1) * (t - 0.5) / 0.5 := by
  have h := getSignalValueTriangle_eq (SignalTriangle.default : SignalTriangle K) t
    (by simp [SignalTriangle.default]) (by simpa [SignalTriangle.default] using h0)
    (by
      simp only [SignalTriangle.default, sub_zero, div_one]
      calc t < 1 := h1
        _ < 2 ^ 32 := by norm_num)
  simp only [SignalTriangle.default] at h ⊢
  rw [foldedTime_unit t h0 h1] at h
  exact h

/-- C5 (amended): for a Triangle with `tPeriod > 0` and `t ≥ tDelay` whose period count
    `(t - tDelay) / tPeriod` is below `2^32`, the value is
    `yMin + (yMax - yMin) * tau / tRise` when the folded time `tau ≤ tRise` and
    `yMax - (yMax - yMin) * (tau - tRise) / tFall` when `tau > tRise`; the default
    Triangle has value -1, 0, 1, 0 at 0, 0.25, 0.5, 0.75. -/
theorem getSignalValueTriangle_formula (s : SignalTriangle K) (t : K)
    (hP : 0 < s.tPeriod) (ht : s.tDelay ≤ t) (hb : (t - s.tDelay) / s.tPeriod < 2 ^ 32) :
    (foldedTime s.tDelay s.tPeriod t ≤ s.tRise →
      getSignalValueTriangle s t
        = s.yMin + (s.yMax - s.yMin) * foldedTime s.tDelay s.tPeriod t / s.tRise)
    ∧ (s.tRise < foldedTime s.tDelay s.tPeriod t →
      getSignalValueTriangle s t
        = s.yMax - (s.yMax - s.yMin) * (foldedTime s.tDelay s.tPeriod t - s.tRise) / s.tFall)
    ∧ getSignalValueTriangle (SignalTriangle.default : SignalTriangle K) 0 = -1
    ∧ getSignalValueTriangle (SignalTriangle.default : SignalTriangle K) 0.25 = 0
    ∧ getSignalValueTriangle (SignalTriangle.default : SignalTriangle K) 0.5 = 1
    ∧ getSignalValueTriangle (SignalTriangle.default : SignalTriangle K) 0.75 = 0 := by
  have h := getSignalValueTriangle_eq s t hP ht hb
  refine ⟨fun h1 => ?_, fun h1 => ?_, ?_, ?_, ?_, ?_⟩
  · rw [h, if_pos h1]
  · rw [h, if_neg (not_le.mpr h1)]
  · rw [getSignalValueTriangle_default 0 le_rfl (by norm_num)]
    norm_num
  · rw [getSignalValueTriangle_default 0.25 (by norm_num) (by norm_num)]
    norm_num
  · rw [getSignalValueTriangle_default 0.5 (by norm_num) (by norm_num)]
    norm_num
  · rw [getSignalValueTriangle_default 0.75 (by norm_num) (by norm_num)]
    norm_num

end PeriodicThms

/-- Witness for C5: the default Triangle over the rationals at `t = 5/4`. -/
theorem getSignalValueTriangle_formula_witness :
    (foldedTime (0 : ℚ) 1 (5 / 4) ≤ 1 / 2 →
      getSignalValueTriangle (⟨1, 1 / 2, 1 / 2, 0, 1, -1⟩ : SignalTriangle ℚ) (5 / 4)
        = -1 + (1 - -1) * foldedTime (0 : ℚ) 1 (5 / 4) / (1 / 2))
    ∧ ((1 / 2 : ℚ) < foldedTime (0 : ℚ) 1 (5 / 4) →
      getSignalValueTriangle (⟨1, 1 / 2, 1 / 2, 0, 1, -1⟩ : SignalTriangle ℚ) (5 / 4)
        = 1 - (1 - -1) * (foldedTime (0 : ℚ) 1 (5 / 4) - 1 / 2) / (1 / 2))
    ∧ getSignalValueTriangle (SignalTriangle.default : SignalTriangle ℚ) 0 = -1
    ∧ getSignalValueTriangle (SignalTriangle.default : SignalTriangle ℚ) 0.25 = 0
    ∧ getSignalValueTriangle (SignalTriangle.default : SignalTriangle ℚ) 0.5 = 1
    ∧ getSignalValueTriangle (SignalTriangle.default : SignalTriangle ℚ) 0.75 = 0 :=
  getSignalValueTriangle_formula (⟨1, 1 / 2, 1 / 2, 0, 1, -1⟩ : SignalTriangle ℚ) (5 / 4)
    (by norm_num) (by norm_num) (by norm_num)

theorem floor_two_pow32_quarter : ⌊((2 : ℚ) ^ 32 + 1 / 4 - 0) / 1⌋ = 2 ^ 32 := by
  rw [Int.floor_eq_iff]
  norm_num

theorem foldedTime_two_pow32_quarter : foldedTime (0 : ℚ) 1 (2 ^ 32 + 1 / 4) = 1 / 4 := by
  unfold foldedTime
  rw [floor_two_pow32_quarter]
  norm_num

theorem toUInt32_two_pow32_quarter : toUInt32 (((2 : ℚ) ^ 32 + 1 / 4 - 0) / 1) = 0 := by
  unfold toUInt32 truncate
  rw [if_pos (by norm_num), floor_two_pow32_quarter]
  decide

theorem getSignalValueTriangle_two_pow32_quarter :
    getSignalValueTriangle (SignalTriangle.default : SignalTriangle ℚ) (2 ^ 32 + 1 / 4)
      = 2 - 2 ^ 34 := by
  unfold getSignalValueTriangle
  simp only [SignalTriangle.default]
  rw [if_pos (by norm_num), toUInt32_two_pow32_quarter]
  norm_num

/-- Counterexample for C5 as stated: the default Triangle at `t = 2^32 + 1/4`.  The
    folded time is `1/4 ≤ tRise`, so the claimed value is `yMin + (yMax - yMin) * tau / tRise
    = 0`; the period count `2^32` does not fit the `uint32_t kPer`, the code folds with
    `kPer = 0` and returns `2 - 2^34`. -/
theorem getSignalValueTriangle_beyond_uint32 :
    (0 : ℚ) < (SignalTriangle.default : SignalTriangle ℚ).tPeriod
    ∧ (0 : ℚ) < (SignalTriangle.default : SignalTriangle ℚ).tRise
    ∧ (0 : ℚ) < (SignalTriangle.default : SignalTriangle ℚ).tFall
    ∧ (SignalTriangle.default : SignalTriangle ℚ).tDelay ≤ 2 ^ 32 + 1 / 4
    ∧ foldedTime (0 : ℚ) 1 (2 ^ 32 + 1 / 4) = 1 / 4
    ∧ foldedTime (0 : ℚ) 1 (2 ^ 32 + 1 / 4) ≤ (SignalTriangle.default : SignalTriangle ℚ).tRise
    ∧ getSignalValueTriangle (SignalTriangle.default : SignalTriangle ℚ) (2 ^ 32 + 1 / 4)
        = 2 - 2 ^ 34
    ∧ getSignalValueTriangle (SignalTriangle.default : SignalTriangle ℚ) (2 ^ 32 + 1 / 4)
        ≠ (SignalTriangle.default : SignalTriangle ℚ).yMin
            + ((SignalTriangle.default : SignalTriangle ℚ).yMax
                - (SignalTriangle.default : SignalTriangle ℚ).yMin)
              * foldedTime (0 : ℚ) 1 (2 ^ 32 + 1 / 4)
              / (SignalTriangle.default : SignalTriangle ℚ).tRise := by
  refine ⟨by norm_num [SignalTriangle.default], by norm_num [SignalTriangle.default],
    by norm_num [SignalTriangle.default], by norm_num [SignalTriangle.default],
    foldedTime_two_pow32_quarter, ?_, getSignalValueTriangle_two_pow32_quarter, ?_⟩
  · rw [foldedTime_two_pow32_quarter]
    norm_num [SignalTriangle.default]
  · rw [getSignalValueTriangle_two_pow32_quarter, foldedTime_two_pow32_quarter]
    norm_num [SignalTriangle.default]

section RectangleThms
variable {K : Type} [LinearOrderedField K] [FloorRing K]

end RectangleThms

section PeriodicityThms
variable {K : Type} [LinearOrderedField K] [FloorRing K]

end PeriodicityThms

/-- C8: for every SinDamp signal and `t ≥ tDelay` the value is
    `offset + amplit * sin(2 * pi * freqHz * (t - tDelay) + phiRad) * exp(-damping * (t - tDelay))`;
    with the real sine and exponential and `M_PI = π`, SinDamp(freqHz = 1, phiRad = 0,
    amplit = 1, offset = 0, damping = 0, tDelay = 0) has value 1 at `t = 0.25`. -/
theorem getSignalValueSinDamp_formula {K : Type} [LinearOrderedField K] [FloorRing K]
    (M : LibM K) (s : SignalSinDamp K) (t : K) (ht : s.tDelay ≤ t) :
    getSignalValueSinDamp M s t
        = s.offset + s.amplit * M.sin (2 * M.M_PI * s.freqHz * (t - s.tDelay) + s.phiRad)
            * M.exp (-s.damping * (t - s.tDelay))
    ∧ ∀ R : LibM ℝ, R.IsReal →
        getSignalValueSinDamp R
          { freqHz := 1, phiRad := 0, tDelay := 0, amplit := 1, offset := 0, damping := 0 }
          (0.25 : ℝ) = 1 := by
  constructor
  · unfold getSignalValueSinDamp
    rw [if_pos (ge_iff_le.mpr ht)]
  · rintro R ⟨hsin, _, hexp, _, _, hpi⟩
    unfold getSignalValueSinDamp
    simp only [hsin, hexp, hpi]
    rw [if_pos (by norm_num)]
    have h1 : (2 * Real.pi * 1 * ((0.25 : ℝ) - 0) + 0) = Real.pi / 2 := by
      ring_nf
    have h2 : (-(0 : ℝ) * ((0.25 : ℝ) - 0)) = 0 := by
      ring_nf
    rw [h1, h2, Real.sin_pi_div_two, Real.exp_zero]
    norm_num

/-- Witness for C8: SinDamp(1, 0, 0, 1, 0, 0) over the reals at `t = 0.25`, with the
    real functions as `<cmath>`. -/
theorem getSignalValueSinDamp_formula_witness :
    getSignalValueSinDamp
        (⟨Real.sin, Real.cos, Real.exp, fun x y => x ^ y,
          fun x => Real.log x / Real.log 10, Real.pi⟩ : LibM ℝ)
        { freqHz := 1, phiRad := 0, tDelay := 0, amplit := 1, offset := 0, damping := 0 }
        (0.25 : ℝ) = 1 :=
  (getSignalValueSinDamp_formula
    (⟨Real.sin, Real.cos, Real.exp, fun x y => x ^ y,
      fun x => Real.log x / Real.log 10, Real.pi⟩ : LibM ℝ)
    { freqHz := 1, phiRad := 0, tDelay := 0, amplit := 1, offset := 0, damping := 0 }
    (0.25 : ℝ) (by norm_num)).2 _
    ⟨rfl, rfl, rfl, fun _ _ _ => rfl, fun _ _ => rfl, rfl⟩

/-! ## Rendering -/

section RenderThms
variable {K : Type} [LinearOrderedField K] [FloorRing K]

theorem memcpy_two (buf : List Nat) (off : Nat) (lo hi : Nat) (h : off + 2 ≤ buf.length) :
    memcpy buf (off : Int) [lo, hi] 0 2 = some (buf.take off ++ [lo, hi] ++ buf.drop (off + 2)) := by
  unfold memcpy
  rw [if_pos (by simp; omega)]
  simp

theorem renderLoop_spec (M : LibM K) (sampleRate : Int) (sigs : List (SignalItem K))
    (noise : List K) :
    ∀ (m fuel i : Nat) (buf : List Nat),
      buf.length = 2 * (i + m) → i + m ≤ noise.length → 2 * m ≤ fuel →
      renderLoop M sampleRate sigs noise 2 fuel ((2 * m : Nat) : Int) i ((2 * i : Nat) : Int) buf
        = some (buf.take (2 * i) ++ renderedBytes M sampleRate sigs noise i m) := by
  intro m
  induction m with
  | zero =>
    intro fuel i buf hlen _ _
    unfold renderLoop
    simp [renderedBytes]
    omega
  | succ m ih =>
    intro fuel i buf hlen hn hf
    unfold renderLoop
    rw [if_pos (by omega)]
    obtain ⟨f, rfl⟩ : ∃ f, fuel = f + 1 := ⟨fuel - 1, by omega⟩
    simp only
    have hi : i < noise.length := by omega
    rw [List.getElem?_eq_getElem hi]
    simp only
    rw [memcpy_two buf (2 * i) _ _ (by omega)]
    simp only
    have e1 : ((2 * (m + 1) : Nat) : Int) - 2 = ((2 * m : Nat) : Int) := by omega
    have e2 : ((2 * i : Nat) : Int) + 2 = ((2 * (i + 1) : Nat) : Int) := by omega
    rw [e1, e2, ih f (i + 1) _ (by simp; omega) (by omega) (by omega)]
    congr 1
    have ht : (List.take (2 * i) buf ++ [toInt16Bits ((getSignalValue M sigs (sampleTime sampleRate i) + noise[i]) * 32767) % 256,
              toInt16Bits ((getSignalValue M sigs (sampleTime sampleRate i) + noise[i]) * 32767) / 256]
            ++ List.drop (2 * i + 2) buf).take (2 * (i + 1))
        = List.take (2 * i) buf ++ sampleBytes M sampleRate sigs noise i := by
      rw [List.take_append_of_le_length (by simp; omega), List.take_of_length_le (by simp; omega)]
      simp [sampleBytes, List.getD_eq_getElem?_getD, List.getElem?_eq_getElem hi]
    rw [ht]
    simp [renderedBytes, List.range'_succ, List.append_assoc]


end RenderThms

theorem foldl_set_length {α β : Type} (f : List α → β → Nat) (v : List α → β → α) (l : List β) :
    ∀ (t : List α), (l.foldl (fun (t : List α) (i : β) => t.set (f t i) (v t i)) t).length
      = t.length := by
  induction l with
  | nil => intro t; rfl
  | cons a l ih =>
    intro t
    rw [List.foldl_cons, ih]
    simp

theorem fillNoiseBuffer_length {K : Type} [LinearOrderedField K] (M : LibM K) (sampleRate : Int) (sigs : List (SignalItem K))
    (n : Nat) (g : Statics) :
    (fillNoiseBuffer M sampleRate sigs n g).1.length = n := by
  unfold fillNoiseBuffer
  have key : ∀ (l : List (SignalItem K)) (st : List K × Statics), st.1.length = n →
      (l.foldl
        (fun (st : List K × Statics) (item : SignalItem K) =>
          match item with
          | .noise sig =>
            let r := (List.range n).foldl
              (fun (c : List K × Statics) (i : Nat) =>
                let v := getSignalValueNoise sig (sampleTime sampleRate i) c.2
                (c.1.set i v.1, v.2))
              (List.replicate n 0, st.2)
            let crtNoiseBuffer := r.1
            if 0 = sig.gamma then
              ((List.range n).foldl
                (fun (t : List K) (i : Nat) => t.set i (t.getD i 0 + crtNoiseBuffer.getD i 0))
                st.1, r.2)
            else
              let noisePwrSpectrum := NoisePwrSpectrum.new M sig.gamma
              let filteredNoiseBuffer :=
                filterData noisePwrSpectrum.mFilter crtNoiseBuffer (List.replicate n 0)
              ((List.range n).foldl
                (fun (t : List K) (i : Nat) => t.set i (t.getD i 0 + filteredNoiseBuffer.getD i 0))
                st.1, r.2)
          | _ => st) st).1.length = n := by
    intro l
    induction l with
    | nil => intro st h; exact h
    | cons a l ih =>
      intro st h
      rw [List.foldl_cons]
      apply ih
      cases a <;> try exact h
      simp only
      split_ifs
      · rw [foldl_set_length (fun _ i => i)]
        exact h
      · rw [foldl_set_length (fun _ i => i)]
        exact h
  exact key sigs _ (by simp)

theorem resize_length (a : List Nat) (n : Nat) (h : n < 2 ^ 31) :
    (QByteArray.resize a (n : Int)).length = n := by
  unfold QByteArray.resize
  have e : ((n : Int) + 2 ^ 31) % 2 ^ 32 - 2 ^ 31 = (n : Int) := by omega
  simp only [e]
  rw [if_neg (by omega)]
  simp
  omega

section RenderThms2
variable {K : Type} [LinearOrderedField K] [FloorRing K]

/-- Rendering by `fillDataBuffer` for the 44100 Hz / mono / 16-bit format and a duration whose
    byte count fits an `int`: the call returns, and the new buffer is the byte
    sequence of all `44100 * D` samples, whatever the buffer held before. -/
theorem fillDataBuffer_pcm (M : LibM K) (s : AudioSource K) (g : Statics)
    (hf : s.mAudioFormat = pcmFormat) (hD : 88200 * s.mAudioBufferLengthSeconds < 2 ^ 31) :
    fillDataBuffer M s g
      = some ({ s with
                mAudioBuffer :=
                  renderedBytes M 44100 s.mSignalsVector
                    (fillNoiseBuffer M 44100 s.mSignalsVector
                      (44100 * s.mAudioBufferLengthSeconds) g).1
                    0 (44100 * s.mAudioBufferLengthSeconds) },
              (fillNoiseBuffer M 44100 s.mSignalsVector
                (44100 * s.mAudioBufferLengthSeconds) g).2) := by
  unfold fillDataBuffer
  rw [hf]
  simp only [pcmFormat]
  have e0 : Int.tdiv 16 8 = 2 := by decide
  have e1 : ((44100 : Int) * (s.mAudioBufferLengthSeconds : Int)) % 2 ^ 32
      = ((44100 * s.mAudioBufferLengthSeconds : Nat) : Int) := by
    push_cast
    omega
  have e2 : ((44100 : Int) * (1 * 2) * (s.mAudioBufferLengthSeconds : Int)) % 2 ^ 32
      = ((2 * (44100 * s.mAudioBufferLengthSeconds) : Nat) : Int) := by
    push_cast
    omega
  rw [e0, e1, e2]
  simp only [Int.toNat_ofNat]
  have hl := resize_length s.mAudioBuffer (2 * (44100 * s.mAudioBufferLengthSeconds)) (by omega)
  have h := renderLoop_spec M 44100 s.mSignalsVector
    (fillNoiseBuffer M 44100 s.mSignalsVector (44100 * s.mAudioBufferLengthSeconds) g).1
    (44100 * s.mAudioBufferLengthSeconds) (2 * (44100 * s.mAudioBufferLengthSeconds)) 0
    (QByteArray.resize s.mAudioBuffer ((2 * (44100 * s.mAudioBufferLengthSeconds) : Nat) : Int))
    (by rw [hl]; simp) (by rw [fillNoiseBuffer_length]; simp) le_rfl
  simp only [Nat.mul_zero, Nat.cast_zero, List.take_zero, List.nil_append] at h
  rw [h]


/-- C9: rendering is a function of the spec list, the duration and the generator
    statics at entry.  Two audio sources with the 44100 Hz / mono / 16-bit format, the
    same signals and the same duration (its byte count fitting an `int`), started from
    the same statics, both return, with byte-identical buffers and the same statics
    afterwards, whatever their previous buffers, cursors and open flags were. -/
theorem fillDataBuffer_deterministic (M : LibM K) (s1 s2 : AudioSource K) (g : Statics)
    (hf1 : s1.mAudioFormat = pcmFormat) (hf2 : s2.mAudioFormat = pcmFormat)
    (hs : s1.mSignalsVector = s2.mSignalsVector)
    (hd : s1.mAudioBufferLengthSeconds = s2.mAudioBufferLengthSeconds)
    (hD : 88200 * s1.mAudioBufferLengthSeconds < 2 ^ 31) :
    ∃ (mAudioBuffer : List Nat) (g1 : Statics),
      fillDataBuffer M s1 g = some ({ s1 with mAudioBuffer := mAudioBuffer }, g1)
      ∧ fillDataBuffer M s2 g = some ({ s2 with mAudioBuffer := mAudioBuffer }, g1) := by
  refine ⟨_, _, fillDataBuffer_pcm M s1 g hf1 hD, ?_⟩
  rw [fillDataBuffer_pcm M s2 g hf2 (by rw [← hd]; exact hD), hs, hd]

end RenderThms2

/-- Witness for C9: a Triangle plus NAG noise, 2 seconds, rendered from an empty closed
    source and from an open source with stale bytes and a moved cursor. -/
theorem fillDataBuffer_deterministic_witness :
    ∃ (mAudioBuffer : List Nat) (g1 : Statics),
      fillDataBuffer (⟨id, id, id, fun x _ => x, id, 3⟩ : LibM ℚ)
          { mAudioFormat := pcmFormat, mAudioBufferLengthSeconds := 2, mBufferPos := 0,
            mAudioBuffer := [],
            mSignalsVector := [.triangle SignalTriangle.default,
                               .noise ⟨.NOISE_TYPE_NAG, 1, 0, 1 / 10, 0⟩],
            isOpen := false }
          ⟨DekStatics.init, 0, 5⟩
        = some ({ mAudioFormat := pcmFormat, mAudioBufferLengthSeconds := 2, mBufferPos := 0,
                  mAudioBuffer := mAudioBuffer,
                  mSignalsVector := [.triangle SignalTriangle.default,
                                     .noise ⟨.NOISE_TYPE_NAG, 1, 0, 1 / 10, 0⟩],
                  isOpen := false }, g1)
      ∧ fillDataBuffer (⟨id, id, id, fun x _ => x, id, 3⟩ : LibM ℚ)
          { mAudioFormat := pcmFormat, mAudioBufferLengthSeconds := 2, mBufferPos := 7,
            mAudioBuffer := [9, 9, 9],
            mSignalsVector := [.triangle SignalTriangle.default,
                               .noise ⟨.NOISE_TYPE_NAG, 1, 0, 1 / 10, 0⟩],
            isOpen := true }
          ⟨DekStatics.init, 0, 5⟩
        = some ({ mAudioFormat := pcmFormat, mAudioBufferLengthSeconds := 2, mBufferPos := 7,
                  mAudioBuffer := mAudioBuffer,
                  mSignalsVector := [.triangle SignalTriangle.default,
                                     .noise ⟨.NOISE_TYPE_NAG, 1, 0, 1 / 10, 0⟩],
                  isOpen := true }, g1) :=
  fillDataBuffer_deterministic (⟨id, id, id, fun x _ => x, id, 3⟩ : LibM ℚ)
    { mAudioFormat := pcmFormat, mAudioBufferLengthSeconds := 2, mBufferPos := 0,
      mAudioBuffer := [],
      mSignalsVector := [.triangle SignalTriangle.default,
                         .noise ⟨.NOISE_TYPE_NAG, 1, 0, 1 / 10, 0⟩],
      isOpen := false }
    { mAudioFormat := pcmFormat, mAudioBufferLengthSeconds := 2, mBufferPos := 7,
      mAudioBuffer := [9, 9, 9],
      mSignalsVector := [.triangle SignalTriangle.default,
                         .noise ⟨.NOISE_TYPE_NAG, 1, 0, 1 / 10, 0⟩],
      isOpen := true }
    ⟨DekStatics.init, 0, 5⟩ rfl rfl rfl rfl (by norm_num)

/-! ## `setGamma` -/

/-- C10: `setGamma` with a value outside `[-2, 2]` returns the object unchanged (stored
    gamma, block coefficients, polynomials), so `filterData` gives the same output as
    before; with a value in `[-2, 2]` it stores that gamma and leaves the block
    coefficients and both polynomials exactly as the constructor builds them for that
    gamma (the degree field `N` keeps its value). -/
theorem setGamma_spec {K : Type} [LinearOrderedField K] (M : LibM K)
    (s : NoisePwrSpectrum K) (aGamma : K) :
    ((aGamma < -2 ∨ 2 < aGamma) →
      NoisePwrSpectrum.setGamma M s aGamma = s
      ∧ ∀ x out : List K,
          filterData (NoisePwrSpectrum.setGamma M s aGamma).mFilter x out
            = filterData s.mFilter x out)
    ∧ ((-2 ≤ aGamma ∧ aGamma ≤ 2) →
      (NoisePwrSpectrum.setGamma M s aGamma).mGamma = aGamma
      ∧ (NoisePwrSpectrum.new M aGamma).mGamma = aGamma
      ∧ (NoisePwrSpectrum.setGamma M s aGamma).mABlockCoeffVec
          = (NoisePwrSpectrum.new M aGamma).mABlockCoeffVec
      ∧ (NoisePwrSpectrum.setGamma M s aGamma).mBBlockCoeffVec
          = (NoisePwrSpectrum.new M aGamma).mBBlockCoeffVec
      ∧ (NoisePwrSpectrum.setGamma M s aGamma).mFilter.b
          = (NoisePwrSpectrum.new M aGamma).mFilter.b
      ∧ (NoisePwrSpectrum.setGamma M s aGamma).mFilter.a
          = (NoisePwrSpectrum.new M aGamma).mFilter.a
      ∧ (NoisePwrSpectrum.setGamma M s aGamma).mFilter.N = s.mFilter.N
      ∧ (s.mFilter.N = NR_OF_FILTER_BLOCKS →
          NoisePwrSpectrum.setGamma M s aGamma = NoisePwrSpectrum.new M aGamma)) := by
  constructor
  · intro h
    have hn : ¬ ((GAMMA_MIN : K) ≤ aGamma ∧ aGamma ≤ GAMMA_MAX) := by
      unfold GAMMA_MIN GAMMA_MAX
      rintro ⟨h1, h2⟩
      rcases h with h | h
      · exact absurd h1 (not_le.mpr h)
      · exact absurd h2 (not_le.mpr h)
    have he : NoisePwrSpectrum.setGamma M s aGamma = s := by
      unfold NoisePwrSpectrum.setGamma
      rw [if_neg hn]
    exact ⟨he, fun x out => by rw [he]⟩
  · intro h
    have hp : (GAMMA_MIN : K) ≤ aGamma ∧ aGamma ≤ GAMMA_MAX := by
      unfold GAMMA_MIN GAMMA_MAX
      exact h
    have hs : NoisePwrSpectrum.setGamma M s aGamma
        = { mGamma := aGamma
            mBBlockCoeffVec := (calculateFilterBlockCoeffs M aGamma).2
            mABlockCoeffVec := (calculateFilterBlockCoeffs M aGamma).1
            mFilter :=
              { s.mFilter with
                b := (updateFilter M aGamma (calculateFilterBlockCoeffs M aGamma).2
                        (calculateFilterBlockCoeffs M aGamma).1).1
                a := (updateFilter M aGamma (calculateFilterBlockCoeffs M aGamma).2
                        (calculateFilterBlockCoeffs M aGamma).1).2 } } := by
      unfold NoisePwrSpectrum.setGamma
      rw [if_pos hp]
    have hc : NoisePwrSpectrum.new M aGamma
        = { mGamma := aGamma
            mBBlockCoeffVec := (calculateFilterBlockCoeffs M aGamma).2
            mABlockCoeffVec := (calculateFilterBlockCoeffs M aGamma).1
            mFilter :=
              { N := NR_OF_FILTER_BLOCKS
                b := (updateFilter M aGamma (calculateFilterBlockCoeffs M aGamma).2
                        (calculateFilterBlockCoeffs M aGamma).1).1
                a := (updateFilter M aGamma (calculateFilterBlockCoeffs M aGamma).2
                        (calculateFilterBlockCoeffs M aGamma).1).2 } } := by
      unfold NoisePwrSpectrum.new
      simp only [if_pos hp]
    rw [hs, hc]
    refine ⟨rfl, rfl, rfl, rfl, rfl, rfl, rfl, fun hN => ?_⟩
    rw [← hN]

/-- Witness for C10: a rational stand-in for the `<cmath>` functions, a filter built
    for gamma 1; `setGamma 3` is rejected, `setGamma (1/2)` rebuilds. -/
theorem setGamma_spec_witness :
    (NoisePwrSpectrum.setGamma (⟨id, id, id, fun x _ => x, id, 3⟩ : LibM ℚ)
        (NoisePwrSpectrum.new (⟨id, id, id, fun x _ => x, id, 3⟩ : LibM ℚ) 1) 3
      = NoisePwrSpectrum.new (⟨id, id, id, fun x _ => x, id, 3⟩ : LibM ℚ) 1)
    ∧ (NoisePwrSpectrum.setGamma (⟨id, id, id, fun x _ => x, id, 3⟩ : LibM ℚ)
        (NoisePwrSpectrum.new (⟨id, id, id, fun x _ => x, id, 3⟩ : LibM ℚ) 1) (1 / 2)
      = NoisePwrSpectrum.new (⟨id, id, id, fun x _ => x, id, 3⟩ : LibM ℚ) (1 / 2)) :=
  ⟨((setGamma_spec (⟨id, id, id, fun x _ => x, id, 3⟩ : LibM ℚ)
      (NoisePwrSpectrum.new (⟨id, id, id, fun x _ => x, id, 3⟩ : LibM ℚ) 1) 3).1
        (Or.inr (by norm_num))).1,
   ((setGamma_spec (⟨id, id, id, fun x _ => x, id, 3⟩ : LibM ℚ)
      (NoisePwrSpectrum.new (⟨id, id, id, fun x _ => x, id, 3⟩ : LibM ℚ) 1) (1 / 2)).2
        ⟨by norm_num, by norm_num⟩).2.2.2.2.2.2.2 rfl⟩

/-! ## The Vieta expansion (`calculateFilterPolyCoeffs`) -/

theorem calculateFilterPolyCoeffs_list {K : Type} [LinearOrderedField K]
    (c1 c2 c3 c4 c5 c6 c7 : K) (aPolyCoeffVec : List K) (h : aPolyCoeffVec.length = 8) :
    calculateFilterPolyCoeffs [c1, c2, c3, c4, c5, c6, c7] aPolyCoeffVec
      = (List.range 8).map
          (fun k => (-1) ^ k
            * Multiset.esymm (([c1, c2, c3, c4, c5, c6, c7] : List K) : Multiset K) k) := by
  match aPolyCoeffVec, h with
  | [q0, q1, q2, q3, q4, q5, q6, q7], _ =>
    simp only [calculateFilterPolyCoeffs, List.set, List.getD_cons_succ, List.getD_cons_zero,
      List.range_succ, List.range_zero, List.nil_append, List.cons_append, List.map_cons,
      List.map_nil, Multiset.esymm, Multiset.powersetCard_coe, List.sublistsLen_succ_cons,
      List.sublistsLen_zero, List.sublistsLen_succ_nil, List.map_append, List.append_nil,
      Multiset.map_coe, Multiset.sum_coe, Multiset.prod_coe, List.prod_cons, List.prod_nil,
      List.sum_cons, List.sum_nil, List.cons.injEq, and_true, pow_zero, pow_succ]
    refine ⟨?_, ?_, ?_, ?_, ?_, ?_, ?_, ?_⟩ <;> ring

theorem calculateFilterPolyCoeffs_poly {K : Type} [LinearOrderedField K]
    (c1 c2 c3 c4 c5 c6 c7 : K) (aPolyCoeffVec : List K) (h : aPolyCoeffVec.length = 8) :
    (∑ k in Finset.range 8,
        Polynomial.C
            ((calculateFilterPolyCoeffs [c1, c2, c3, c4, c5, c6, c7] aPolyCoeffVec).getD k 0)
          * Polynomial.X ^ k)
      = (([c1, c2, c3, c4, c5, c6, c7] : List K).map
          (fun c => (1 : Polynomial K) - Polynomial.C c * Polynomial.X)).prod := by
  match aPolyCoeffVec, h with
  | [q0, q1, q2, q3, q4, q5, q6, q7], _ =>
    simp only [calculateFilterPolyCoeffs, List.set, List.getD_cons_succ, List.getD_cons_zero,
      Finset.sum_range_succ, Finset.sum_range_zero, List.map_cons, List.map_nil,
      List.prod_cons, List.prod_nil, map_add, map_mul, map_neg, map_one]
    ring

/-- C11: for 7 block coefficients `c1..c7` and an 8-element output vector,
    `calculateFilterPolyCoeffs` writes `p_k = (-1)^k * e_k(c1..c7)` for `k = 0..7`, with
    `e_k` the `k`-th elementary symmetric polynomial; equivalently
    `sum_k p_k * X^k = prod_i (1 - c_i * X)` as polynomials. -/
theorem calculateFilterPolyCoeffs_vieta {K : Type} [LinearOrderedField K]
    (c1 c2 c3 c4 c5 c6 c7 : K) (aPolyCoeffVec : List K) (h : aPolyCoeffVec.length = 8) :
    calculateFilterPolyCoeffs [c1, c2, c3, c4, c5, c6, c7] aPolyCoeffVec
        = (List.range 8).map
            (fun k => (-1) ^ k
              * Multiset.esymm (([c1, c2, c3, c4, c5, c6, c7] : List K) : Multiset K) k)
    ∧ Multiset.esymm (([c1, c2, c3, c4, c5, c6, c7] : List K) : Multiset K) 0 = 1
    ∧ (∑ k in Finset.range 8,
          Polynomial.C
              ((calculateFilterPolyCoeffs [c1, c2, c3, c4, c5, c6, c7] aPolyCoeffVec).getD k 0)
            * Polynomial.X ^ k)
        = (([c1, c2, c3, c4, c5, c6, c7] : List K).map
            (fun c => (1 : Polynomial K) - Polynomial.C c * Polynomial.X)).prod :=
  ⟨calculateFilterPolyCoeffs_list c1 c2 c3 c4 c5 c6 c7 aPolyCoeffVec h,
   by simp [Multiset.esymm],
   calculateFilterPolyCoeffs_poly c1 c2 c3 c4 c5 c6 c7 aPolyCoeffVec h⟩

/-- Witness for C11: the coefficients 1..7 over the rationals, expanded into a zeroed
    vector. -/
theorem calculateFilterPolyCoeffs_vieta_witness :
    calculateFilterPolyCoeffs [(1 : ℚ), 2, 3, 4, 5, 6, 7] [0, 0, 0, 0, 0, 0, 0, 0]
        = (List.range 8).map
            (fun k => (-1) ^ k
              * Multiset.esymm (([1, 2, 3, 4, 5, 6, 7] : List ℚ) : Multiset ℚ) k)
    ∧ Multiset.esymm (([1, 2, 3, 4, 5, 6, 7] : List ℚ) : Multiset ℚ) 0 = 1
    ∧ (∑ k in Finset.range 8,
          Polynomial.C
              ((calculateFilterPolyCoeffs [(1 : ℚ), 2, 3, 4, 5, 6, 7]
                  [0, 0, 0, 0, 0, 0, 0, 0]).getD k 0)
            * Polynomial.X ^ k)
        = (([1, 2, 3, 4, 5, 6, 7] : List ℚ).map
            (fun c => (1 : Polynomial ℚ) - Polynomial.C c * Polynomial.X)).prod :=
  calculateFilterPolyCoeffs_vieta 1 2 3 4 5 6 7 [0, 0, 0, 0, 0, 0, 0, 0] rfl

/-! ## Before the delay -/

/-- C12: every shape evaluator returns exactly 0 at every `t` strictly below the delay
    of its signal (`carrierTDelay` for AmSin), whatever the other parameters are; the
    Noise sample generator returns 0 there and leaves the generator statics untouched. -/
theorem value_zero_before_delay {K : Type} [LinearOrderedField K] [FloorRing K] (M : LibM K)
    (t : K) (tri : SignalTriangle K) (rect : SignalRectangle K) (pulse : SignalPulse K)
    (riseFall : SignalRiseFall K) (sinDamp : SignalSinDamp K) (sinRise : SignalSinRise K)
    (wavSin : SignalWavSin K) (amSin : SignalAmSin K) (sinDampSin : SignalSinDampSin K)
    (trapDampSin : SignalTrapDampSin K) (noise : SignalNoise K) (g : Statics) :
    (t < tri.tDelay → getSignalValueTriangle tri t = 0)
    ∧ (t < rect.tDelay → getSignalValueRectangle rect t = 0)
    ∧ (t < pulse.tDelay → getSignalValuePulse pulse t = 0)
    ∧ (t < riseFall.tDelay → getSignalValueRiseFall M riseFall t = 0)
    ∧ (t < sinDamp.tDelay → getSignalValueSinDamp M sinDamp t = 0)
    ∧ (t < sinRise.tDelay → getSignalValueSinRise M sinRise t = 0)
    ∧ (t < wavSin.tDelay → getSignalValueWavSin M wavSin t = 0)
    ∧ (t < amSin.carrierTDelay → getSignalValueAmSin M amSin t = 0)
    ∧ (t < sinDampSin.tDelay → getSignalValueSinDampSin M sinDampSin t = 0)
    ∧ (t < trapDampSin.tDelay → getSignalValueTrapDampSin M trapDampSin t = 0)
    ∧ (t < noise.tDelay → getSignalValueNoise noise t g = (0, g)) := by
  refine ⟨fun h => ?_, fun h => ?_, fun h => ?_, fun h => ?_, fun h => ?_, fun h => ?_,
    fun h => ?_, fun h => ?_, fun h => ?_, fun h => ?_, fun h => ?_⟩
  · unfold getSignalValueTriangle
    rw [if_neg (not_le.mpr h)]
  · unfold getSignalValueRectangle
    rw [if_neg (not_le.mpr h)]
  · unfold getSignalValuePulse
    rw [if_neg (not_le.mpr h)]
  · unfold getSignalValueRiseFall
    rw [if_neg (not_le.mpr h)]
  · unfold getSignalValueSinDamp
    rw [if_neg (not_le.mpr h)]
  · unfold getSignalValueSinRise
    rw [if_neg (not_le.mpr h)]
  · unfold getSignalValueWavSin
    rw [if_neg (not_le.mpr h)]
  · unfold getSignalValueAmSin
    rw [if_neg (not_le.mpr h)]
  · unfold getSignalValueSinDampSin
    rw [if_neg (not_le.mpr h)]
  · unfold getSignalValueTrapDampSin
    rw [if_neg (not_le.mpr h)]
  · unfold getSignalValueNoise
    rw [if_neg (not_le.mpr h)]

/-- Witness for C12: a SinDamp with offset 5 and a NAG noise with offset 7, both delayed
    to `t = 2`, sampled at `t = 1`. -/
theorem value_zero_before_delay_witness :
    getSignalValueSinDamp (⟨id, id, id, fun x _ => x, id, 3⟩ : LibM ℚ)
        { freqHz := 1, phiRad := 0, tDelay := 2, amplit := 1, offset := 5, damping := 0 } 1 = 0
    ∧ getSignalValueNoise (K := ℚ) ⟨.NOISE_TYPE_NAG, 0, 2, 1, 7⟩ 1 ⟨DekStatics.init, 0, 5⟩
        = (0, ⟨DekStatics.init, 0, 5⟩) :=
  have h := value_zero_before_delay (⟨id, id, id, fun x _ => x, id, 3⟩ : LibM ℚ) 1
    SignalTriangle.default SignalRectangle.default SignalPulse.default
    ⟨0, 2, 3 / 10, 4, 3 / 10, 1, -1⟩
    { freqHz := 1, phiRad := 0, tDelay := 2, amplit := 1, offset := 5, damping := 0 }
    ⟨1, 0, 5, 0, 1, 0, 1 / 2⟩ ⟨1, 0, 0, 1, 0, 19⟩ ⟨10, 1, 0, 0, 2, 0, 7 / 10⟩
    ⟨1, 5, 0, 1, 0, 1⟩ ⟨1, 3 / 20, 1 / 2, 3 / 20, 0, 15, 10, 1, 0⟩
    ⟨.NOISE_TYPE_NAG, 0, 2, 1, 7⟩ ⟨DekStatics.init, 0, 5⟩
  ⟨h.2.2.2.2.1 (by norm_num), h.2.2.2.2.2.2.2.2.2.2 (by norm_num)⟩

/-! ## The size of the rendered buffer -/

theorem renderedBytes_length {K : Type} [LinearOrderedField K] [FloorRing K] (M : LibM K)
    (sampleRate : Int) (sigs : List (SignalItem K)) (noise : List K) (m : Nat) :
    ∀ i, (renderedBytes M sampleRate sigs noise i m).length = 2 * m := by
  induction m with
  | zero => intro i; simp [renderedBytes]
  | succ m ih =>
    intro i
    have h := ih (i + 1)
    simp only [renderedBytes, List.range'_succ, List.map_cons, List.flatten_cons,
      List.length_append] at h ⊢
    rw [h]
    simp [sampleBytes]
    omega

theorem setBufferLength_pcm {K : Type} [LinearOrderedField K] [FloorRing K] (M : LibM K)
    (s : AudioSource K) (D : Nat) (g : Statics) (hf : s.mAudioFormat = pcmFormat)
    (hD : D ≤ 3600) :
    ∃ buf g1, AudioSource.setBufferLength M s D g
        = some ({ s with mAudioBufferLengthSeconds := D, mBufferPos := 0, isOpen := false,
                         mAudioBuffer := buf }, g1)
      ∧ buf = renderedBytes M 44100 s.mSignalsVector
                (fillNoiseBuffer M 44100 s.mSignalsVector (44100 * D) g).1 0 (44100 * D)
      ∧ g1 = (fillNoiseBuffer M 44100 s.mSignalsVector (44100 * D) g).2 := by
  refine ⟨_, _, ?_, rfl, rfl⟩
  unfold AudioSource.setBufferLength
  have hm : D % 2 ^ 32 = D := Nat.mod_eq_of_lt (by omega)
  simp only [hf, hm]
  have hv : pcmFormat.isValid = true := by decide
  rw [if_pos hv, fillDataBuffer_pcm M _ g rfl (by simp only; omega)]

theorem setData_pcm {K : Type} [LinearOrderedField K] [FloorRing K] (M : LibM K)
    (s : AudioSource K) (sigs : List (SignalItem K)) (g : Statics)
    (hf : s.mAudioFormat = pcmFormat) (hD : s.mAudioBufferLengthSeconds ≤ 3600) :
    ∃ buf g1, AudioSource.setData M s sigs g
        = some ({ s with mBufferPos := 0, isOpen := false, mSignalsVector := sigs,
                         mAudioBuffer := buf }, g1)
      ∧ buf = renderedBytes M 44100 sigs
                (fillNoiseBuffer M 44100 sigs (44100 * s.mAudioBufferLengthSeconds) g).1 0
                (44100 * s.mAudioBufferLengthSeconds)
      ∧ g1 = (fillNoiseBuffer M 44100 sigs (44100 * s.mAudioBufferLengthSeconds) g).2 := by
  refine ⟨_, _, ?_, rfl, rfl⟩
  unfold AudioSource.setData
  simp only [hf]
  have hv : pcmFormat.isValid = true := by decide
  rw [if_pos hv, fillDataBuffer_pcm M _ g rfl (by simp only; omega)]

/-- C13: with the 44100 Hz / mono / 16-bit format and a duration `D` in `2..3600`,
    `setBufferLength( D )` and `setData` (on a source whose duration is `D`) return, for
    every signal list, with an audio buffer of exactly `44100 * D * 2` bytes and the
    cursor at 0; the 32-bit products of `fillDataBuffer` do not overflow for these `D`. -/
theorem buffer_size_after_set {K : Type} [LinearOrderedField K] [FloorRing K] (M : LibM K)
    (s : AudioSource K) (sigs : List (SignalItem K)) (D : Nat) (g : Statics)
    (hf : s.mAudioFormat = pcmFormat) (h2 : 2 ≤ D) (h3600 : D ≤ 3600) :
    (∃ s1 g1, AudioSource.setBufferLength M s D g = some (s1, g1)
        ∧ s1.mAudioBuffer.length = 44100 * D * 2 ∧ s1.mBufferPos = 0
        ∧ s1.mAudioBufferLengthSeconds = D)
    ∧ (s.mAudioBufferLengthSeconds = D →
        ∃ s1 g1, AudioSource.setData M s sigs g = some (s1, g1)
          ∧ s1.mAudioBuffer.length = 44100 * D * 2 ∧ s1.mBufferPos = 0
          ∧ s1.mSignalsVector = sigs)
    ∧ ((44100 : Int) * (D : Int)) % 2 ^ 32 = ((44100 * D : Nat) : Int)
    ∧ ((44100 : Int) * (1 * Int.tdiv 16 8) * (D : Int)) % 2 ^ 32 = ((44100 * D * 2 : Nat) : Int) := by
  refine ⟨?_, ?_, ?_, ?_⟩
  · obtain ⟨buf, g1, h, hb, _⟩ := setBufferLength_pcm M s D g hf h3600
    refine ⟨_, _, h, ?_, rfl, rfl⟩
    simp only [hb, renderedBytes_length]
    omega
  · intro hD
    obtain ⟨buf, g1, h, hb, _⟩ := setData_pcm M s sigs g hf (by omega)
    refine ⟨_, _, h, ?_, rfl, rfl⟩
    simp only [hb, renderedBytes_length, hD]
    omega
  · push_cast
    omega
  · have e0 : Int.tdiv 16 8 = 2 := by decide
    rw [e0]
    push_cast
    omega

/-- Witness for C13: an empty signal list and a Triangle, 2 seconds. -/
theorem buffer_size_after_set_witness :
    (∃ s1 g1, AudioSource.setBufferLength (⟨id, id, id, fun x _ => x, id, 3⟩ : LibM ℚ)
          (AudioSource.new pcmFormat 30) 2 ⟨DekStatics.init, 0, 5⟩ = some (s1, g1)
        ∧ s1.mAudioBuffer.length = 44100 * 2 * 2 ∧ s1.mBufferPos = 0
        ∧ s1.mAudioBufferLengthSeconds = 2)
    ∧ ((AudioSource.new pcmFormat 2 : AudioSource ℚ).mAudioBufferLengthSeconds = 2 →
        ∃ s1 g1, AudioSource.setData (⟨id, id, id, fun x _ => x, id, 3⟩ : LibM ℚ)
            (AudioSource.new pcmFormat 2) [.triangle SignalTriangle.default]
            ⟨DekStatics.init, 0, 5⟩ = some (s1, g1)
          ∧ s1.mAudioBuffer.length = 44100 * 2 * 2 ∧ s1.mBufferPos = 0
          ∧ s1.mSignalsVector = [.triangle SignalTriangle.default]) :=
  have h := buffer_size_after_set (⟨id, id, id, fun x _ => x, id, 3⟩ : LibM ℚ)
    (AudioSource.new pcmFormat 2) [.triangle SignalTriangle.default] 2
    ⟨DekStatics.init, 0, 5⟩ rfl (by norm_num) (by norm_num)
  have h30 := buffer_size_after_set (⟨id, id, id, fun x _ => x, id, 3⟩ : LibM ℚ)
    (AudioSource.new pcmFormat 30) [] 2
    ⟨DekStatics.init, 0, 5⟩ rfl (by norm_num) (by norm_num)
  ⟨h30.1, h.2.1⟩

/-! ## The sample formula of `fillDataBuffer` -/

/-- An `int32_t` result that fits 32 bits is the mathematical value. -/
theorem wrapInt32_of_bounds (x : Int) (h1 : -2 ^ 31 ≤ x) (h2 : x < 2 ^ 31) :
    wrapInt32 x = x := by
  unfold wrapInt32
  omega

/-- The conversion to `uint32_t` does not see the reduction to 32 bits. -/
theorem wrapInt32_emod (x : Int) : wrapInt32 x % (2 ^ 32 : Int) = x % (2 ^ 32 : Int) := by
  unfold wrapInt32
  omega

theorem generateRandomNag_nonneg_counter {K : Type} [LinearOrderedField K] (c d : Int)
    (hc : 0 ≤ c) (hc2 : c < 2 ^ 31 - 1) :
    (generateRandomNag (K := K) c d).2 = (c + 1, d) := by
  unfold generateRandomNag
  simp only [if_neg (not_lt.mpr hc)]
  rw [wrapInt32_of_bounds (c + 1) (by omega) (by omega)]

theorem truncate_eq_of_bounds {K : Type} [LinearOrderedField K] [FloorRing K] (x : K) (z : Int)
    (h0 : 0 ≤ x) (h1 : (z : K) ≤ x) (h2 : x < (z : K) + 1) : truncate x = z := by
  unfold truncate
  rw [if_pos h0, Int.floor_eq_iff]
  exact ⟨h1, h2⟩

/-- C16 (amended): `start()` opens the stream and leaves the cursor, the buffer, the
    signals, the format and the duration as they were, so the cursor is 0 after
    `start()` exactly when it was 0 before, and the next read begins at the old cursor.
    `stop()` closes the stream and resets the cursor to 0 from every state, so after
    `stop()` then `start()`, and after the constructor then `start()`, the stream is open,
    the cursor is 0 and the next read begins at buffer offset 0. -/
theorem start_keeps_cursor {K : Type} (s : AudioSource K) :
    s.start.isOpen = true
    ∧ s.start.mBufferPos = s.mBufferPos
    ∧ s.start.mAudioBuffer = s.mAudioBuffer
    ∧ s.start.mSignalsVector = s.mSignalsVector
    ∧ s.start.mAudioFormat = s.mAudioFormat
    ∧ s.start.mAudioBufferLengthSeconds = s.mAudioBufferLengthSeconds
    ∧ (s.start.mBufferPos = 0 ↔ s.mBufferPos = 0)
    ∧ (∀ (aData : List Nat) (aLength : Int),
        (s.start.readData aData aLength).map (fun r => (r.1.mBufferPos, r.2))
          = (readData s.mAudioBuffer s.mBufferPos aData aLength).map
              (fun r => (r.mBufferPos, r.aData, r.bytesRead)))
    ∧ s.stop.isOpen = false
    ∧ s.stop.mBufferPos = 0
    ∧ s.stop.start.isOpen = true
    ∧ s.stop.start.mBufferPos = 0
    ∧ (∀ (aData : List Nat) (aLength : Int),
        (s.stop.start.readData aData aLength).map (fun r => (r.1.mBufferPos, r.2))
          = (readData s.mAudioBuffer 0 aData aLength).map
              (fun r => (r.mBufferPos, r.aData, r.bytesRead)))
    ∧ (∀ (aFormat : QAudioFormat) (aBufferLengthSeconds : Nat),
        (AudioSource.new aFormat aBufferLengthSeconds : AudioSource K).start.mBufferPos = 0
        ∧ (AudioSource.new aFormat aBufferLengthSeconds : AudioSource K).start.isOpen = true) := by
  refine ⟨rfl, rfl, rfl, rfl, rfl, rfl, Iff.rfl, fun aData aLength => ?_, rfl, rfl, rfl, rfl,
    fun aData aLength => ?_, fun _ _ => ⟨rfl, rfl⟩⟩
  · unfold AudioSource.readData AudioSource.start
    cases readData s.mAudioBuffer s.mBufferPos aData aLength <;> rfl
  · unfold AudioSource.readData AudioSource.start AudioSource.stop
    cases readData s.mAudioBuffer 0 aData aLength <;> rfl

/-- Counterexample for C16 as stated: an 8-byte buffer with the cursor at 5 (5 bytes
    were read from cursor 0).  After `start()` the cursor is still 5, not 0, and the
    next read of one byte delivers byte 5 of the buffer and moves the cursor to 6. -/
theorem start_does_not_reset_cursor :
    ((AudioSource.readData
          (⟨pcmFormat, 2, 0, [10, 11, 12, 13, 14, 15, 16, 17], [], true⟩ : AudioSource ℚ)
          [0, 0, 0, 0, 0] 5).map (fun r => (r.1.mBufferPos, r.2))
        = some (5, [10, 11, 12, 13, 14], 5))
    ∧ (AudioSource.start
          (⟨pcmFormat, 2, 5, [10, 11, 12, 13, 14, 15, 16, 17], [], true⟩ : AudioSource ℚ)).mBufferPos
        = 5
    ∧ (AudioSource.start
          (⟨pcmFormat, 2, 5, [10, 11, 12, 13, 14, 15, 16, 17], [], true⟩ : AudioSource ℚ)).mBufferPos
        ≠ 0
    ∧ ((AudioSource.readData
          (AudioSource.start
            (⟨pcmFormat, 2, 5, [10, 11, 12, 13, 14, 15, 16, 17], [], true⟩ : AudioSource ℚ))
          [0] 1).map (fun r => (r.1.mBufferPos, r.2))
        = some (6, [15], 1)) := by
  refine ⟨by decide, rfl, by decide, by decide⟩

/-! ## The range of `generateRandomDek` -/

theorem foldl_invariant {α β : Type} (P : β → Prop) (f : β → α → β) (l : List α) :
    ∀ b, P b → (∀ b a, P b → P (f b a)) → P (l.foldl f b) := by
  induction l with
  | nil => intro b hb _; exact hb
  | cons a l ih => intro b hb hf; exact ih (f b a) (hf b a hb) hf

theorem dek_set_range (ma : List Int) (i : Nat) (v : Int)
    (h : ∀ x ∈ ma, 0 ≤ x ∧ x < MBIG) (hv : 0 ≤ v ∧ v < MBIG) :
    ∀ x ∈ ma.set i v, 0 ≤ x ∧ x < MBIG := by
  intro x hx
  rcases List.mem_or_eq_of_mem_set hx with hm | he
  · exact h x hm
  · rw [he]; exact hv

theorem dek_getD_range (ma : List Int) (i : Nat) (h : ∀ x ∈ ma, 0 ≤ x ∧ x < MBIG) :
    0 ≤ ma.getD i 0 ∧ ma.getD i 0 < MBIG := by
  rw [List.getD_eq_getElem?_getD]
  by_cases hi : i < ma.length
  · rw [List.getElem?_eq_getElem hi]
    exact h _ (List.getElem_mem hi)
  · rw [List.getElem?_eq_none (not_lt.mp hi)]
    exact ⟨le_rfl, by decide⟩

theorem dek_getD_set (ma : List Int) (i : Nat) (v : Int) (hi : i < ma.length) :
    (ma.set i v).getD i 0 = v := by
  rw [List.getD_eq_getElem?_getD, List.getElem?_set_self hi]
  rfl

/-- The seeding block keeps a 56-slot table whose entries are in `[0, MBIG)` in that
    form, for every seed. -/
theorem dekSeedTable_range (idum : Int) (ma : List Int) (hl : ma.length = 56)
    (h : ∀ x ∈ ma, 0 ≤ x ∧ x < MBIG) :
    (dekSeedTable idum ma).length = 56 ∧ ∀ x ∈ dekSeedTable idum ma, 0 ≤ x ∧ x < MBIG := by
  have hmj0 : 0 ≤ Int.tmod (abs (MSEED - abs idum)) MBIG
      ∧ Int.tmod (abs (MSEED - abs idum)) MBIG < MBIG := by
    constructor
    · exact Int.tmod_nonneg _ (abs_nonneg _)
    · exact Int.tmod_lt_of_pos _ (by decide)
  unfold dekSeedTable
  simp only
  refine foldl_invariant
    (fun ma : List Int => ma.length = 56 ∧ ∀ x ∈ ma, 0 ≤ x ∧ x < MBIG) _ _ _ ?_ ?_
  · have h1 := foldl_invariant
      (fun st : List Int × Int × Int =>
        (st.1.length = 56 ∧ ∀ x ∈ st.1, 0 ≤ x ∧ x < MBIG)
          ∧ (0 ≤ st.2.1 ∧ st.2.1 < MBIG) ∧ (0 ≤ st.2.2 ∧ st.2.2 < MBIG))
      (fun (st : List Int × Int × Int) (i : Nat) =>
        let ma := st.1
        let mj := st.2.1
        let mk := st.2.2
        let ii : Nat := (21 * i) % 55
        let ma := ma.set ii mk
        let mk := mj - mk
        let mk := if mk < MZ then mk + MBIG else mk
        let mj := ma.getD ii 0
        (ma, mj, mk))
      (List.range' 1 54)
      (ma.set 55 (Int.tmod (abs (MSEED - abs idum)) MBIG),
        Int.tmod (abs (MSEED - abs idum)) MBIG, 1)
      ⟨⟨by rw [List.length_set]; exact hl, dek_set_range ma 55 _ h hmj0⟩, hmj0,
        show (0 : Int) ≤ 1 ∧ (1 : Int) < MBIG from ⟨by decide, by decide⟩⟩
      (by
        rintro ⟨m, mj, mk⟩ i ⟨⟨hml, hm⟩, hj, hk⟩
        dsimp only at hml hm hj hk ⊢
        have hm2 := dek_set_range m ((21 * i) % 55) mk hm hk
        refine ⟨⟨by rw [List.length_set]; exact hml, hm2⟩,
          dek_getD_range _ _ hm2, ?_⟩
        unfold MZ MBIG at *
        split_ifs with hneg <;> constructor <;> omega)
    exact h1.1
  · intro m _k hm
    refine foldl_invariant
      (fun ma : List Int => ma.length = 56 ∧ ∀ x ∈ ma, 0 ≤ x ∧ x < MBIG) _ _ _ hm ?_
    rintro m2 i ⟨hml, hm2⟩
    have ha := dek_getD_range m2 i hm2
    have hb := dek_getD_range m2 (1 + (i + 30) % 55) hm2
    by_cases hi : i < m2.length
    · rw [dek_getD_set m2 i _ hi, List.set_set]
      unfold MZ MBIG at *
      split_ifs with hneg
      · exact ⟨by rw [List.length_set]; exact hml,
          dek_set_range m2 i _ hm2 ⟨by omega, by unfold MBIG; omega⟩⟩
      · exact ⟨by rw [List.length_set]; exact hml,
          dek_set_range m2 i _ hm2 ⟨by omega, by unfold MBIG; omega⟩⟩
    · have e : ∀ v, m2.set i v = m2 := fun v => List.set_eq_of_length_le (not_lt.mp hi)
      rw [e, e]
      split_ifs <;> exact ⟨hml, hm2⟩

theorem dek_step_facts (t : DekStatics) (ht : t.InRange) (i p d mj : Int)
    (hi : i = if t.inext + 1 = 56 then 1 else t.inext + 1)
    (hp : p = if t.inextp + 1 = 56 then 1 else t.inextp + 1)
    (hd : d = t.ma.getD i.toNat 0 - t.ma.getD p.toNat 0)
    (hmj : mj = if d < MZ then d + MBIG else d) :
    1 ≤ i ∧ i ≤ 55 ∧ 1 ≤ p ∧ p ≤ 55 ∧ 0 ≤ mj ∧ mj < MBIG
      ∧ (t.ma.set i.toNat mj).getD i.toNat 0 = mj
      ∧ (t.ma.set i.toNat mj).length = 56
      ∧ ∀ x ∈ t.ma.set i.toNat mj, 0 ≤ x ∧ x < MBIG := by
  obtain ⟨hl, hm, hi0, hi1, hp0, hp1⟩ := ht
  have ha := dek_getD_range t.ma i.toNat hm
  have hb := dek_getD_range t.ma p.toNat hm
  have i1 : 1 ≤ i ∧ i ≤ 55 := by rw [hi]; split_ifs <;> constructor <;> omega
  have p1 : 1 ≤ p ∧ p ≤ 55 := by rw [hp]; split_ifs <;> constructor <;> omega
  have m1 : 0 ≤ mj ∧ mj < MBIG := by
    rw [hmj]
    unfold MZ MBIG at *
    split_ifs <;> constructor <;> omega
  refine ⟨i1.1, i1.2, p1.1, p1.2, m1.1, m1.2, ?_, by rw [List.length_set]; exact hl,
    dek_set_range _ _ _ hm m1⟩
  exact dek_getD_set _ _ _ (by rw [hl]; omega)

theorem generateRandomDek_seed {K : Type} [LinearOrderedField K] (pIdum : Int) (s : DekStatics)
    (hc : pIdum < 0 ∨ s.iff = 0) :
    generateRandomDek (K := K) pIdum s
      = generateRandomDek (K := K) 1
          { inext := 0, inextp := 31, ma := dekSeedTable pIdum s.ma, iff := 1 } := by
  unfold generateRandomDek
  rw [if_pos hc, if_neg (show ¬ ((1 : Int) < 0 ∨ (1 : Int) = 0) by decide)]

/-- One call of `generateRandomDek` without the seeding block, on statics in range. -/
theorem generateRandomDek_noseed {K : Type} [LinearOrderedField K] (pIdum : Int)
    (t : DekStatics) (ht : t.InRange) (hc : ¬ (pIdum < 0 ∨ t.iff = 0)) :
    0 ≤ (generateRandomDek (K := K) pIdum t).1
    ∧ (generateRandomDek (K := K) pIdum t).1 < 1
    ∧ (generateRandomDek (K := K) pIdum t).2.2.InRange
    ∧ 1 ≤ (generateRandomDek (K := K) pIdum t).2.2.inext
    ∧ (generateRandomDek (K := K) pIdum t).1
        = (((generateRandomDek (K := K) pIdum t).2.2.ma.getD
              (generateRandomDek (K := K) pIdum t).2.2.inext.toNat 0 : Int) : K) / 10 ^ 9 := by
  obtain ⟨i1, i2, p1, p2, m1, m2, hg, hl, hr⟩ := dek_step_facts t ht _ _ _ _ rfl rfl rfl rfl
  have hB : (MBIG : K) = 10 ^ 9 := by unfold MBIG; norm_num
  have h10 : (1.0 : K) = 1 := by norm_num
  unfold generateRandomDek
  rw [if_neg hc]
  simp only
  rw [hg, hB, h10]
  refine ⟨?_, ?_, ⟨hl, hr, le_trans (by decide) i1, i2, le_trans (by decide) p1, p2⟩, i1,
    by ring⟩
  · exact mul_nonneg (by exact_mod_cast m1) (by positivity)
  · have : ((if t.ma.getD (if t.inext + 1 = 56 then 1 else t.inext + 1).toNat 0
              - t.ma.getD (if t.inextp + 1 = 56 then 1 else t.inextp + 1).toNat 0 < MZ
            then t.ma.getD (if t.inext + 1 = 56 then 1 else t.inext + 1).toNat 0
              - t.ma.getD (if t.inextp + 1 = 56 then 1 else t.inextp + 1).toNat 0 + MBIG
            else t.ma.getD (if t.inext + 1 = 56 then 1 else t.inext + 1).toNat 0
              - t.ma.getD (if t.inextp + 1 = 56 then 1 else t.inextp + 1).toNat 0 : Int) : K)
          < 10 ^ 9 := by
      have := m2
      unfold MBIG at this
      exact_mod_cast this
    rw [mul_one_div, div_lt_one (by positivity)]
    exact this

/-- One call of `generateRandomDek` on statics in range: the result is in `[0, 1)`, the
    statics stay in range, the new `inext` is in `1..55` and the result is the table
    entry at the new `inext` divided by `10^9`. -/
theorem generateRandomDek_step {K : Type} [LinearOrderedField K] (pIdum : Int) (s : DekStatics)
    (hs : s.InRange) :
    0 ≤ (generateRandomDek (K := K) pIdum s).1
    ∧ (generateRandomDek (K := K) pIdum s).1 < 1
    ∧ (generateRandomDek (K := K) pIdum s).2.2.InRange
    ∧ 1 ≤ (generateRandomDek (K := K) pIdum s).2.2.inext
    ∧ (generateRandomDek (K := K) pIdum s).1
        = (((generateRandomDek (K := K) pIdum s).2.2.ma.getD
              (generateRandomDek (K := K) pIdum s).2.2.inext.toNat 0 : Int) : K) / 10 ^ 9 := by
  by_cases hc : pIdum < 0 ∨ s.iff = 0
  · rw [generateRandomDek_seed pIdum s hc]
    have hseed := dekSeedTable_range pIdum s.ma hs.1 hs.2.1
    have ht : DekStatics.InRange
        { inext := 0, inextp := 31, ma := dekSeedTable pIdum s.ma, iff := 1 } :=
      by
      unfold DekStatics.InRange
      dsimp only
      exact ⟨hseed.1, hseed.2, le_rfl, by norm_num, by norm_num, by norm_num⟩
    have hn : ¬ ((1 : Int) < 0
        ∨ ({ inext := 0, inextp := 31, ma := dekSeedTable pIdum s.ma, iff := 1 }
            : DekStatics).iff = 0) := by
      norm_num
    exact generateRandomDek_noseed 1 _ ht hn
  · exact generateRandomDek_noseed pIdum s hs hc

theorem dekRun_inRange (K : Type) [LinearOrderedField K] (seeds : List Int) :
    (dekRun K seeds).InRange := by
  unfold dekRun
  refine foldl_invariant DekStatics.InRange _ seeds _ (by decide) ?_
  intro b a hb
  exact (generateRandomDek_step (K := K) a b hb).2.2.1

/-- C17: on every call of `generateRandomDek`, for every seed value passed in and every
    generator state reachable from first use (the statics after any sequence of earlier
    calls, with any seeds, from the zero-initialised statics), the returned value `u`
    satisfies `0 <= u < 1`; the table keeps its 56 slots with every entry in
    `[0, 10^9)` before the call, after the seeding block and after the step; the new
    `inext` is in `1..55`; and `u` is the table entry at the new `inext` divided by
    `10^9`. -/
theorem generateRandomDek_unit_interval {K : Type} [LinearOrderedField K] (seeds : List Int)
    (pIdum : Int) :
    0 ≤ (generateRandomDek (K := K) pIdum (dekRun K seeds)).1
    ∧ (generateRandomDek (K := K) pIdum (dekRun K seeds)).1 < 1
    ∧ (dekRun K seeds).InRange
    ∧ ((dekSeedTable pIdum (dekRun K seeds).ma).length = 56
        ∧ ∀ x ∈ dekSeedTable pIdum (dekRun K seeds).ma, 0 ≤ x ∧ x < MBIG)
    ∧ (generateRandomDek (K := K) pIdum (dekRun K seeds)).2.2.InRange
    ∧ 1 ≤ (generateRandomDek (K := K) pIdum (dekRun K seeds)).2.2.inext
    ∧ (generateRandomDek (K := K) pIdum (dekRun K seeds)).2.2.inext ≤ 55
    ∧ (generateRandomDek (K := K) pIdum (dekRun K seeds)).1
        = (((generateRandomDek (K := K) pIdum (dekRun K seeds)).2.2.ma.getD
              (generateRandomDek (K := K) pIdum (dekRun K seeds)).2.2.inext.toNat 0 : Int) : K)
            / 10 ^ 9 := by
  have hr := dekRun_inRange K seeds
  obtain ⟨h1, h2, h3, h4, h5⟩ := generateRandomDek_step (K := K) pIdum (dekRun K seeds) hr
  exact ⟨h1, h2, hr, dekSeedTable_range pIdum _ hr.1 hr.2.1, h3, h4, h3.2.2.2.1, h5⟩

/-! ## The range of `generateRandomNag` -/

theorem generateRandomNag_value {K : Type} [LinearOrderedField K] (pIdum idums : Int) :
    (generateRandomNag (K := K) pIdum idums).1
      = ((0x007fffff &&&
            (pseudoDes (((if pIdum < 0 then -pIdum else idums) % (2 ^ 32 : Int)).toNat)
              (((if pIdum < 0 then 1 else pIdum) % (2 ^ 32 : Int)).toNat)).2 : Nat) : K)
          / 2 ^ 23 := by
  have h10 : (1.0 : K) = 1 := by norm_num
  unfold generateRandomNag
  by_cases h : pIdum < 0
  · simp only [if_pos h, h10, wrapInt32_emod]
    ring
  · simp only [if_neg h, h10]
    ring

/-- C18 (amended): for every counter `pIdum` and companion word `idums`,
    `generateRandomNag` returns `u = m / 2^23` where `m < 2^23` is the low 23 bits of
    the right word produced by `pseudoDes` (run on the 32-bit companion word and
    counter, after a negative counter was replaced by 1 and the companion word by its
    negation); the single with bits `0x3f800000 | m` is `1 + m / 2^23` in `[1, 2)`, and
    `0 <= u < 1`.  A non-negative counter below `2^31 - 1` (the largest `int32_t`, where
    the increment overflows) is advanced by exactly 1 and the companion word is kept; a
    negative counter above `-2^31` (where the negation overflows) is a reseeding
    request: the companion word becomes `-pIdum` and the counter is 2 after the call. -/
theorem generateRandomNag_unit_interval {K : Type} [LinearOrderedField K] (pIdum idums : Int) :
    ∃ m : Nat,
      m = 0x007fffff &&&
            (pseudoDes (((if pIdum < 0 then -pIdum else idums) % (2 ^ 32 : Int)).toNat)
              (((if pIdum < 0 then 1 else pIdum) % (2 ^ 32 : Int)).toNat)).2
      ∧ m < 2 ^ 23
      ∧ (generateRandomNag (K := K) pIdum idums).1 = (m : K) / 2 ^ 23
      ∧ (1 : K) ≤ 1 + (m : K) / 2 ^ 23
      ∧ 1 + (m : K) / 2 ^ 23 < 2
      ∧ 0 ≤ (generateRandomNag (K := K) pIdum idums).1
      ∧ (generateRandomNag (K := K) pIdum idums).1 < 1
      ∧ (0 ≤ pIdum → pIdum < 2 ^ 31 - 1 →
          (generateRandomNag (K := K) pIdum idums).2 = (pIdum + 1, idums))
      ∧ (-2 ^ 31 < pIdum → pIdum < 0 →
          (generateRandomNag (K := K) pIdum idums).2 = (2, -pIdum)) := by
  refine ⟨_, rfl, ?_, generateRandomNag_value pIdum idums, ?_, ?_, ?_, ?_, ?_, ?_⟩
  · exact lt_of_le_of_lt Nat.and_le_left (by norm_num)
  · have : (0 : K) ≤ ((0x007fffff &&&
            (pseudoDes (((if pIdum < 0 then -pIdum else idums) % (2 ^ 32 : Int)).toNat)
              (((if pIdum < 0 then 1 else pIdum) % (2 ^ 32 : Int)).toNat)).2 : Nat) : K)
          / 2 ^ 23 := by positivity
    linarith
  · have hm : (0x007fffff &&&
            (pseudoDes (((if pIdum < 0 then -pIdum else idums) % (2 ^ 32 : Int)).toNat)
              (((if pIdum < 0 then 1 else pIdum) % (2 ^ 32 : Int)).toNat)).2) < 2 ^ 23 :=
      lt_of_le_of_lt Nat.and_le_left (by norm_num)
    have : ((0x007fffff &&&
            (pseudoDes (((if pIdum < 0 then -pIdum else idums) % (2 ^ 32 : Int)).toNat)
              (((if pIdum < 0 then 1 else pIdum) % (2 ^ 32 : Int)).toNat)).2 : Nat) : K)
          / 2 ^ 23 < 1 := by
      rw [div_lt_one (by positivity)]
      exact_mod_cast hm
    linarith
  · rw [generateRandomNag_value]
    positivity
  · have hm : (0x007fffff &&&
            (pseudoDes (((if pIdum < 0 then -pIdum else idums) % (2 ^ 32 : Int)).toNat)
              (((if pIdum < 0 then 1 else pIdum) % (2 ^ 32 : Int)).toNat)).2) < 2 ^ 23 :=
      lt_of_le_of_lt Nat.and_le_left (by norm_num)
    rw [generateRandomNag_value, div_lt_one (by positivity)]
    exact_mod_cast hm
  · intro h h2
    exact generateRandomNag_nonneg_counter pIdum idums h h2
  · intro h1 h
    unfold generateRandomNag
    simp only [if_pos h]
    rw [wrapInt32_of_bounds (1 + 1) (by norm_num) (by norm_num),
      wrapInt32_of_bounds (-pIdum) (by omega) (by omega)]
    norm_num

/-- Counterexample for C18 as stated: with the counter -5 the call does not advance the
    counter by 1 (to -4); it reseeds, and the counter is 2 after the call. -/
theorem generateRandomNag_negative_counter :
    (generateRandomNag (K := ℚ) (-5) 0).2.1 = 2
    ∧ (generateRandomNag (K := ℚ) (-5) 0).2.1 ≠ -5 + 1
    ∧ (generateRandomNag (K := ℚ) (-5) 0).2.2 = 5 := by
  have h : (generateRandomNag (K := ℚ) (-5) 0).2 = (2, 5) := by
    unfold generateRandomNag
    simp only [if_pos (show ((-5 : Int) < 0) by decide)]
    rw [wrapInt32_of_bounds (1 + 1) (by norm_num) (by norm_num),
      wrapInt32_of_bounds (-(-5)) (by norm_num) (by norm_num)]
    norm_num
  rw [h]
  exact ⟨rfl, by decide, rfl⟩

/-! ## The sine with a damped sine envelope -/

theorem sinDampSin_kPer {K : Type} [LinearOrderedField K] [FloorRing K] (q : K) (h0 : 0 ≤ q)
    (h1 : 1 + q < 2 ^ 32) :
    ((toUInt32 (1 + q) : Nat) : K) = (((1 + ⌊q⌋ : Int)) : K) := by
  rw [toUInt32_cast (1 + q) (by linarith) h1, add_comm 1 q, Int.floor_add_one, add_comm]

/-- C19 (amended): for every SinDampSin spec with `tPeriodEnv > 0` and every
    `t >= tDelay`, with `k = 1 + floor((t - tDelay)/tPeriodEnv)`, the value is
    `offset + A*sin(pi/tPeriodEnv*(t - tDelay))*sin(2*pi*freqSinHz*(t - tDelay))` where
    `A = amplit` for dampingType 0 and `A = 0` (the value is exactly `offset`) for every
    dampingType outside `-3..3`, at every such `t`; and, while
    `1 + (t - tDelay)/tPeriodEnv` is below `2^32` (the period count is a `uint32_t`),
    `A = amplit*pow(k, -dampingType)` for dampingType in `{-2, -1, 1, 2}`,
    `amplit*exp(k - 1)` for -3 and `amplit*exp(-(k - 1))` for +3. -/
theorem getSignalValueSinDampSin_formula {K : Type} [LinearOrderedField K] [FloorRing K]
    (M : LibM K) (d : SignalSinDampSin K) (t : K) (hP : 0 < d.tPeriodEnv)
    (ht : d.tDelay ≤ t) :
    (d.dampingType = 0 →
        getSignalValueSinDampSin M d t
          = d.offset + d.amplit * M.sin (M.M_PI / d.tPeriodEnv * (t - d.tDelay))
              * M.sin (2 * M.M_PI * d.freqSinHz * (t - d.tDelay)))
    ∧ ((d.dampingType < -3 ∨ 3 < d.dampingType) →
        getSignalValueSinDampSin M d t = d.offset
        ∧ getSignalValueSinDampSin M d t
          = d.offset + 0 * M.sin (M.M_PI / d.tPeriodEnv * (t - d.tDelay))
              * M.sin (2 * M.M_PI * d.freqSinHz * (t - d.tDelay)))
    ∧ (1 + (t - d.tDelay) / d.tPeriodEnv < 2 ^ 32 →
        (d.dampingType = -3 →
          getSignalValueSinDampSin M d t
            = d.offset
              + d.amplit * M.exp ((((1 + ⌊(t - d.tDelay) / d.tPeriodEnv⌋ : Int)) : K) - 1)
                * M.sin (M.M_PI / d.tPeriodEnv * (t - d.tDelay))
                * M.sin (2 * M.M_PI * d.freqSinHz * (t - d.tDelay)))
        ∧ ((d.dampingType = -2 ∨ d.dampingType = -1 ∨ d.dampingType = 1
              ∨ d.dampingType = 2) →
          getSignalValueSinDampSin M d t
            = d.offset
              + d.amplit * M.pow (((1 + ⌊(t - d.tDelay) / d.tPeriodEnv⌋ : Int)) : K)
                    ((-d.dampingType : Int) : K)
                * M.sin (M.M_PI / d.tPeriodEnv * (t - d.tDelay))
                * M.sin (2 * M.M_PI * d.freqSinHz * (t - d.tDelay)))
        ∧ (d.dampingType = 3 →
          getSignalValueSinDampSin M d t
            = d.offset
              + d.amplit * M.exp (-((((1 + ⌊(t - d.tDelay) / d.tPeriodEnv⌋ : Int)) : K) - 1))
                * M.sin (M.M_PI / d.tPeriodEnv * (t - d.tDelay))
                * M.sin (2 * M.M_PI * d.freqSinHz * (t - d.tDelay)))) := by
  have h10 : (1.0 : K) = 1 := by norm_num
  have hq : 0 ≤ (t - d.tDelay) / d.tPeriodEnv := div_nonneg (by linarith) hP.le
  refine ⟨fun h0 => ?_, fun ho => ?_, fun hb => ⟨fun h3 => ?_, fun h12 => ?_, fun h3 => ?_⟩⟩
  · unfold getSignalValueSinDampSin
    rw [if_pos (ge_iff_le.mpr ht)]
    simp only [if_pos h0]
  · have e : getSignalValueSinDampSin M d t
          = d.offset + 0 * M.sin (M.M_PI / d.tPeriodEnv * (t - d.tDelay))
              * M.sin (2 * M.M_PI * d.freqSinHz * (t - d.tDelay)) := by
      unfold getSignalValueSinDampSin
      rw [if_pos (ge_iff_le.mpr ht)]
      simp only
      rw [if_neg (by omega), if_neg (by omega), if_neg (by omega), if_neg (by omega)]
    refine ⟨?_, e⟩
    rw [e]
    ring
  · unfold getSignalValueSinDampSin
    rw [if_pos (ge_iff_le.mpr ht)]
    simp only
    rw [if_neg (by omega), if_pos h3, sinDampSin_kPer _ hq hb, h10]
  · unfold getSignalValueSinDampSin
    rw [if_pos (ge_iff_le.mpr ht)]
    simp only
    rw [if_neg (by omega), if_neg (by omega), if_pos h12, sinDampSin_kPer _ hq hb]
  · unfold getSignalValueSinDampSin
    rw [if_pos (ge_iff_le.mpr ht)]
    simp only
    rw [if_neg (by omega), if_neg (by omega), if_neg (by omega), if_pos h3,
      sinDampSin_kPer _ hq hb, h10]

/-- Witness for C19: a rational stand-in for the `<cmath>` functions, envelope period 1,
    dampingType 2, at `t = 5/2` (third period, `k = 3`). -/
theorem getSignalValueSinDampSin_formula_witness :
    getSignalValueSinDampSin (⟨id, id, id, fun x y => x * y, id, 3⟩ : LibM ℚ)
        { freqSinHz := 1, tPeriodEnv := 1, tDelay := 0, amplit := 1, offset := 0,
          dampingType := 2 } (5 / 2)
      = 0 + 1 * ((((1 + ⌊((5 / 2 : ℚ) - 0) / 1⌋ : Int)) : ℚ) * (((-2 : Int)) : ℚ))
          * (3 / 1 * (5 / 2 - 0)) * (2 * 3 * 1 * (5 / 2 - 0)) :=
  ((getSignalValueSinDampSin_formula (⟨id, id, id, fun x y => x * y, id, 3⟩ : LibM ℚ)
      { freqSinHz := 1, tPeriodEnv := 1, tDelay := 0, amplit := 1, offset := 0,
        dampingType := 2 } (5 / 2) (by norm_num) (by norm_num)).2.2
        (by norm_num)).2.1 (Or.inr (Or.inr (Or.inr rfl)))

/-- Counterexample for C19 as stated, with the real sine and exponential and
    `M_PI = π`: envelope period 1, sine frequency 1/2, dampingType 3, no delay, at
    `t = 2^32 - 1/2`.  Both sines are -1 and `k = 2^32`, so the claimed value is
    `exp(-(2^32 - 1))`; the `uint32_t` period count wraps to 0 and the code returns
    `exp(1)`.  No 32-bit count `c` gives the claimed value. -/
theorem getSignalValueSinDampSin_beyond_uint32 :
    getSignalValueSinDampSin
        (⟨Real.sin, Real.cos, Real.exp, fun x y => x ^ y,
          fun x => Real.log x / Real.log 10, Real.pi⟩ : LibM ℝ)
        { freqSinHz := 1 / 2, tPeriodEnv := 1, tDelay := 0, amplit := 1, offset := 0,
          dampingType := 3 } (2 ^ 32 - 1 / 2)
      = Real.exp 1
    ∧ (0 : ℝ) + 1 * Real.exp (-((((1 + ⌊((2 ^ 32 - 1 / 2 : ℝ) - 0) / 1⌋ : Int)) : ℝ) - 1))
          * Real.sin (Real.pi / 1 * ((2 ^ 32 - 1 / 2 : ℝ) - 0))
          * Real.sin (2 * Real.pi * (1 / 2) * ((2 ^ 32 - 1 / 2 : ℝ) - 0))
        = Real.exp (-(2 ^ 32 - 1))
    ∧ getSignalValueSinDampSin
        (⟨Real.sin, Real.cos, Real.exp, fun x y => x ^ y,
          fun x => Real.log x / Real.log 10, Real.pi⟩ : LibM ℝ)
        { freqSinHz := 1 / 2, tPeriodEnv := 1, tDelay := 0, amplit := 1, offset := 0,
          dampingType := 3 } (2 ^ 32 - 1 / 2)
      ≠ (0 : ℝ) + 1 * Real.exp (-((((1 + ⌊((2 ^ 32 - 1 / 2 : ℝ) - 0) / 1⌋ : Int)) : ℝ) - 1))
          * Real.sin (Real.pi / 1 * ((2 ^ 32 - 1 / 2 : ℝ) - 0))
          * Real.sin (2 * Real.pi * (1 / 2) * ((2 ^ 32 - 1 / 2 : ℝ) - 0))
    ∧ ¬ ∃ c : Nat, c < 2 ^ 32
        ∧ (0 : ℝ) + 1 * Real.exp (-((c : ℝ) - 1))
            * Real.sin (Real.pi / 1 * ((2 ^ 32 - 1 / 2 : ℝ) - 0))
            * Real.sin (2 * Real.pi * (1 / 2) * ((2 ^ 32 - 1 / 2 : ℝ) - 0))
          = Real.exp (-(2 ^ 32 - 1)) := by
  have hs1 : Real.sin (Real.pi / 1 * ((2 ^ 32 - 1 / 2 : ℝ) - 0)) = -1 := by
    have e : Real.pi / 1 * ((2 ^ 32 - 1 / 2 : ℝ) - 0)
        = ((2 ^ 31 : ℕ) : ℝ) * (2 * Real.pi) - Real.pi / 2 := by
      push_cast
      ring
    rw [e, Real.sin_nat_mul_two_pi_sub, Real.sin_pi_div_two]
  have hs2 : Real.sin (2 * Real.pi * (1 / 2) * ((2 ^ 32 - 1 / 2 : ℝ) - 0)) = -1 := by
    have e : 2 * Real.pi * (1 / 2) * ((2 ^ 32 - 1 / 2 : ℝ) - 0)
        = ((2 ^ 31 : ℕ) : ℝ) * (2 * Real.pi) - Real.pi / 2 := by
      push_cast
      ring
    rw [e, Real.sin_nat_mul_two_pi_sub, Real.sin_pi_div_two]
  have hk : toUInt32 (1 + ((2 ^ 32 - 1 / 2 : ℝ) - 0) / 1) = 0 := by
    have hf : ⌊(1 + ((2 ^ 32 - 1 / 2 : ℝ) - 0) / 1)⌋ = 2 ^ 32 := by
      rw [Int.floor_eq_iff]
      norm_num
    unfold toUInt32 truncate
    rw [if_pos (by norm_num), hf]
    decide
  have hfl : ⌊((2 ^ 32 - 1 / 2 : ℝ) - 0) / 1⌋ = 2 ^ 32 - 1 := by
    rw [Int.floor_eq_iff]
    norm_num
  have hcode : getSignalValueSinDampSin
        (⟨Real.sin, Real.cos, Real.exp, fun x y => x ^ y,
          fun x => Real.log x / Real.log 10, Real.pi⟩ : LibM ℝ)
        { freqSinHz := 1 / 2, tPeriodEnv := 1, tDelay := 0, amplit := 1, offset := 0,
          dampingType := 3 } (2 ^ 32 - 1 / 2)
      = Real.exp 1 := by
    unfold getSignalValueSinDampSin
    rw [if_pos (by norm_num)]
    simp only
    rw [hk, hs1, hs2]
    norm_num
  have hclaim : (0 : ℝ) + 1 * Real.exp (-((((1 + ⌊((2 ^ 32 - 1 / 2 : ℝ) - 0) / 1⌋ : Int)) : ℝ) - 1))
          * Real.sin (Real.pi / 1 * ((2 ^ 32 - 1 / 2 : ℝ) - 0))
          * Real.sin (2 * Real.pi * (1 / 2) * ((2 ^ 32 - 1 / 2 : ℝ) - 0))
        = Real.exp (-(2 ^ 32 - 1)) := by
    rw [hfl, hs1, hs2]
    norm_num
  refine ⟨hcode, hclaim, ?_, ?_⟩
  · rw [hcode, hclaim]
    intro h
    have := Real.exp_injective h
    norm_num at this
  · rintro ⟨c, hc, h⟩
    rw [hs1, hs2] at h
    have h2 : Real.exp (-((c : ℝ) - 1)) = Real.exp (-(2 ^ 32 - 1)) := by
      rw [← h]
      ring
    have h3 := Real.exp_injective h2
    have h4 : (c : ℝ) = 2 ^ 32 := by linarith
    have h5 : c = 2 ^ 32 := by exact_mod_cast h4
    omega

/-! ## The quiet zone of the trapezoid envelope -/

theorem toUInt32_one_add {K : Type} [LinearOrderedField K] [FloorRing K] (q : K) (h0 : 0 ≤ q)
    (h1 : 1 + q < 2 ^ 32) :
    toUInt32 (1 + q) = 1 + ⌊q⌋.toNat := by
  have hf : ⌊1 + q⌋ = 1 + ⌊q⌋ := by rw [add_comm 1 q, Int.floor_add_one, add_comm]
  have hq0 : 0 ≤ ⌊q⌋ := Int.floor_nonneg.mpr h0
  have hq1 : 1 + ⌊q⌋ < 2 ^ 32 := by
    rw [← hf, Int.floor_lt]
    exact_mod_cast h1
  unfold toUInt32 truncate
  rw [if_pos (by linarith), hf, Int.emod_eq_of_lt (by omega) hq1]
  omega

/-- The quiet zone is empty unless the period is positive. -/
theorem quiet_zone_period_pos {K : Type} [LinearOrderedField K] [FloorRing K]
    (tDelay P t : K) (ht : tDelay ≤ t)
    (hhi : t < tDelay + (((1 + ⌊(t - tDelay) / P⌋ : Int)) : K) * P) : 0 < P := by
  by_contra hP
  rcases eq_or_lt_of_le (not_lt.mp hP) with h0 | hneg
  · rw [h0] at hhi
    simp only [mul_zero, add_zero] at hhi
    exact absurd ht (not_le.mpr hhi)
  · have h1 : (t - tDelay) / P < ((1 + ⌊(t - tDelay) / P⌋ : Int) : K) := by
      push_cast
      have := Int.lt_floor_add_one ((t - tDelay) / P)
      linarith
    have h2 : (((1 + ⌊(t - tDelay) / P⌋ : Int)) : K) * P < (t - tDelay) / P * P :=
      mul_lt_mul_of_neg_right h1 hneg
    rw [div_mul_cancel₀ _ (ne_of_lt hneg)] at h2
    linarith

/-- C20 (amended): for every `t >= tDelay`, `getSignalValueTrapDampSin` returns exactly
    `offset` when `t >= tCross`; and when `t` is strictly inside the quiet zone of its
    period `k = 1 + floor((t - tDelay)/tPeriod)`,
    `tDelay + (k-1)*tPeriod + tRise + tWidth + tFall < t < tDelay + k*tPeriod`, it
    returns exactly `offset` provided the spec has `tWidth >= 0` and `tFall >= 0`, or
    `1 + (t - tDelay)/tPeriod` is below `2^32` (the period count is a `uint32_t`). -/
theorem getSignalValueTrapDampSin_quiet {K : Type} [LinearOrderedField K] [FloorRing K]
    (M : LibM K) (d : SignalTrapDampSin K) (t : K) (ht : d.tDelay ≤ t) :
    (d.tCross ≤ t → getSignalValueTrapDampSin M d t = d.offset)
    ∧ (d.tDelay + ((((1 + ⌊(t - d.tDelay) / d.tPeriod⌋ : Int)) : K) - 1) * d.tPeriod
            + d.tRise + d.tWidth + d.tFall < t →
        t < d.tDelay + (((1 + ⌊(t - d.tDelay) / d.tPeriod⌋ : Int)) : K) * d.tPeriod →
        ((0 ≤ d.tWidth ∧ 0 ≤ d.tFall) ∨ 1 + (t - d.tDelay) / d.tPeriod < 2 ^ 32) →
        getSignalValueTrapDampSin M d t = d.offset) := by
  constructor
  · intro hc
    unfold getSignalValueTrapDampSin
    rw [if_pos (ge_iff_le.mpr ht)]
    simp only
    rw [if_pos (Or.inl (ge_iff_le.mpr hc))]
  · intro hlo hhi hcase
    have hP : 0 < d.tPeriod := quiet_zone_period_pos d.tDelay d.tPeriod t ht hhi
    have hq : 0 ≤ (t - d.tDelay) / d.tPeriod := div_nonneg (by linarith) hP.le
    have hfl0 : 0 ≤ ⌊(t - d.tDelay) / d.tPeriod⌋ := Int.floor_nonneg.mpr hq
    push_cast at hlo hhi
    by_cases hb : 1 + (t - d.tDelay) / d.tPeriod < 2 ^ 32
    · -- the period count is exact
      have hk := toUInt32_one_add _ hq hb
      have hn : ((⌊(t - d.tDelay) / d.tPeriod⌋.toNat : Nat) : K)
          = ((⌊(t - d.tDelay) / d.tPeriod⌋ : Int) : K) := by
        have : ((⌊(t - d.tDelay) / d.tPeriod⌋.toNat : Nat) : Int)
            = ⌊(t - d.tDelay) / d.tPeriod⌋ := Int.toNat_of_nonneg hfl0
        exact_mod_cast this
      have hn1 : ⌊(t - d.tDelay) / d.tPeriod⌋.toNat + 1 < 2 ^ 32 := by
        have h1 : ((1 + ⌊(t - d.tDelay) / d.tPeriod⌋ : Int) : K) ≤ 1 + (t - d.tDelay) / d.tPeriod := by
          push_cast
          have := Int.floor_le ((t - d.tDelay) / d.tPeriod)
          linarith
        have h2 : ((1 + ⌊(t - d.tDelay) / d.tPeriod⌋ : Int) : K) < ((2 ^ 32 : Int) : K) := by
          push_cast
          push_cast at h1
          linarith
        have h3 : 1 + ⌊(t - d.tDelay) / d.tPeriod⌋ < 2 ^ 32 := by exact_mod_cast h2
        omega
      have hm : (1 + ⌊(t - d.tDelay) / d.tPeriod⌋.toNat + 2 ^ 32 - 1) % 2 ^ 32
          = ⌊(t - d.tDelay) / d.tPeriod⌋.toNat := by
        omega
      unfold getSignalValueTrapDampSin
      rw [if_pos (ge_iff_le.mpr ht)]
      simp only
      rw [hk, hm, hn]
      rw [if_pos]
      right
      constructor
      · show d.tDelay + _ * d.tPeriod + d.tRise + d.tWidth + d.tFall < t
        linarith
      · push_cast
        rw [hn]
        exact hhi
    · -- the period count has wrapped: no envelope segment applies
      rcases hcase with ⟨hW, hF⟩ | hb2
      · have hbig : (2 ^ 32 : K) - 1 ≤ (t - d.tDelay) / d.tPeriod := by linarith [not_lt.mp hb]
        have hfl : (2 ^ 32 : Int) - 1 ≤ ⌊(t - d.tDelay) / d.tPeriod⌋ := by
          rw [Int.le_floor]
          push_cast
          linarith
        have hmle : ∀ c : Nat, (((c + 2 ^ 32 - 1) % 2 ^ 32 : Nat) : K)
            ≤ ((⌊(t - d.tDelay) / d.tPeriod⌋ : Int) : K) := by
          intro c
          have h1 : (c + 2 ^ 32 - 1) % 2 ^ 32 < 2 ^ 32 := Nat.mod_lt _ (by norm_num)
          have h2 : (((c + 2 ^ 32 - 1) % 2 ^ 32 : Nat) : Int)
              ≤ ⌊(t - d.tDelay) / d.tPeriod⌋ := by omega
          calc (((c + 2 ^ 32 - 1) % 2 ^ 32 : Nat) : K)
              = ((((c + 2 ^ 32 - 1) % 2 ^ 32 : Nat) : Int) : K) := (Int.cast_natCast _).symm
            _ ≤ ((⌊(t - d.tDelay) / d.tPeriod⌋ : Int) : K) := Int.cast_le.mpr h2
        have hmP := mul_le_mul_of_nonneg_right
          (hmle (toUInt32 (1 + (t - d.tDelay) / d.tPeriod))) hP.le
        unfold getSignalValueTrapDampSin
        rw [if_pos (ge_iff_le.mpr ht)]
        simp only
        split_ifs with h1 h2 h3 h4
        · rfl
        · exact absurd h2.2 (not_le.mpr (by linarith))
        · exact absurd h3.2 (not_le.mpr (by linarith))
        · exact absurd h4.2 (not_le.mpr (by linarith))
        · ring
      · exact absurd hb2 hb

/-- Witness for C20: period 1, rise 1/8, width 1/4, fall 1/8, no delay, `tCross = 10`,
    offset 7, at `t = 3/4` (quiet zone of the first period), with a rational stand-in
    for the `<cmath>` functions. -/
theorem getSignalValueTrapDampSin_quiet_witness :
    getSignalValueTrapDampSin (⟨id, id, id, fun x _ => x, id, 3⟩ : LibM ℚ)
        { tPeriod := 1, tRise := 1 / 8, tWidth := 1 / 4, tFall := 1 / 8, tDelay := 0,
          tCross := 10, freqHz := 1, amplit := 1, offset := 7 } (3 / 4) = 7 :=
  (getSignalValueTrapDampSin_quiet (⟨id, id, id, fun x _ => x, id, 3⟩ : LibM ℚ)
      { tPeriod := 1, tRise := 1 / 8, tWidth := 1 / 4, tFall := 1 / 8, tDelay := 0,
        tCross := 10, freqHz := 1, amplit := 1, offset := 7 } (3 / 4) (by norm_num)).2
    (by
      have h : ⌊((3 / 4 : ℚ) - 0) / 1⌋ = 0 := by
        rw [Int.floor_eq_iff]
        norm_num
      rw [h]
      norm_num)
    (by
      have h : ⌊((3 / 4 : ℚ) - 0) / 1⌋ = 0 := by
        rw [Int.floor_eq_iff]
        norm_num
      rw [h]
      norm_num)
    (Or.inl ⟨by norm_num, by norm_num⟩)

theorem toUInt32_of_bounds {K : Type} [LinearOrderedField K] [FloorRing K] (x : K) (z : Int)
    (c : Nat) (h0 : 0 ≤ x) (h1 : (z : K) ≤ x) (h2 : x < (z : K) + 1)
    (hc : (z % (2 ^ 32 : Int)).toNat = c) : toUInt32 x = c := by
  unfold toUInt32
  rw [truncate_eq_of_bounds x z h0 h1 h2, hc]

/-- The rise segment of `getSignalValueTrapDampSin`, for a period count `c` (32 bits) with
    `m = c - 1` in 32 bits: below `tCross`, not before the end `tDelay + c * tPeriod` of
    the counted period, and inside `(tDelay + m * tPeriod, tDelay + m * tPeriod + tRise]`. -/
theorem getSignalValueTrapDampSin_rise {K : Type} [LinearOrderedField K] [FloorRing K]
    (M : LibM K) (d : SignalTrapDampSin K) (t : K) (c m : Nat) (sv : K)
    (ht : d.tDelay ≤ t)
    (hk : toUInt32 (1 + (t - d.tDelay) / d.tPeriod) = c)
    (hm : (c + 2 ^ 32 - 1) % 2 ^ 32 = m)
    (hnc : t < d.tCross)
    (hq : d.tDelay + (c : K) * d.tPeriod ≤ t)
    (h1 : d.tDelay + (m : K) * d.tPeriod < t)
    (h2 : t ≤ d.tDelay + (m : K) * d.tPeriod + d.tRise)
    (hsin : M.sin (2 * M.M_PI * d.freqHz * (t - d.tDelay - (m : K) * d.tPeriod)) = sv) :
    getSignalValueTrapDampSin M d t
      = (t - d.tDelay - (m : K) * d.tPeriod) / d.tRise
          * (d.amplit * (d.tCross - d.tDelay - (m : K) * d.tPeriod - d.tRise) / d.tCross)
          * sv + d.offset := by
  unfold getSignalValueTrapDampSin
  rw [if_pos (ge_iff_le.mpr ht)]
  simp only
  rw [hk, hm, hsin]
  rw [if_neg, if_pos ⟨h1, h2⟩]
  rintro (h | ⟨_, h⟩)
  · exact absurd hnc (not_lt.mpr h)
  · exact absurd h (not_lt.mpr hq)

/-- Counterexample for C20 as stated, with the real sine and `M_PI = π`: period 1, rise
    `2^33`, width `-2^33`, fall 0, no delay, `tCross = 2^35`, frequency 1/2, amplitude 1,
    offset 0, at `t = 2^32 - 1/2`.  Here `k = 2^32` and `t` is strictly inside the quiet
    zone `(2^32 - 1, 2^32)` and below `tCross`, but the `uint32_t` period count wraps,
    the rise segment applies and the value is not the offset. -/
theorem getSignalValueTrapDampSin_quiet_beyond_uint32 :
    ((0 : ℝ) ≤ 2 ^ 32 - 1 / 2)
    ∧ ((0 : ℝ) + ((((1 + ⌊((2 ^ 32 - 1 / 2 : ℝ) - 0) / 1⌋ : Int)) : ℝ) - 1) * 1
          + 2 ^ 33 + -2 ^ 33 + 0 < 2 ^ 32 - 1 / 2)
    ∧ ((2 ^ 32 - 1 / 2 : ℝ) < 0 + (((1 + ⌊((2 ^ 32 - 1 / 2 : ℝ) - 0) / 1⌋ : Int)) : ℝ) * 1)
    ∧ getSignalValueTrapDampSin
        (⟨Real.sin, Real.cos, Real.exp, fun x y => x ^ y,
          fun x => Real.log x / Real.log 10, Real.pi⟩ : LibM ℝ)
        { tPeriod := 1, tRise := 2 ^ 33, tWidth := -2 ^ 33, tFall := 0, tDelay := 0,
          tCross := 2 ^ 35, freqHz := 1 / 2, amplit := 1, offset := 0 } (2 ^ 32 - 1 / 2)
      = (5 * 2 ^ 32 + 1) / 2 ^ 69
    ∧ getSignalValueTrapDampSin
        (⟨Real.sin, Real.cos, Real.exp, fun x y => x ^ y,
          fun x => Real.log x / Real.log 10, Real.pi⟩ : LibM ℝ)
        { tPeriod := 1, tRise := 2 ^ 33, tWidth := -2 ^ 33, tFall := 0, tDelay := 0,
          tCross := 2 ^ 35, freqHz := 1 / 2, amplit := 1, offset := 0 } (2 ^ 32 - 1 / 2)
      ≠ 0 := by
  have hfl : ⌊((2 ^ 32 - 1 / 2 : ℝ) - 0) / 1⌋ = 2 ^ 32 - 1 := by
    rw [Int.floor_eq_iff]
    norm_num
  have hcode := getSignalValueTrapDampSin_rise
    (⟨Real.sin, Real.cos, Real.exp, fun x y => x ^ y,
      fun x => Real.log x / Real.log 10, Real.pi⟩ : LibM ℝ)
    { tPeriod := 1, tRise := 2 ^ 33, tWidth := -2 ^ 33, tFall := 0, tDelay := 0,
      tCross := 2 ^ 35, freqHz := 1 / 2, amplit := 1, offset := 0 } (2 ^ 32 - 1 / 2)
    0 (2 ^ 32 - 1) 1 (by norm_num)
    (toUInt32_of_bounds _ (2 ^ 32) 0 (by norm_num) (by norm_num) (by norm_num) (by decide))
    (by norm_num) (by norm_num) (by norm_num) (by norm_num) (by norm_num)
    (by
      have e : 2 * Real.pi * (1 / 2) * ((2 ^ 32 - 1 / 2 : ℝ) - 0 - (((2 ^ 32 - 1 : Nat)) : ℝ) * 1)
          = Real.pi / 2 := by
        push_cast
        ring
      show Real.sin (2 * Real.pi * (1 / 2)
        * ((2 ^ 32 - 1 / 2 : ℝ) - 0 - (((2 ^ 32 - 1 : Nat)) : ℝ) * 1)) = 1
      rw [e, Real.sin_pi_div_two])
  have hval := hcode.trans
    (show _ = ((5 * 2 ^ 32 + 1) / 2 ^ 69 : ℝ) by norm_num)
  refine ⟨by norm_num, ?_, ?_, hval, ?_⟩
  · rw [hfl]
    norm_num
  · rw [hfl]
    norm_num
  · rw [hval]
    norm_num

/-! ## The exponential rise and fall -/

theorem filterStep_fst_congr {K : Type} [LinearOrderedField K] (f : DigitalFilter K)
    (x x2 : List K) (c c2 o o2 : List K) (i i2 : Nat)
    (hx : x.getD i 0 = x2.getD i2 0) (hi : i % 512 = i2 % 512)
    (hl : c.length = c2.length) (hc : i % 512 ≠ 0 → c = c2) :
    (filterStep f x (c, o) i).1 = (filterStep f x2 (c2, o2) i2).1 := by
  unfold filterStep
  simp only [hx, hi, hl]
  by_cases h0 : 0 = i2 % 512
  · rw [if_pos h0, if_pos h0]
  · rw [if_neg h0, if_neg h0, hc (by rw [hi]; exact fun h => h0 h.symm)]

theorem filterStep_fst_length {K : Type} [LinearOrderedField K] (f : DigitalFilter K)
    (x : List K) (c o : List K) (i : Nat) :
    (filterStep f x (c, o) i).1.length = c.length := by
  unfold filterStep
  simp only
  rw [foldl_set_length (fun _ _ => 0) (fun c j => c.getD 0 0 - f.a.getD j 0 * c.getD j 0),
    List.length_set,
    foldl_set_length (fun _ j => j) (fun c j => c.getD (j - 1) 0)]
  split_ifs <;> simp

theorem filterStep_snd {K : Type} [LinearOrderedField K] (f : DigitalFilter K)
    (x : List K) (c o : List K) (i : Nat) (hi : i < o.length) :
    (filterStep f x (c, o) i).2
      = o.set i (filterOutput f (filterStep f x (c, o) i).1) := by
  unfold filterOutput
  unfold filterStep
  simp only
  rw [foldl_set_add (fun j => f.b.getD j 0 * _) i _ _ (by simpa using hi)]
  rw [getD_set_self o i 0 hi, List.set_set, zero_add]

theorem filterFold_fst {K : Type} [LinearOrderedField K] (f : DigitalFilter K) (x : List K)
    (c0 : List K) (o : List K) :
    ∀ k, ((List.range k).foldl (filterStep f x) (c0, o)).1
      = ((List.range k).foldl (filterStep f x) (c0, [])).1 := by
  intro k
  induction k with
  | zero => rfl
  | succ k ih =>
    rw [List.range_succ, List.foldl_append, List.foldl_append, List.foldl_cons, List.foldl_nil,
      List.foldl_cons, List.foldl_nil]
    generalize (List.range k).foldl (filterStep f x) (c0, o) = r at ih
    generalize (List.range k).foldl (filterStep f x) (c0, []) = r2 at ih
    obtain ⟨c, p⟩ := r
    obtain ⟨c2, p2⟩ := r2
    simp only at ih
    subst ih
    exact filterStep_fst_congr f x x c c p p2 k k rfl rfl rfl (fun _ => rfl)

theorem filterDelayLine_length {K : Type} [LinearOrderedField K] (f : DigitalFilter K)
    (x : List K) : ∀ k, (filterDelayLine f x k).length = 1 + f.N := by
  intro k
  induction k with
  | zero => simp [filterDelayLine]
  | succ k ih =>
    unfold filterDelayLine at ih ⊢
    rw [List.range_succ, List.foldl_append, List.foldl_cons, List.foldl_nil]
    generalize (List.range k).foldl (filterStep f x) (List.replicate (1 + f.N) 0, []) = r at ih
    obtain ⟨c, p⟩ := r
    rw [filterStep_fst_length]
    exact ih

theorem filterDelayLine_succ {K : Type} [LinearOrderedField K] (f : DigitalFilter K)
    (x : List K) (k : Nat) (o : List K) :
    filterDelayLine f x (k + 1) = (filterStep f x (filterDelayLine f x k, o) k).1 := by
  unfold filterDelayLine
  rw [List.range_succ, List.foldl_append, List.foldl_cons, List.foldl_nil]
  generalize (List.range k).foldl (filterStep f x) (List.replicate (1 + f.N) 0, []) = r
  obtain ⟨c, p⟩ := r
  exact filterStep_fst_congr f x x c c p o k k rfl rfl rfl (fun _ => rfl)

/-- The state of the sample loop of `filterData` after `k` samples: the delay line, and
    the output vector with its first `k` entries computed. -/
theorem filterFold_state {K : Type} [LinearOrderedField K] (f : DigitalFilter K)
    (x o : List K) :
    ∀ k, k ≤ o.length →
      (List.range k).foldl (filterStep f x) (List.replicate (1 + f.N) 0, o)
        = (filterDelayLine f x k,
            (List.range k).map (fun i => filterOutput f (filterDelayLine f x (i + 1)))
              ++ o.drop k) := by
  intro k
  induction k with
  | zero =>
    intro _
    simp [filterDelayLine]
  | succ k ih =>
    intro hk
    rw [List.range_succ, List.foldl_append, List.foldl_cons, List.foldl_nil, ih (by omega)]
    have hlen : k < ((List.range k).map
        (fun i => filterOutput f (filterDelayLine f x (i + 1))) ++ o.drop k).length := by
      simp
      omega
    have h1 := filterDelayLine_succ f x k
      ((List.range k).map (fun i => filterOutput f (filterDelayLine f x (i + 1))) ++ o.drop k)
    refine Prod.ext h1.symm ?_
    rw [filterStep_snd f x _ _ k hlen, ← h1]
    simp only
    rw [List.set_append_right _ _ (by simp)]
    simp only [List.length_map, List.length_range, Nat.sub_self, List.map_append, List.map_cons,
      List.map_nil, List.append_assoc]
    rw [List.drop_eq_getElem_cons (by omega : k < o.length), List.set_cons_zero]
    rfl

theorem filterData_eq_map {K : Type} [LinearOrderedField K] (f : DigitalFilter K)
    (x o : List K) (h : o.length = x.length) :
    filterData f x o
      = (List.range x.length).map (fun i => filterOutput f (filterDelayLine f x (i + 1))) := by
  unfold filterData
  simp only
  by_cases h0 : x.length ≠ 0
  · rw [if_pos h0, filterFold_state f x o x.length (by omega)]
    simp only
    rw [← h, List.drop_length, List.append_nil]
  · rw [if_neg h0]
    have hx : x.length = 0 := by omega
    rw [hx]
    have ho : o = [] := List.eq_nil_of_length_eq_zero (by omega)
    rw [ho]
    rfl

/-- The delay line depends only on the inputs since the last reset: two inputs that
    agree from block starts `b` and `b2` (multiples of 512) up to `i` further
    samples give the same delay line after sample `i` of the block. -/
theorem filterDelayLine_local {K : Type} [LinearOrderedField K] (f : DigitalFilter K)
    (x x2 : List K) (b b2 : Nat) (hb : b % 512 = 0) (hb2 : b2 % 512 = 0) :
    ∀ i, (∀ j, j ≤ i → x.getD (b + j) 0 = x2.getD (b2 + j) 0) →
      filterDelayLine f x (b + i + 1) = filterDelayLine f x2 (b2 + i + 1) := by
  intro i
  induction i with
  | zero =>
    intro h
    rw [filterDelayLine_succ f x (b + 0) [], filterDelayLine_succ f x2 (b2 + 0) []]
    refine filterStep_fst_congr f x x2 _ _ _ _ _ _ (h 0 le_rfl) (by simp [hb, hb2])
      (by rw [filterDelayLine_length, filterDelayLine_length]) (fun hne => ?_)
    exact absurd (by simpa using hb) hne
  | succ i ih =>
    intro h
    have h1 := ih (fun j hj => h j (by omega))
    rw [filterDelayLine_succ f x (b + (i + 1)) [], filterDelayLine_succ f x2 (b2 + (i + 1)) []]
    refine filterStep_fst_congr f x x2 _ _ _ _ _ _ (h (i + 1) le_rfl) (by omega)
      (by rw [filterDelayLine_length, filterDelayLine_length]) (fun _ => ?_)
    exact h1

/-- C23: `filterData` zeroes its delay line at every sample index that is a multiple
    of 512, so blocks are filtered independently.  For every filter, every input `x`
    whose length is a multiple of 512 and every input `y` (with output vectors of the
    sizes of the inputs), `filterData (x ++ y) = filterData x ++ filterData y`; and
    output sample `i` depends only on the inputs at indices `512 * (i / 512) .. i`: two
    inputs that agree there give the same output sample `i`. -/
theorem filterData_blocks {K : Type} [LinearOrderedField K] (f : DigitalFilter K)
    (x y o1 o2 : List K) (hx : x.length % 512 = 0) (ho1 : o1.length = x.length)
    (ho2 : o2.length = y.length) :
    filterData f (x ++ y) (o1 ++ o2) = filterData f x o1 ++ filterData f y o2
    ∧ ∀ (z z2 p p2 : List K) (i : Nat), p.length = z.length → p2.length = z2.length →
        i < z.length → i < z2.length →
        (∀ j, 512 * (i / 512) ≤ j → j ≤ i → z.getD j 0 = z2.getD j 0) →
        (filterData f z p).getD i 0 = (filterData f z2 p2).getD i 0 := by
  constructor
  · rw [filterData_eq_map f (x ++ y) (o1 ++ o2) (by simp [ho1, ho2]),
      filterData_eq_map f x o1 ho1, filterData_eq_map f y o2 ho2, List.length_append,
      List.range_add, List.map_append, List.map_map]
    congr 1
    · apply List.map_congr_left
      intro i hi
      rw [List.mem_range] at hi
      have h := filterDelayLine_local f (x ++ y) x 0 0 rfl rfl i (fun j hj => by
        rw [Nat.zero_add, List.getD_eq_getElem?_getD, List.getD_eq_getElem?_getD,
          List.getElem?_append_left (by omega)])
      rw [Nat.zero_add] at h
      rw [h]
    · apply List.map_congr_left
      intro i _
      have h := filterDelayLine_local f (x ++ y) y x.length 0 hx rfl i (fun j _ => by
        rw [Nat.zero_add, List.getD_eq_getElem?_getD, List.getD_eq_getElem?_getD,
          List.getElem?_append_right (by omega)]
        congr 2
        omega)
      rw [Nat.zero_add] at h
      simp only [Function.comp]
      rw [h]
  · intro z z2 p p2 i hp hp2 hi hi2 hag
    rw [filterData_eq_map f z p hp, filterData_eq_map f z2 p2 hp2,
      List.getD_eq_getElem?_getD, List.getD_eq_getElem?_getD,
      List.getElem?_map, List.getElem?_map, List.getElem?_range hi, List.getElem?_range hi2]
    simp only [Option.map_some', Option.getD_some]
    have hb : 512 * (i / 512) % 512 = 0 := Nat.mul_mod_right 512 _
    have hsplit : i = 512 * (i / 512) + i % 512 := (Nat.div_add_mod i 512).symm
    have h := filterDelayLine_local f z z2 (512 * (i / 512)) (512 * (i / 512)) hb hb (i % 512)
      (fun j hj => hag _ (by omega) (by omega))
    rw [← hsplit] at h
    rw [h]

/-- Witness for C23: a one-pole filter over the rationals, a block of 512 ones followed
    by two more samples. -/
theorem filterData_blocks_witness :
    filterData (⟨1, [1, 1], [1, 1 / 2]⟩ : DigitalFilter ℚ)
        (List.replicate 512 1 ++ [1, 2]) (List.replicate 512 0 ++ [0, 0])
      = filterData (⟨1, [1, 1], [1, 1 / 2]⟩ : DigitalFilter ℚ)
          (List.replicate 512 1) (List.replicate 512 0)
        ++ filterData (⟨1, [1, 1], [1, 1 / 2]⟩ : DigitalFilter ℚ) [1, 2] [0, 0] :=
  (filterData_blocks (⟨1, [1, 1], [1, 1 / 2]⟩ : DigitalFilter ℚ)
    (List.replicate 512 1) [1, 2] (List.replicate 512 0) [0, 0]
    (by rw [List.length_replicate]) (by rw [List.length_replicate, List.length_replicate])
    rfl).1

/-! ## The block coefficients of the noise filter -/

theorem calculateFilterBlockCoeffs_getD {K : Type} [LinearOrderedField K] (M : LibM K) (mGamma : K)
    (i : Nat) (h1 : 1 ≤ i) (h7 : i ≤ 7) :
    (calculateFilterBlockCoeffs M mGamma).1.getD (i - 1) 0
        = M.exp (-2.0 * M.M_PI * M.pow 10.0
            (((i : K) - 7) / 1.1 - 0.5 * mGamma / 1.1 - (-M.log10 0.5)))
    ∧ (calculateFilterBlockCoeffs M mGamma).2.getD (i - 1) 0
        = M.exp (-2.0 * M.M_PI * M.pow 10.0
            (((i : K) - 7) / 1.1 - 0.5 * mGamma / 1.1 - (-M.log10 0.5)
              + 0.5 * mGamma / 1.1)) := by
  interval_cases i <;>
    simp [calculateFilterBlockCoeffs, NR_OF_FILTER_BLOCKS, List.range', List.replicate]

theorem blockCoeffs_real (R : LibM ℝ) (hR : R.IsReal) (mGamma : ℝ) (i : Nat) (h1 : 1 ≤ i)
    (h7 : i ≤ 7) :
    (calculateFilterBlockCoeffs R mGamma).1.getD (i - 1) 0
        = Real.exp (-(2 * Real.pi * (10 : ℝ) ^ (((i : ℝ) - 7) / 1.1 - 0.5 * mGamma / 1.1
            - (-(Real.log 0.5 / Real.log 10)))))
    ∧ (calculateFilterBlockCoeffs R mGamma).2.getD (i - 1) 0
        = Real.exp (-(2 * Real.pi * (10 : ℝ) ^ (((i : ℝ) - 7) / 1.1
            - (-(Real.log 0.5 / Real.log 10))))) := by
  obtain ⟨_, _, hexp, hpow, hlog, hpi⟩ := hR
  obtain ⟨ha, hb⟩ := calculateFilterBlockCoeffs_getD R mGamma i h1 h7
  have h10 : (0 : ℝ) < 10.0 := by norm_num
  have h05 : (0 : ℝ) < 0.5 := by norm_num
  rw [ha, hb, hexp, hpi, hpow _ _ h10, hpow _ _ h10, hlog _ h05]
  constructor
  · congr 1
    norm_num
  · congr 1
    have e : ((i : ℝ) - 7) / 1.1 - 0.5 * mGamma / 1.1 - (-(Real.log 0.5 / Real.log 10))
          + 0.5 * mGamma / 1.1
        = ((i : ℝ) - 7) / 1.1 - (-(Real.log 0.5 / Real.log 10)) := by ring
    rw [e]
    norm_num

theorem exp_neg_two_pi_rpow (e : ℝ) :
    0 < Real.exp (-(2 * Real.pi * (10 : ℝ) ^ e))
      ∧ Real.exp (-(2 * Real.pi * (10 : ℝ) ^ e)) < 1 := by
  refine ⟨Real.exp_pos _, ?_⟩
  rw [← Real.exp_zero, Real.exp_lt_exp]
  have h1 : (0 : ℝ) < (10 : ℝ) ^ e := Real.rpow_pos_of_pos (by norm_num) e
  have h2 := Real.pi_pos
  have h3 : 0 < 2 * Real.pi * (10 : ℝ) ^ e := by positivity
  linarith

/-- C24: with the real `exp`, `pow`, `log10` and `M_PI = π`, for every gamma (in
    particular every gamma in `[-2, 2]`) and every section `i` in `1..7`, the pole
    coefficient stored by `calculateFilterBlockCoeffs` is
    `a_i = exp(-2*pi*10^((i-7)/1.1 - 0.5*gamma/1.1 - C))` and the zero coefficient is
    `b_i = exp(-2*pi*10^((i-7)/1.1 - C))` with `C = -log10(0.5)`, and both lie strictly
    between 0 and 1. -/
theorem blockCoeffs_stable (R : LibM ℝ) (hR : R.IsReal) (mGamma : ℝ) (i : Nat) (h1 : 1 ≤ i)
    (h7 : i ≤ 7) :
    (calculateFilterBlockCoeffs R mGamma).1.getD (i - 1) 0
        = Real.exp (-(2 * Real.pi * (10 : ℝ) ^ (((i : ℝ) - 7) / 1.1 - 0.5 * mGamma / 1.1
            - (-(Real.log 0.5 / Real.log 10)))))
    ∧ (calculateFilterBlockCoeffs R mGamma).2.getD (i - 1) 0
        = Real.exp (-(2 * Real.pi * (10 : ℝ) ^ (((i : ℝ) - 7) / 1.1
            - (-(Real.log 0.5 / Real.log 10)))))
    ∧ 0 < (calculateFilterBlockCoeffs R mGamma).1.getD (i - 1) 0
    ∧ (calculateFilterBlockCoeffs R mGamma).1.getD (i - 1) 0 < 1
    ∧ 0 < (calculateFilterBlockCoeffs R mGamma).2.getD (i - 1) 0
    ∧ (calculateFilterBlockCoeffs R mGamma).2.getD (i - 1) 0 < 1
    ∧ (calculateFilterBlockCoeffs R mGamma).1.length = 7
    ∧ (calculateFilterBlockCoeffs R mGamma).2.length = 7 := by
  obtain ⟨ha, hb⟩ := blockCoeffs_real R hR mGamma i h1 h7
  refine ⟨ha, hb, ?_, ?_, ?_, ?_, ?_, ?_⟩
  · rw [ha]; exact (exp_neg_two_pi_rpow _).1
  · rw [ha]; exact (exp_neg_two_pi_rpow _).2
  · rw [hb]; exact (exp_neg_two_pi_rpow _).1
  · rw [hb]; exact (exp_neg_two_pi_rpow _).2
  · simp [calculateFilterBlockCoeffs, NR_OF_FILTER_BLOCKS, List.range', List.replicate]
  · simp [calculateFilterBlockCoeffs, NR_OF_FILTER_BLOCKS, List.range', List.replicate]

/-- Witness for C24: the real functions, gamma 1, section 3. -/
theorem blockCoeffs_stable_witness :
    0 < (calculateFilterBlockCoeffs
          (⟨Real.sin, Real.cos, Real.exp, fun x y => x ^ y,
            fun x => Real.log x / Real.log 10, Real.pi⟩ : LibM ℝ) 1).1.getD (3 - 1) 0
    ∧ (calculateFilterBlockCoeffs
          (⟨Real.sin, Real.cos, Real.exp, fun x y => x ^ y,
            fun x => Real.log x / Real.log 10, Real.pi⟩ : LibM ℝ) 1).1.getD (3 - 1) 0 < 1 :=
  ⟨(blockCoeffs_stable
      (⟨Real.sin, Real.cos, Real.exp, fun x y => x ^ y,
        fun x => Real.log x / Real.log 10, Real.pi⟩ : LibM ℝ)
      ⟨rfl, rfl, rfl, fun _ _ _ => rfl, fun _ _ => rfl, rfl⟩ 1 3 (by norm_num)
      (by norm_num)).2.2.1,
   (blockCoeffs_stable
      (⟨Real.sin, Real.cos, Real.exp, fun x y => x ^ y,
        fun x => Real.log x / Real.log 10, Real.pi⟩ : LibM ℝ)
      ⟨rfl, rfl, rfl, fun _ _ _ => rfl, fun _ _ => rfl, rfl⟩ 1 3 (by norm_num)
      (by norm_num)).2.2.2.1⟩

theorem exp_neg_two_pi_rpow_lt (e1 e2 : ℝ) (h : e1 < e2) :
    Real.exp (-(2 * Real.pi * (10 : ℝ) ^ e2)) < Real.exp (-(2 * Real.pi * (10 : ℝ) ^ e1)) := by
  rw [Real.exp_lt_exp]
  have h1 : (10 : ℝ) ^ e1 < (10 : ℝ) ^ e2 :=
    (Real.rpow_lt_rpow_left_iff (by norm_num)).mpr h
  have h2 := Real.pi_pos
  have h3 : 2 * Real.pi * (10 : ℝ) ^ e1 < 2 * Real.pi * (10 : ℝ) ^ e2 :=
    mul_lt_mul_of_pos_left h1 (by positivity)
  linarith

/-- C25: with the real `exp`, `pow`, `log10` and `M_PI = π`, for every section `i` in
    `1..7` with pole coefficient `a_i` and zero coefficient `b_i` of
    `calculateFilterBlockCoeffs`: gamma > 0 gives `a_i > b_i`, DC gain
    `(1 - b_i)/(1 - a_i) > 1` and Nyquist gain `(1 + b_i)/(1 + a_i) < 1`; gamma < 0
    gives `a_i < b_i`, DC gain below 1 and Nyquist gain above 1; gamma = 0 gives
    `a_i = b_i`. -/
theorem blockCoeffs_tilt (R : LibM ℝ) (hR : R.IsReal) (mGamma : ℝ) (i : Nat) (h1 : 1 ≤ i)
    (h7 : i ≤ 7) :
    (0 < mGamma →
        (calculateFilterBlockCoeffs R mGamma).2.getD (i - 1) 0
          < (calculateFilterBlockCoeffs R mGamma).1.getD (i - 1) 0
        ∧ 1 < (1 - (calculateFilterBlockCoeffs R mGamma).2.getD (i - 1) 0)
                / (1 - (calculateFilterBlockCoeffs R mGamma).1.getD (i - 1) 0)
        ∧ (1 + (calculateFilterBlockCoeffs R mGamma).2.getD (i - 1) 0)
              / (1 + (calculateFilterBlockCoeffs R mGamma).1.getD (i - 1) 0) < 1)
    ∧ (mGamma < 0 →
        (calculateFilterBlockCoeffs R mGamma).1.getD (i - 1) 0
          < (calculateFilterBlockCoeffs R mGamma).2.getD (i - 1) 0
        ∧ (1 - (calculateFilterBlockCoeffs R mGamma).2.getD (i - 1) 0)
              / (1 - (calculateFilterBlockCoeffs R mGamma).1.getD (i - 1) 0) < 1
        ∧ 1 < (1 + (calculateFilterBlockCoeffs R mGamma).2.getD (i - 1) 0)
                / (1 + (calculateFilterBlockCoeffs R mGamma).1.getD (i - 1) 0))
    ∧ (mGamma = 0 →
        (calculateFilterBlockCoeffs R mGamma).1.getD (i - 1) 0
          = (calculateFilterBlockCoeffs R mGamma).2.getD (i - 1) 0) := by
  obtain ⟨ha, hb⟩ := blockCoeffs_real R hR mGamma i h1 h7
  have ha01 := exp_neg_two_pi_rpow (((i : ℝ) - 7) / 1.1 - 0.5 * mGamma / 1.1
    - (-(Real.log 0.5 / Real.log 10)))
  have hb01 := exp_neg_two_pi_rpow (((i : ℝ) - 7) / 1.1 - (-(Real.log 0.5 / Real.log 10)))
  rw [← ha] at ha01
  rw [← hb] at hb01
  refine ⟨fun hg => ?_, fun hg => ?_, fun hg => ?_⟩
  · have hlt : (calculateFilterBlockCoeffs R mGamma).2.getD (i - 1) 0
        < (calculateFilterBlockCoeffs R mGamma).1.getD (i - 1) 0 := by
      rw [ha, hb]
      apply exp_neg_two_pi_rpow_lt
      have : 0 < 0.5 * mGamma / 1.1 := by positivity
      linarith
    refine ⟨hlt, ?_, ?_⟩
    · rw [one_lt_div (by linarith)]
      linarith
    · rw [div_lt_one (by linarith)]
      linarith
  · have hlt : (calculateFilterBlockCoeffs R mGamma).1.getD (i - 1) 0
        < (calculateFilterBlockCoeffs R mGamma).2.getD (i - 1) 0 := by
      rw [ha, hb]
      apply exp_neg_two_pi_rpow_lt
      have : 0 < 0.5 * (-mGamma) / 1.1 := by
        have : 0 < -mGamma := by linarith
        positivity
      have e : 0.5 * (-mGamma) / 1.1 = -(0.5 * mGamma / 1.1) := by ring
      linarith
    refine ⟨hlt, ?_, ?_⟩
    · rw [div_lt_one (by linarith)]
      linarith
    · rw [one_lt_div (by linarith)]
      linarith
  · rw [ha, hb, hg]
    congr 3
    ring_nf

/-- Witness for C25: the real functions, gamma 1, section 3: the pole coefficient is
    above the zero coefficient. -/
theorem blockCoeffs_tilt_witness :
    (calculateFilterBlockCoeffs
          (⟨Real.sin, Real.cos, Real.exp, fun x y => x ^ y,
            fun x => Real.log x / Real.log 10, Real.pi⟩ : LibM ℝ) 1).2.getD (3 - 1) 0
      < (calculateFilterBlockCoeffs
          (⟨Real.sin, Real.cos, Real.exp, fun x y => x ^ y,
            fun x => Real.log x / Real.log 10, Real.pi⟩ : LibM ℝ) 1).1.getD (3 - 1) 0 :=
  ((blockCoeffs_tilt
      (⟨Real.sin, Real.cos, Real.exp, fun x y => x ^ y,
        fun x => Real.log x / Real.log 10, Real.pi⟩ : LibM ℝ)
      ⟨rfl, rfl, rfl, fun _ _ _ => rfl, fun _ _ => rfl, rfl⟩ 1 3 (by norm_num)
      (by norm_num)).1 (by norm_num)).1

/-! ## The DEK call pattern of the renderer -/

/-- A call of `generateRandomDek` that does not run the seeding block (seed not negative,
    `iff` not 0): the indices advance, one table slot is replaced, the seed is kept. -/
theorem generateRandomDek_eq {K : Type} [LinearOrderedField K] (pIdum : Int) (t : DekStatics)
    (hc : ¬ (pIdum < 0 ∨ t.iff = 0)) (i p : Nat) (a b mj : Int)
    (hi : (if t.inext + 1 = 56 then 1 else t.inext + 1) = (i : Int))
    (hp : (if t.inextp + 1 = 56 then 1 else t.inextp + 1) = (p : Int))
    (ha : t.ma.getD i 0 = a) (hb : t.ma.getD p 0 = b)
    (hm : (if a - b < MZ then a - b + MBIG else a - b) = mj) :
    generateRandomDek (K := K) pIdum t
      = ((mj : K) * (1.0 / (MBIG : K)), pIdum,
          { inext := (i : Int), inextp := (p : Int), ma := t.ma.set i mj, iff := t.iff }) := by
  unfold generateRandomDek
  rw [if_neg hc]
  simp only [hi, hp, Int.toNat_ofNat, ha, hb, hm]

theorem getSignalValueNoise_dek {K : Type} [LinearOrderedField K] (sig : SignalNoise K) (t : K)
    (g : Statics) (hT : sig.noiseType = NoiseType.NOISE_TYPE_DEK) (ht : sig.tDelay ≤ t)
    (u : K) (q : Int) (s : DekStatics)
    (hr : generateRandomDek (K := K) 1 g.dek = (u, q, s)) :
    getSignalValueNoise sig t g = ((2 * u - 1) * sig.amplit + sig.offset, { g with dek := s }) := by
  unfold getSignalValueNoise
  rw [if_pos (ge_iff_le.mpr ht)]
  simp only [hT, hr]

/-- C26 (amended): in the renderer's DEK call pattern `getSignalValueNoise` passes a
    fresh seed variable equal to 1 on every call; 1 is not negative, so once the
    generator has been used (`iff ≠ 0`) a DEK call after the delay does not run the
    seeding block: `generateRandomDek` advances `inext` and `inextp`, replaces the one
    table slot `ma[inext]` by `ma[inext] - ma[inextp]` (plus `10^9` when negative),
    keeps `iff` and the seed, and the sample is that slot scaled by `10^-9`, mapped to
    `(2*u - 1)*amplit + offset`.  After every DEK call `iff` is not 0, whatever it was
    before, so only the first DEK call of the program seeds the table. -/
theorem dek_call_does_not_reseed {K : Type} [LinearOrderedField K] (sig : SignalNoise K) (t : K)
    (g : Statics) (hT : sig.noiseType = NoiseType.NOISE_TYPE_DEK) (ht : sig.tDelay ≤ t)
    (hs : g.dek.iff ≠ 0) :
    generateRandomDek (K := K) 1 g.dek
      = ((((if g.dek.ma.getD (if g.dek.inext + 1 = 56 then 1 else g.dek.inext + 1).toNat 0
                    - g.dek.ma.getD
                        (if g.dek.inextp + 1 = 56 then 1 else g.dek.inextp + 1).toNat 0 < MZ
                then g.dek.ma.getD (if g.dek.inext + 1 = 56 then 1 else g.dek.inext + 1).toNat 0
                    - g.dek.ma.getD
                        (if g.dek.inextp + 1 = 56 then 1 else g.dek.inextp + 1).toNat 0 + MBIG
                else g.dek.ma.getD (if g.dek.inext + 1 = 56 then 1 else g.dek.inext + 1).toNat 0
                    - g.dek.ma.getD
                        (if g.dek.inextp + 1 = 56 then 1 else g.dek.inextp + 1).toNat 0 : Int) : K)
              * (1.0 / (MBIG : K))), 1,
          { inext := if g.dek.inext + 1 = 56 then 1 else g.dek.inext + 1
            inextp := if g.dek.inextp + 1 = 56 then 1 else g.dek.inextp + 1
            ma := g.dek.ma.set (if g.dek.inext + 1 = 56 then 1 else g.dek.inext + 1).toNat
              (if g.dek.ma.getD (if g.dek.inext + 1 = 56 then 1 else g.dek.inext + 1).toNat 0
                    - g.dek.ma.getD
                        (if g.dek.inextp + 1 = 56 then 1 else g.dek.inextp + 1).toNat 0 < MZ
                then g.dek.ma.getD (if g.dek.inext + 1 = 56 then 1 else g.dek.inext + 1).toNat 0
                    - g.dek.ma.getD
                        (if g.dek.inextp + 1 = 56 then 1 else g.dek.inextp + 1).toNat 0 + MBIG
                else g.dek.ma.getD (if g.dek.inext + 1 = 56 then 1 else g.dek.inext + 1).toNat 0
                    - g.dek.ma.getD
                        (if g.dek.inextp + 1 = 56 then 1 else g.dek.inextp + 1).toNat 0)
            iff := g.dek.iff })
    ∧ getSignalValueNoise sig t g
        = ((2 * (generateRandomDek (K := K) 1 g.dek).1 - 1) * sig.amplit + sig.offset,
            { g with dek := (generateRandomDek (K := K) 1 g.dek).2.2 })
    ∧ (getSignalValueNoise sig t g).2.dek.iff ≠ 0
    ∧ ∀ g0 : Statics, (getSignalValueNoise sig t g0).2.dek.iff ≠ 0 := by
  have hc : ¬ ((1 : Int) < 0 ∨ g.dek.iff = 0) := by
    rintro (h | h)
    · exact absurd h (by decide)
    · exact hs h
  have hiff : ∀ s : DekStatics, (generateRandomDek (K := K) 1 s).2.2.iff ≠ 0 := by
    intro s
    unfold generateRandomDek
    by_cases h0 : (1 : Int) < 0 ∨ s.iff = 0
    · rw [if_pos h0]
      exact one_ne_zero
    · rw [if_neg h0]
      exact fun h => h0 (Or.inr h)
  have hv : ∀ g0 : Statics, getSignalValueNoise sig t g0
      = ((2 * (generateRandomDek (K := K) 1 g0.dek).1 - 1) * sig.amplit + sig.offset,
          { g0 with dek := (generateRandomDek (K := K) 1 g0.dek).2.2 }) :=
    fun g0 => getSignalValueNoise_dek sig t g0 hT ht _ _ _ rfl
  refine ⟨?_, hv g, ?_, ?_⟩
  · unfold generateRandomDek
    rw [if_neg hc]
  · rw [hv g]
    exact hiff g.dek
  · intro g0
    rw [hv g0]
    exact hiff g0.dek

/-- Witness for C26: a used generator whose table holds 5 in every slot, indices 1 and
    32; the DEK call returns `(2*0 - 1)*1 + 0 = -1` and the flag stays 1. -/
theorem dek_call_does_not_reseed_witness :
    (getSignalValueNoise (K := ℚ) ⟨.NOISE_TYPE_DEK, 0, 0, 1, 0⟩ 0
        ⟨⟨1, 32, List.replicate 56 5, 1⟩, 0, 0⟩).2.dek.iff ≠ 0 :=
  (dek_call_does_not_reseed (K := ℚ) ⟨.NOISE_TYPE_DEK, 0, 0, 1, 0⟩ 0
      ⟨⟨1, 32, List.replicate 56 5, 1⟩, 0, 0⟩ rfl le_rfl (by decide)).2.2.1

/-- The table after the first seeding loop of `generateRandomDek` for the seed 1 and the
    zero-initialised table. -/
theorem dekSeed_one_loop1 :
    ((List.range' 1 54).foldl
    (fun (st : List Int × Int × Int) (i : Nat) =>
      let ma := st.1
      let mj := st.2.1
      let mk := st.2.2
      let ii : Nat := (21 * i) % 55
      let ma := ma.set ii mk
      let mk := mj - mk
      let mk := if mk < MZ then mk + MBIG else mk
      let mj := ma.getD ii 0
      (ma, mj, mk))
    ((List.replicate 56 (0 : Int)).set 55 161803397, 161803397, 1)).1
      =
      [0, 400030241, 21624681, 103444140, 101110262, 328671428, 700071183, 352152073,
       838196605, 799901461, 450037169, 100813254, 895297484, 799594870, 900026333, 279080287,
       809016977, 200424397, 221476005, 700191124, 519920326, 1, 99965851, 235830925,
       602128697, 998203873, 564133149, 300048758, 815616180, 323606791, 500162929, 335756587,
       400502189, 207608905, 964943409, 499996092, 257455606, 705572837, 99314135, 892804577,
       119941, 167768253, 161803396, 300064390, 785793756, 501315443, 102906389, 764538279,
       400022425, 536535893, 514589814, 299738532, 114280582, 700311065, 687688579, 161803397] := by
  decide

set_option maxRecDepth 4000 in
theorem dekSeed_one_pass1 :
    (List.range' 1 55).foldl
        (fun (ma : List Int) (i : Nat) =>
          let ma := ma.set i (ma.getD i 0 - ma.getD (1 + (i + 30) % 55) 0)
          if ma.getD i 0 < MZ then ma.set i (ma.getD i 0 + MBIG) else ma)
        [0, 400030241, 21624681, 103444140, 101110262, 328671428, 700071183, 352152073,
         838196605, 799901461, 450037169, 100813254, 895297484, 799594870, 900026333,
         279080287, 809016977, 200424397, 221476005, 700191124, 519920326, 1, 99965851,
         235830925, 602128697, 998203873, 564133149, 300048758, 815616180, 323606791,
         500162929, 335756587, 400502189, 207608905, 964943409, 499996092, 257455606,
         705572837, 99314135, 892804577, 119941, 167768253, 161803396, 300064390, 785793756,
         501315443, 102906389, 764538279, 400022425, 536535893, 514589814, 299738532,
         114280582, 700311065, 687688579, 161803397]
      =
      [0, 999528052, 814015776, 138500731, 601114170, 71215822, 994498346, 252837938,
       945392028, 799781520, 282268916, 939009858, 595233094, 13801114, 398710890, 176173898,
       44478698, 800401972, 684940112, 185601310, 220181794, 885719419, 399654786, 548142346,
       440325300, 998675821, 750117373, 161548027, 214502010, 252390969, 505664583, 82918649,
       455110161, 407827385, 682674493, 560986234, 662222512, 691771723, 700603245, 716630679,
       955641243, 367366281, 476863284, 114463080, 565611962, 615596024, 703251603, 216395933,
       959697125, 537860072, 764472441, 138190505, 899778572, 447920096, 182023996, 78884748] := by
  decide

set_option maxRecDepth 4000 in
theorem dekSeed_one_pass2 :
    (List.range' 1 55).foldl
        (fun (ma : List Int) (i : Nat) =>
          let ma := ma.set i (ma.getD i 0 - ma.getD (1 + (i + 30) % 55) 0)
          if ma.getD i 0 < MZ then ma.set i (ma.getD i 0 + MBIG) else ma)
        [0, 999528052, 814015776, 138500731, 601114170, 71215822, 994498346, 252837938,
         945392028, 799781520, 282268916, 939009858, 595233094, 13801114, 398710890, 176173898,
         44478698, 800401972, 684940112, 185601310, 220181794, 885719419, 399654786, 548142346,
         440325300, 998675821, 750117373, 161548027, 214502010, 252390969, 505664583, 82918649,
         455110161, 407827385, 682674493, 560986234, 662222512, 691771723, 700603245,
         716630679, 955641243, 367366281, 476863284, 114463080, 565611962, 615596024,
         703251603, 216395933, 959697125, 537860072, 764472441, 138190505, 899778572,
         447920096, 182023996, 78884748]
      =
      [0, 544417891, 406188391, 455826238, 40127936, 408993310, 302726623, 552234693,
       228761349, 844140277, 914902635, 462146574, 480770014, 448189152, 783114866, 472922295,
       828082765, 840704847, 147080040, 421128869, 81991289, 985940847, 951734690, 366118350,
       361440552, 454257930, 343928982, 705721789, 174374074, 843397659, 202937960, 530683956,
       226348812, 563687108, 767771858, 98839660, 181452498, 243582571, 917488379, 243708384,
       127558478, 526661434, 329783244, 693334211, 483620673, 629655177, 751516913, 850277583,
       598256573, 83602142, 420543459, 432468716, 725404498, 604522437, 979086036, 548200792] := by
  decide

set_option maxRecDepth 4000 in
theorem dekSeed_one_pass3 :
    (List.range' 1 55).foldl
        (fun (ma : List Int) (i : Nat) =>
          let ma := ma.set i (ma.getD i 0 - ma.getD (1 + (i + 30) % 55) 0)
          if ma.getD i 0 < MZ then ma.set i (ma.getD i 0 + MBIG) else ma)
        [0, 544417891, 406188391, 455826238, 40127936, 408993310, 302726623, 552234693,
         228761349, 844140277, 914902635, 462146574, 480770014, 448189152, 783114866,
         472922295, 828082765, 840704847, 147080040, 421128869, 81991289, 985940847, 951734690,
         366118350, 361440552, 454257930, 343928982, 705721789, 174374074, 843397659,
         202937960, 530683956, 226348812, 563687108, 767771858, 98839660, 181452498, 243582571,
         917488379, 243708384, 127558478, 526661434, 329783244, 693334211, 483620673,
         629655177, 751516913, 850277583, 598256573, 83602142, 420543459, 432468716, 725404498,
         604522437, 979086036, 548200792]
      =
      [0, 318069079, 842501283, 688054380, 941288276, 227540812, 59144052, 634746314,
       985052965, 716581799, 388241201, 132363330, 787435803, 964568479, 153459689, 721405382,
       977805182, 242448274, 63477898, 585410, 649522573, 260536349, 347212253, 387032314,
       813239760, 136188851, 501427699, 17667409, 233085798, 615856847, 143793908, 895937642,
       241295847, 847105309, 379530657, 966476330, 394016695, 279014092, 764028690, 522303002,
       149753296, 284213160, 266305346, 692748801, 834098100, 369118828, 404304660, 463245269,
       785016813, 947413291, 919115760, 414801307, 492318700, 988665590, 835292128, 652263150] := by
  decide

set_option maxRecDepth 4000 in
theorem dekSeed_one_pass4 :
    (List.range' 1 55).foldl
        (fun (ma : List Int) (i : Nat) =>
          let ma := ma.set i (ma.getD i 0 - ma.getD (1 + (i + 30) % 55) 0)
          if ma.getD i 0 < MZ then ma.set i (ma.getD i 0 + MBIG) else ma)
        [0, 318069079, 842501283, 688054380, 941288276, 227540812, 59144052, 634746314,
         985052965, 716581799, 388241201, 132363330, 787435803, 964568479, 153459689,
         721405382, 977805182, 242448274, 63477898, 585410, 649522573, 260536349, 347212253,
         387032314, 813239760, 136188851, 501427699, 17667409, 233085798, 615856847, 143793908,
         895937642, 241295847, 847105309, 379530657, 966476330, 394016695, 279014092,
         764028690, 522303002, 149753296, 284213160, 266305346, 692748801, 834098100,
         369118828, 404304660, 463245269, 785016813, 947413291, 919115760, 414801307,
         492318700, 988665590, 835292128, 652263150]
      =
      [0, 76773232, 995395974, 308523723, 974811946, 833524117, 780129960, 870717624,
       462749963, 566828503, 104028041, 866057984, 94687002, 130470379, 784340861, 317100722,
       514559913, 457431461, 116064607, 81469650, 234721266, 768217649, 358546663, 551740186,
       160976610, 59415619, 506031725, 709143686, 258273852, 782332730, 363663948, 25220018,
       778545884, 280276806, 275502616, 100418346, 299329693, 148543713, 979687829, 205202280,
       635193383, 826781699, 150240739, 611279151, 599376834, 600901179, 45757997, 911505083,
       624040203, 887997672, 413084035, 705657621, 234044848, 206332860, 471628180, 627043132] := by
  decide

/-- The table `generateRandomDek` builds on first use with the seed 1. -/
theorem dekSeedTable_one :
    dekSeedTable 1 DekStatics.init.ma
      =
      [0, 76773232, 995395974, 308523723, 974811946, 833524117, 780129960, 870717624,
       462749963, 566828503, 104028041, 866057984, 94687002, 130470379, 784340861, 317100722,
       514559913, 457431461, 116064607, 81469650, 234721266, 768217649, 358546663, 551740186,
       160976610, 59415619, 506031725, 709143686, 258273852, 782332730, 363663948, 25220018,
       778545884, 280276806, 275502616, 100418346, 299329693, 148543713, 979687829, 205202280,
       635193383, 826781699, 150240739, 611279151, 599376834, 600901179, 45757997, 911505083,
       624040203, 887997672, 413084035, 705657621, 234044848, 206332860, 471628180, 627043132] := by
  have h0 : Int.tmod (abs (MSEED - abs (1 : Int))) MBIG = 161803397 := by decide
  have hinit : DekStatics.init.ma = List.replicate 56 0 := rfl
  have outer : ∀ (F : List Int → List Int) (m : List Int),
      (List.range' 1 4).foldl (fun ma _k => F ma) m = F (F (F (F m))) := fun F m => rfl
  unfold dekSeedTable
  simp only [h0, hinit]
  rw [dekSeed_one_loop1, outer, dekSeed_one_pass1, dekSeed_one_pass2, dekSeed_one_pass3,
    dekSeed_one_pass4]

theorem dekSeedTable_one_entries :
    ∃ T : List Int, dekSeedTable 1 DekStatics.init.ma = T
      ∧ T.getD 1 0 = 76773232 ∧ T.getD 32 0 = 778545884
      ∧ (T.set 1 298227348).getD 2 0 = 995395974
      ∧ (T.set 1 298227348).getD 33 0 = 280276806 :=
  ⟨_, dekSeedTable_one, by decide, by decide, by decide, by decide⟩

/-- Counterexample for C26 as stated: the first two DEK samples drawn by
    `getSignalValueNoise` (amplitude 1, offset 0, no delay) from the zero-initialised
    statics are `2*0.298227348 - 1` and `2*0.715119168 - 1`: the second call does not
    reseed and the sequence is not constant. -/
theorem dek_samples_differ :
    (getSignalValueNoise (K := ℚ) ⟨.NOISE_TYPE_DEK, 0, 0, 1, 0⟩ 0
        ⟨DekStatics.init, 0, 0⟩).1 = 2 * (298227348 / 1000000000) - 1
    ∧ (getSignalValueNoise (K := ℚ) ⟨.NOISE_TYPE_DEK, 0, 0, 1, 0⟩ (1 / 44100)
        (getSignalValueNoise (K := ℚ) ⟨.NOISE_TYPE_DEK, 0, 0, 1, 0⟩ 0
          ⟨DekStatics.init, 0, 0⟩).2).1 = 2 * (715119168 / 1000000000) - 1
    ∧ (getSignalValueNoise (K := ℚ) ⟨.NOISE_TYPE_DEK, 0, 0, 1, 0⟩ (1 / 44100)
        (getSignalValueNoise (K := ℚ) ⟨.NOISE_TYPE_DEK, 0, 0, 1, 0⟩ 0
          ⟨DekStatics.init, 0, 0⟩).2).1
      ≠ (getSignalValueNoise (K := ℚ) ⟨.NOISE_TYPE_DEK, 0, 0, 1, 0⟩ 0
          ⟨DekStatics.init, 0, 0⟩).1 := by
  obtain ⟨T, hT, e1, e32, e2, e33⟩ := dekSeedTable_one_entries
  have hseed := generateRandomDek_seed (K := ℚ) 1 DekStatics.init (Or.inr rfl)
  rw [hT] at hseed
  have hn : ¬ ((1 : Int) < 0
      ∨ ({ inext := 0, inextp := 31, ma := T, iff := 1 } : DekStatics).iff = 0) := by
    norm_num
  have r1 := hseed.trans
    (generateRandomDek_eq (K := ℚ) 1 { inext := 0, inextp := 31, ma := T, iff := 1 } hn
      1 32 76773232 778545884 298227348 (by norm_num) (by norm_num) e1 e32 (by decide))
  have s1 := getSignalValueNoise_dek (K := ℚ) ⟨.NOISE_TYPE_DEK, 0, 0, 1, 0⟩ 0
    ⟨DekStatics.init, 0, 0⟩ rfl le_rfl _ _ _ r1
  have hn2 : ¬ ((1 : Int) < 0
      ∨ ({ inext := ((1 : Nat) : Int), inextp := ((32 : Nat) : Int),
           ma := T.set 1 298227348, iff := 1 } : DekStatics).iff = 0) := by
    norm_num
  have r2 := generateRandomDek_eq (K := ℚ) 1
    { inext := ((1 : Nat) : Int), inextp := ((32 : Nat) : Int),
      ma := T.set 1 298227348, iff := 1 }
    hn2 2 33 995395974 280276806 715119168 (by norm_num) (by norm_num) e2 e33 (by decide)
  have s2 := getSignalValueNoise_dek (K := ℚ) ⟨.NOISE_TYPE_DEK, 0, 0, 1, 0⟩ (1 / 44100)
    ⟨{ inext := ((1 : Nat) : Int), inextp := ((32 : Nat) : Int),
       ma := T.set 1 298227348, iff := 1 }, 0, 0⟩
    rfl (by norm_num) _ _ _ r2
  rw [s1]
  simp only
  rw [s2]
  simp only [MBIG]
  norm_num

/-! ## The width sub-segment of the trapezoid envelope -/

/-- The width segment of `getSignalValueTrapDampSin`, for a period count `c` (32 bits)
    with `m = c - 1` in 32 bits: below `tCross`, outside the quiet zone, and inside
    `(tDelay + m * tPeriod + tRise, tDelay + m * tPeriod + tRise + tWidth]`. -/
theorem getSignalValueTrapDampSin_width {K : Type} [LinearOrderedField K] [FloorRing K]
    (M : LibM K) (d : SignalTrapDampSin K) (t : K) (c m : Nat) (sv : K)
    (ht : d.tDelay ≤ t)
    (hk : toUInt32 (1 + (t - d.tDelay) / d.tPeriod) = c)
    (hm : (c + 2 ^ 32 - 1) % 2 ^ 32 = m)
    (hnc : t < d.tCross)
    (hq : t ≤ d.tDelay + (m : K) * d.tPeriod + d.tRise + d.tWidth + d.tFall
            ∨ d.tDelay + (c : K) * d.tPeriod ≤ t)
    (h1 : d.tDelay + (m : K) * d.tPeriod + d.tRise < t)
    (h2 : t ≤ d.tDelay + (m : K) * d.tPeriod + d.tRise + d.tWidth)
    (hsin : M.sin (2 * M.M_PI * d.freqHz * (t - d.tDelay - (m : K) * d.tPeriod)) = sv) :
    getSignalValueTrapDampSin M d t
      = (d.amplit * (d.tCross - d.tDelay - (m : K) * d.tPeriod - d.tRise) / d.tCross
          - d.amplit * (t - d.tDelay - (m : K) * d.tPeriod - d.tRise) / d.tCross)
          * sv + d.offset := by
  unfold getSignalValueTrapDampSin
  rw [if_pos (ge_iff_le.mpr ht)]
  simp only
  rw [hk, hm, hsin]
  rw [if_neg, if_neg (fun h => absurd h.2 (not_le.mpr h1)), if_pos ⟨h1, h2⟩]
  rintro (h | ⟨ha, hb⟩)
  · exact absurd hnc (not_lt.mpr h)
  · rcases hq with hq | hq
    · exact absurd ha (not_lt.mpr hq)
    · exact absurd hb (not_lt.mpr hq)

/-- C27 (amended): for a TrapDampSin spec with `tPeriod > 0` and `tFall >= 0`, and
    `t >= tDelay` with `1 + (t - tDelay)/tPeriod` below `2^32`, `t < tCross` and `t` in
    the width sub-segment
    `tDelay + (k-1)*tPeriod + tRise < t <= tDelay + (k-1)*tPeriod + tRise + tWidth`,
    `k = 1 + floor((t - tDelay)/tPeriod)`: the envelope is not constant, it starts at the
    per-period peak height `amplit*(tCross - tDelay - (k-1)*tPeriod - tRise)/tCross` and
    decreases linearly, `envelope = peak - amplit*((t - tDelay) - (k-1)*tPeriod - tRise)/tCross`
    (which is `amplit*(tCross - t)/tCross` when `tCross` is not 0), and the value is
    `offset + envelope*sin(2*pi*freqHz*((t - tDelay) - (k-1)*tPeriod))`. -/
theorem getSignalValueTrapDampSin_width_segment {K : Type} [LinearOrderedField K] [FloorRing K]
    (M : LibM K) (d : SignalTrapDampSin K) (t : K) (ht : d.tDelay ≤ t) (hP : 0 < d.tPeriod)
    (hb : 1 + (t - d.tDelay) / d.tPeriod < 2 ^ 32) (hF : 0 ≤ d.tFall) (hc : t < d.tCross)
    (h1 : d.tDelay + ((((1 + ⌊(t - d.tDelay) / d.tPeriod⌋ : Int)) : K) - 1) * d.tPeriod
            + d.tRise < t)
    (h2 : t ≤ d.tDelay + ((((1 + ⌊(t - d.tDelay) / d.tPeriod⌋ : Int)) : K) - 1) * d.tPeriod
            + d.tRise + d.tWidth) :
    getSignalValueTrapDampSin M d t
        = d.offset
          + (d.amplit
                * (d.tCross - d.tDelay
                    - ((((1 + ⌊(t - d.tDelay) / d.tPeriod⌋ : Int)) : K) - 1) * d.tPeriod
                    - d.tRise) / d.tCross
              - d.amplit
                * ((t - d.tDelay)
                    - ((((1 + ⌊(t - d.tDelay) / d.tPeriod⌋ : Int)) : K) - 1) * d.tPeriod
                    - d.tRise) / d.tCross)
            * M.sin (2 * M.M_PI * d.freqHz
                * ((t - d.tDelay)
                    - ((((1 + ⌊(t - d.tDelay) / d.tPeriod⌋ : Int)) : K) - 1) * d.tPeriod))
    ∧ (d.tCross ≠ 0 →
        d.amplit
              * (d.tCross - d.tDelay
                  - ((((1 + ⌊(t - d.tDelay) / d.tPeriod⌋ : Int)) : K) - 1) * d.tPeriod
                  - d.tRise) / d.tCross
            - d.amplit
              * ((t - d.tDelay)
                  - ((((1 + ⌊(t - d.tDelay) / d.tPeriod⌋ : Int)) : K) - 1) * d.tPeriod
                  - d.tRise) / d.tCross
          = d.amplit * (d.tCross - t) / d.tCross) := by
  have hq : 0 ≤ (t - d.tDelay) / d.tPeriod := div_nonneg (by linarith) hP.le
  have hfl0 : 0 ≤ ⌊(t - d.tDelay) / d.tPeriod⌋ := Int.floor_nonneg.mpr hq
  have hk := toUInt32_one_add _ hq hb
  have hn : ((⌊(t - d.tDelay) / d.tPeriod⌋.toNat : Nat) : K)
      = ((⌊(t - d.tDelay) / d.tPeriod⌋ : Int) : K) := by
    have : ((⌊(t - d.tDelay) / d.tPeriod⌋.toNat : Nat) : Int)
        = ⌊(t - d.tDelay) / d.tPeriod⌋ := Int.toNat_of_nonneg hfl0
    exact_mod_cast this
  have hn1 : ⌊(t - d.tDelay) / d.tPeriod⌋.toNat + 1 < 2 ^ 32 := by
    have h3 : ((1 + ⌊(t - d.tDelay) / d.tPeriod⌋ : Int) : K) < ((2 ^ 32 : Int) : K) := by
      push_cast
      have := Int.floor_le ((t - d.tDelay) / d.tPeriod)
      linarith
    have h4 : 1 + ⌊(t - d.tDelay) / d.tPeriod⌋ < 2 ^ 32 := by exact_mod_cast h3
    omega
  have hm : (1 + ⌊(t - d.tDelay) / d.tPeriod⌋.toNat + 2 ^ 32 - 1) % 2 ^ 32
      = ⌊(t - d.tDelay) / d.tPeriod⌋.toNat := by
    omega
  have e : ((((1 + ⌊(t - d.tDelay) / d.tPeriod⌋ : Int)) : K) - 1)
      = ((⌊(t - d.tDelay) / d.tPeriod⌋.toNat : Nat) : K) := by
    rw [hn]
    push_cast
    ring
  rw [e] at h1 h2 ⊢
  constructor
  · rw [getSignalValueTrapDampSin_width M d t _ _ _ ht hk hm hc (Or.inl (by linarith)) h1 h2 rfl]
    ring
  · intro h0
    field_simp
    ring

/-- Witness for C27: period 1, rise 1/8, width 1/4, fall 1/8, no delay, `tCross = 10`,
    frequency 1, amplitude 1, offset 0, at `t = 1/4`, with a rational stand-in for the
    `<cmath>` functions (`sin` the identity, `M_PI = 3`): the envelope is
    `(10 - 1/4)/10 = 39/40` and the value `39/40 * (2*3*1*(1/4)) = 117/80`. -/
theorem getSignalValueTrapDampSin_width_segment_witness :
    getSignalValueTrapDampSin (⟨id, id, id, fun x _ => x, id, 3⟩ : LibM ℚ)
        { tPeriod := 1, tRise := 1 / 8, tWidth := 1 / 4, tFall := 1 / 8, tDelay := 0,
          tCross := 10, freqHz := 1, amplit := 1, offset := 0 } (1 / 4) = 117 / 80 :=
  (getSignalValueTrapDampSin_width_segment (⟨id, id, id, fun x _ => x, id, 3⟩ : LibM ℚ)
      { tPeriod := 1, tRise := 1 / 8, tWidth := 1 / 4, tFall := 1 / 8, tDelay := 0,
        tCross := 10, freqHz := 1, amplit := 1, offset := 0 } (1 / 4)
      (by norm_num) (by norm_num) (by norm_num) (by norm_num) (by norm_num)
      (by
        have h : ⌊((1 / 4 : ℚ) - 0) / 1⌋ = 0 := by
          rw [Int.floor_eq_iff]
          norm_num
        rw [h]
        norm_num)
      (by
        have h : ⌊((1 / 4 : ℚ) - 0) / 1⌋ = 0 := by
          rw [Int.floor_eq_iff]
          norm_num
        rw [h]
        norm_num)).1.trans
    (by
      have h : ⌊((1 / 4 : ℚ) - 0) / 1⌋ = 0 := by
        rw [Int.floor_eq_iff]
        norm_num
      rw [h]
      norm_num)

/-- Counterexample for C27 as stated, with the real sine and `M_PI = π`: period 1, rise
    1/8, width 1/4, fall 1/8, no delay, `tCross = 10`, frequency 1, amplitude 1, offset
    0, at `t = 1/4` (width sub-segment of the first period, `k = 1`, sine 1).  The peak
    height is `79/80`, so the claimed value is `79/80`; the code returns `39/40`. -/
theorem getSignalValueTrapDampSin_width_not_flat :
    ((0 : ℝ) + ((((1 + ⌊((1 / 4 : ℝ) - 0) / 1⌋ : Int)) : ℝ) - 1) * 1 + 1 / 8 < 1 / 4)
    ∧ ((1 / 4 : ℝ) ≤ 0 + ((((1 + ⌊((1 / 4 : ℝ) - 0) / 1⌋ : Int)) : ℝ) - 1) * 1 + 1 / 8 + 1 / 4)
    ∧ ((0 : ℝ) + 1 * (10 - 0 - ((((1 + ⌊((1 / 4 : ℝ) - 0) / 1⌋ : Int)) : ℝ) - 1) * 1 - 1 / 8) / 10
          * Real.sin (2 * Real.pi * 1
              * (((1 / 4 : ℝ) - 0) - ((((1 + ⌊((1 / 4 : ℝ) - 0) / 1⌋ : Int)) : ℝ) - 1) * 1))
        = 79 / 80)
    ∧ getSignalValueTrapDampSin
        (⟨Real.sin, Real.cos, Real.exp, fun x y => x ^ y,
          fun x => Real.log x / Real.log 10, Real.pi⟩ : LibM ℝ)
        { tPeriod := 1, tRise := 1 / 8, tWidth := 1 / 4, tFall := 1 / 8, tDelay := 0,
          tCross := 10, freqHz := 1, amplit := 1, offset := 0 } (1 / 4)
      = 39 / 40 := by
  have hfl : ⌊((1 / 4 : ℝ) - 0) / 1⌋ = 0 := by
    rw [Int.floor_eq_iff]
    norm_num
  have hs : Real.sin (2 * Real.pi * 1 * (((1 / 4 : ℝ) - 0) - (((1 + (0 : Int) : Int) : ℝ) - 1) * 1))
      = 1 := by
    have e : 2 * Real.pi * 1 * (((1 / 4 : ℝ) - 0) - (((1 + (0 : Int) : Int) : ℝ) - 1) * 1)
        = Real.pi / 2 := by
      push_cast
      ring
    rw [e, Real.sin_pi_div_two]
  have hcode := getSignalValueTrapDampSin_width
    (⟨Real.sin, Real.cos, Real.exp, fun x y => x ^ y,
      fun x => Real.log x / Real.log 10, Real.pi⟩ : LibM ℝ)
    { tPeriod := 1, tRise := 1 / 8, tWidth := 1 / 4, tFall := 1 / 8, tDelay := 0,
      tCross := 10, freqHz := 1, amplit := 1, offset := 0 } (1 / 4)
    1 0 1 (by norm_num)
    (toUInt32_of_bounds _ 1 1 (by norm_num) (by norm_num) (by norm_num) (by decide))
    (by norm_num) (by norm_num) (Or.inl (by norm_num)) (by norm_num) (by norm_num)
    (by
      have e : 2 * Real.pi * 1 * ((1 / 4 : ℝ) - 0 - (((0 : Nat)) : ℝ) * 1) = Real.pi / 2 := by
        push_cast
        ring
      show Real.sin (2 * Real.pi * 1 * ((1 / 4 : ℝ) - 0 - (((0 : Nat)) : ℝ) * 1)) = 1
      rw [e, Real.sin_pi_div_two])
  refine ⟨?_, ?_, ?_, hcode.trans (show _ = ((39 / 40 : ℝ)) by norm_num)⟩
  · rw [hfl]
    norm_num
  · rw [hfl]
    norm_num
  · rw [hfl, hs]
    norm_num

/-! ## The cursor invariant -/

theorem cursorOk_of_zero {K : Type} (s : AudioSource K) (h : s.mBufferPos = 0) : s.CursorOk := by
  refine ⟨fun _ => h, fun hne => ?_⟩
  rw [h]
  refine ⟨le_rfl, ?_⟩
  have : 0 < s.mAudioBuffer.length := List.length_pos.mpr hne
  exact_mod_cast this

theorem fillDataBuffer_cursor {K : Type} [LinearOrderedField K] [FloorRing K] (M : LibM K)
    (s s1 : AudioSource K) (g g1 : Statics) (h : fillDataBuffer M s g = some (s1, g1)) :
    s1.mBufferPos = s.mBufferPos := by
  unfold fillDataBuffer at h
  simp only at h
  split at h
  · exact absurd h (by simp)
  · simp only [Option.some.injEq, Prod.mk.injEq] at h
    rw [← h.1]

theorem readDataLoop_cursor (buf : List Nat) (n : Int) :
    ∀ (fuel : Nat) (pos : Int) (aData : List Nat) (br : Int) (r : ReadResult),
      0 ≤ pos → pos < buf.length →
      readDataLoop buf n fuel pos aData br = some r →
      0 ≤ r.mBufferPos ∧ r.mBufferPos < buf.length := by
  intro fuel
  induction fuel with
  | zero =>
    intro pos aData br r h0 h1 h
    unfold readDataLoop at h
    by_cases hc : n - br > 0
    · rw [if_pos hc] at h
      exact absurd h (by simp)
    · rw [if_neg hc] at h
      simp only [Option.some.injEq] at h
      rw [← h]
      exact ⟨h0, h1⟩
  | succ fuel ih =>
    intro pos aData br r h0 h1 h
    unfold readDataLoop at h
    by_cases hc : n - br > 0
    · rw [if_pos hc] at h
      simp only at h
      cases hm : memcpy aData br buf pos (min ((buf.length : Int) - pos) (n - br)) with
      | none =>
        rw [hm] at h
        exact absurd h (by simp)
      | some aData1 =>
        rw [hm] at h
        simp only at h
        have hchunk : 0 ≤ min ((buf.length : Int) - pos) (n - br) := by
          unfold memcpy at hm
          by_cases hcond : 0 ≤ min ((buf.length : Int) - pos) (n - br) ∧ 0 ≤ br ∧ 0 ≤ pos
              ∧ br + min ((buf.length : Int) - pos) (n - br) ≤ aData.length
              ∧ pos + min ((buf.length : Int) - pos) (n - br) ≤ buf.length
          · exact hcond.1
          · rw [if_neg hcond] at hm
            exact absurd hm (by simp)
        have hL : (0 : Int) < buf.length := by omega
        refine ih _ _ _ r ?_ ?_ h
        · exact Int.tmod_nonneg _ (by omega)
        · exact Int.tmod_lt_of_pos _ hL
    · rw [if_neg hc] at h
      simp only [Option.some.injEq] at h
      rw [← h]
      exact ⟨h0, h1⟩

theorem readData_cursor {K : Type} (s : AudioSource K) (hs : s.CursorOk) (aData : List Nat)
    (aLength : Int) (r : AudioSource K × List Nat × Int)
    (h : s.readData aData aLength = some r) : r.1.CursorOk := by
  unfold AudioSource.readData at h
  cases hr : readData s.mAudioBuffer s.mBufferPos aData aLength with
  | none =>
    rw [hr] at h
    exact absurd h (by simp)
  | some q =>
    rw [hr] at h
    simp only [Option.map_some', Option.some.injEq] at h
    rw [← h]
    unfold readData at hr
    by_cases he : s.mAudioBuffer = []
    · rw [he] at hr
      simp only [List.isEmpty_nil, Bool.not_true, Bool.false_eq_true, if_false,
        Option.some.injEq] at hr
      rw [← hr]
      exact ⟨fun _ => hs.1 he, fun hne => absurd he hne⟩
    · have hne : (!s.mAudioBuffer.isEmpty) = true := by
        cases hb : s.mAudioBuffer with
        | nil => exact absurd hb he
        | cons a l => rfl
      rw [if_pos hne] at hr
      obtain ⟨h0, h1⟩ := hs.2 he
      exact ⟨fun hh => absurd hh he,
        fun _ => readDataLoop_cursor _ _ _ _ _ _ q h0 h1 hr⟩

theorem call_cursor {K : Type} [LinearOrderedField K] [FloorRing K] (M : LibM K)
    (st st1 : AudioSource K × Statics) (c : AudioCall K) (hs : st.1.CursorOk)
    (h : AudioSource.call M st c = some st1) : st1.1.CursorOk := by
  cases c with
  | setData v =>
    unfold AudioSource.call AudioSource.setData at h
    simp only at h
    split_ifs at h
    · exact cursorOk_of_zero _ (by rw [fillDataBuffer_cursor M _ _ _ _ h])
    · simp only [Option.some.injEq] at h
      rw [← h]
      exact cursorOk_of_zero _ rfl
  | setBufferLength n =>
    unfold AudioSource.call AudioSource.setBufferLength at h
    simp only at h
    split_ifs at h
    · exact cursorOk_of_zero _ (by rw [fillDataBuffer_cursor M _ _ _ _ h])
    · simp only [Option.some.injEq] at h
      rw [← h]
      exact cursorOk_of_zero _ rfl
  | start =>
    unfold AudioSource.call at h
    simp only [Option.some.injEq] at h
    rw [← h]
    exact hs
  | stop =>
    unfold AudioSource.call at h
    simp only [Option.some.injEq] at h
    rw [← h]
    exact cursorOk_of_zero _ rfl
  | readData aData aLength =>
    unfold AudioSource.call at h
    simp only at h
    cases hr : st.1.readData aData aLength with
    | none =>
      rw [hr] at h
      exact absurd h (by simp)
    | some r =>
      rw [hr] at h
      simp only [Option.map_some', Option.some.injEq] at h
      rw [← h]
      exact readData_cursor st.1 hs aData aLength r hr

theorem calls_cursor {K : Type} [LinearOrderedField K] [FloorRing K] (M : LibM K) :
    ∀ (cs : List (AudioCall K)) (st st1 : AudioSource K × Statics), st.1.CursorOk →
      AudioSource.calls M cs st = some st1 → st1.1.CursorOk := by
  intro cs
  induction cs with
  | nil =>
    intro st st1 hs h
    unfold AudioSource.calls at h
    simp only [Option.some.injEq] at h
    rw [← h]
    exact hs
  | cons c cs ih =>
    intro st st1 hs h
    unfold AudioSource.calls at h
    cases hc : AudioSource.call M st c with
    | none =>
      rw [hc] at h
      exact absurd h (by simp)
    | some st2 =>
      rw [hc] at h
      simp only [Option.some_bind] at h
      exact ih st2 st1 (call_cursor M st st2 c hs hc) h

theorem readData_returns (buf aData : List Nat) (pos aLength : Int) (h0 : 0 ≤ pos)
    (h1 : pos < buf.length) (hn : aLength ≤ aData.length) :
    ∃ r, readData buf pos aData aLength = some r ∧ (0 ≤ aLength → r.bytesRead = aLength) := by
  by_cases hl : 0 < aLength
  · have hp : pos.toNat < buf.length := by omega
    have hna : aLength.toNat ≤ aData.length := by omega
    have h := readData_nonempty buf aData pos.toNat aLength.toNat hp hna
    rw [Int.toNat_of_nonneg h0, Int.toNat_of_nonneg hl.le] at h
    exact ⟨_, h, fun _ => rfl⟩
  · have hne : (!buf.isEmpty) = true := by
      cases buf with
      | nil => simp at h1; omega
      | cons a l => rfl
    refine ⟨⟨pos, aData, 0⟩, ?_, fun h => by show (0 : Int) = aLength; omega⟩
    unfold readData
    rw [if_pos hne]
    unfold readDataLoop
    rw [if_neg (by omega)]

/-- C28: the cursor invariant of `AudioSource` (the cursor is 0 when the buffer is empty
    and satisfies `0 <= cursor < buffer length` otherwise) holds after the constructor
    and in every state reached from it by any sequence of `setData`,
    `setBufferLength`, `start`, `stop` and `readData` calls.  Hence in such a state a
    `readData` call whose caller buffer has room for `aLength` bytes returns (the loop
    ends within `aLength + 1` iterations), with the requested count and the invariant
    again; and at every iteration of the read loop that starts with a cursor inside the
    buffer and bytes still to read, the chunk has length at least 1, stays within the
    buffer, and the new cursor is inside the buffer. -/
theorem cursor_invariant {K : Type} [LinearOrderedField K] [FloorRing K] (M : LibM K)
    (aFormat : QAudioFormat) (aBufferLengthSeconds : Nat) (g0 : Statics)
    (cs : List (AudioCall K)) :
    (AudioSource.new aFormat aBufferLengthSeconds : AudioSource K).CursorOk
    ∧ (∀ st : AudioSource K × Statics,
        AudioSource.calls M cs (AudioSource.new aFormat aBufferLengthSeconds, g0) = some st →
          st.1.CursorOk
          ∧ ∀ (aData : List Nat) (aLength : Int), aLength ≤ aData.length →
              ∃ r, st.1.readData aData aLength = some r ∧ r.1.CursorOk
                ∧ (st.1.mAudioBuffer ≠ [] → 0 ≤ aLength → r.2.2 = aLength))
    ∧ (∀ (mAudioBuffer aData : List Nat) (aLength mBufferPos bytesRead : Int) (fuel : Nat),
        0 ≤ mBufferPos → mBufferPos < mAudioBuffer.length → bytesRead < aLength →
          1 ≤ min ((mAudioBuffer.length : Int) - mBufferPos) (aLength - bytesRead)
          ∧ mBufferPos + min ((mAudioBuffer.length : Int) - mBufferPos) (aLength - bytesRead)
              ≤ mAudioBuffer.length
          ∧ 0 ≤ Int.tmod
                (mBufferPos + min ((mAudioBuffer.length : Int) - mBufferPos) (aLength - bytesRead))
                (mAudioBuffer.length : Int)
          ∧ Int.tmod
                (mBufferPos + min ((mAudioBuffer.length : Int) - mBufferPos) (aLength - bytesRead))
                (mAudioBuffer.length : Int) < mAudioBuffer.length
          ∧ readDataLoop mAudioBuffer aLength (fuel + 1) mBufferPos aData bytesRead
              = (memcpy aData bytesRead mAudioBuffer mBufferPos
                    (min ((mAudioBuffer.length : Int) - mBufferPos) (aLength - bytesRead))).bind
                  (fun aData1 =>
                    readDataLoop mAudioBuffer aLength fuel
                      (Int.tmod
                        (mBufferPos
                          + min ((mAudioBuffer.length : Int) - mBufferPos) (aLength - bytesRead))
                        (mAudioBuffer.length : Int))
                      aData1
                      (bytesRead
                        + min ((mAudioBuffer.length : Int) - mBufferPos)
                            (aLength - bytesRead)))) := by
  have hnew : (AudioSource.new aFormat aBufferLengthSeconds : AudioSource K).CursorOk :=
    cursorOk_of_zero _ rfl
  refine ⟨hnew, fun st h => ?_, ?_⟩
  · have hs := calls_cursor M cs _ st hnew h
    refine ⟨hs, fun aData aLength hn => ?_⟩
    by_cases he : st.1.mAudioBuffer = []
    · have hr : st.1.readData aData aLength
          = some ({ st.1 with mBufferPos := st.1.mBufferPos }, aData, 0) := by
        have hrd : readData st.1.mAudioBuffer st.1.mBufferPos aData aLength
            = some ⟨st.1.mBufferPos, aData, 0⟩ := by
          unfold readData
          rw [he]
          rfl
        unfold AudioSource.readData
        rw [hrd]
        rfl
      exact ⟨_, hr, readData_cursor st.1 hs aData aLength _ hr, fun hne => absurd he hne⟩
    · obtain ⟨h0, h1⟩ := hs.2 he
      obtain ⟨q, hq, hcount⟩ := readData_returns st.1.mAudioBuffer aData st.1.mBufferPos aLength
        h0 h1 hn
      have hr : st.1.readData aData aLength
          = some ({ st.1 with mBufferPos := q.mBufferPos }, q.aData, q.bytesRead) := by
        unfold AudioSource.readData
        rw [hq]
        rfl
      exact ⟨_, hr, readData_cursor st.1 hs aData aLength _ hr, fun _ hl => hcount hl⟩
  · intro buf aData n pos br fuel h0 h1 hbr
    have hL : (0 : Int) < buf.length := by omega
    have hc1 : 1 ≤ min ((buf.length : Int) - pos) (n - br) := by omega
    refine ⟨hc1, by omega, Int.tmod_nonneg _ (by omega), Int.tmod_lt_of_pos _ hL, ?_⟩
    conv_lhs => unfold readDataLoop
    rw [if_pos (by omega)]
    simp only
    cases memcpy aData br buf pos (min ((buf.length : Int) - pos) (n - br)) <;> rfl

/-! ## Reading in chunks -/

/-- C29: on a non-empty buffer with the cursor `p` inside it, reading `m` bytes and then
    `n` bytes (each into a caller buffer with room for the request) succeeds and yields
    the same `m + n` bytes, in the same order, the same final cursor and the same total
    count as a single read of `m + n` bytes from `p`. -/
theorem readData_chunking (mAudioBuffer aData aData1 aData2 : List Nat) (p m n : Nat)
    (hp : p < mAudioBuffer.length) (h : m + n ≤ aData.length) (h1 : m ≤ aData1.length)
    (h2 : n ≤ aData2.length) :
    ∃ r1 r2 r : ReadResult,
      readData mAudioBuffer p aData1 m = some r1
      ∧ readData mAudioBuffer r1.mBufferPos aData2 n = some r2
      ∧ readData mAudioBuffer p aData ((m + n : Nat) : Int) = some r
      ∧ r1.aData.take m ++ r2.aData.take n = r.aData.take (m + n)
      ∧ r2.mBufferPos = r.mBufferPos
      ∧ r1.bytesRead + r2.bytesRead = r.bytesRead
      ∧ r.aData.take (m + n) = wrapBytes mAudioBuffer p (m + n) := by
  have hL : 0 < mAudioBuffer.length := by omega
  have hp2 : (p + m) % mAudioBuffer.length < mAudioBuffer.length := Nat.mod_lt _ hL
  refine ⟨_, _, _, readData_nonempty mAudioBuffer aData1 p m hp h1,
    readData_nonempty mAudioBuffer aData2 ((p + m) % mAudioBuffer.length) n hp2 h2,
    readData_nonempty mAudioBuffer aData p (m + n) hp h, ?_, ?_, ?_, ?_⟩
  · simp only
    rw [List.take_append_of_le_length (by rw [wrapBytes_length]),
      List.take_append_of_le_length (by rw [wrapBytes_length]),
      List.take_append_of_le_length (by rw [wrapBytes_length]),
      List.take_of_length_le (by rw [wrapBytes_length]),
      List.take_of_length_le (by rw [wrapBytes_length]),
      List.take_of_length_le (by rw [wrapBytes_length]), wrapBytes_add]
  · simp only
    congr 1
    rw [Nat.add_mod ((p + m) % mAudioBuffer.length), Nat.mod_mod, ← Nat.add_mod, Nat.add_assoc]
  · simp only
    push_cast
    rfl
  · simp only
    rw [List.take_append_of_le_length (by rw [wrapBytes_length]),
      List.take_of_length_le (by rw [wrapBytes_length])]

/-- Witness for C29: a 3-byte buffer read from cursor 2 as 2 + 3 bytes and as 5 bytes. -/
theorem readData_chunking_witness :
    ∃ r1 r2 r : ReadResult,
      readData [10, 20, 30] ((2 : Nat) : Int) [0, 0] ((2 : Nat) : Int) = some r1
      ∧ readData [10, 20, 30] r1.mBufferPos [0, 0, 0] ((3 : Nat) : Int) = some r2
      ∧ readData [10, 20, 30] ((2 : Nat) : Int) [0, 0, 0, 0, 0, 0] ((2 + 3 : Nat) : Int) = some r
      ∧ r1.aData.take 2 ++ r2.aData.take 3 = r.aData.take (2 + 3)
      ∧ r2.mBufferPos = r.mBufferPos
      ∧ r1.bytesRead + r2.bytesRead = r.bytesRead
      ∧ r.aData.take (2 + 3) = wrapBytes [10, 20, 30] 2 (2 + 3) :=
  readData_chunking [10, 20, 30] [0, 0, 0, 0, 0, 0] [0, 0] [0, 0, 0] 2 2 3
    (by decide) (by decide) (by decide) (by decide)

/-! ## The mixing function is a bijection -/

/-- The loop of `pseudoDes` is the composition of the four rounds. -/
theorem pseudoDes_rounds (lword irword : Nat) :
    pseudoDes lword irword
      = pseudoDesRound 3 (pseudoDesRound 2 (pseudoDesRound 1 (pseudoDesRound 0
          (lword, irword)))) := rfl

/-- The inverse mixing is the composition of the four inverse rounds. -/
theorem pseudoDesInv_rounds (lword irword : Nat) :
    pseudoDesInv lword irword
      = pseudoDesRoundInv 0 (pseudoDesRoundInv 1 (pseudoDesRoundInv 2 (pseudoDesRoundInv 3
          (lword, irword)))) := rfl

/-- An inverse round undoes a round. -/
theorem pseudoDesRoundInv_round (i : Nat) (w : Nat × Nat) :
    pseudoDesRoundInv i (pseudoDesRound i w) = w := by
  unfold pseudoDesRoundInv pseudoDesRound
  simp only [Nat.xor_cancel_right]

/-- A round undoes an inverse round. -/
theorem pseudoDesRound_roundInv (i : Nat) (w : Nat × Nat) :
    pseudoDesRound i (pseudoDesRoundInv i w) = w := by
  unfold pseudoDesRoundInv pseudoDesRound
  simp only [Nat.xor_cancel_right]

/-- The round function yields a 32-bit word. -/
theorem pseudoDesF_lt (i irword : Nat) : pseudoDesF i irword < 2 ^ 32 := by
  unfold pseudoDesF
  exact Nat.mod_lt _ (by norm_num)

/-- A round keeps 32-bit words 32-bit. -/
theorem pseudoDesRound_lt (i : Nat) (w : Nat × Nat) (h1 : w.1 < 2 ^ 32) (h2 : w.2 < 2 ^ 32) :
    (pseudoDesRound i w).1 < 2 ^ 32 ∧ (pseudoDesRound i w).2 < 2 ^ 32 :=
  ⟨h2, Nat.xor_lt_two_pow h1 (pseudoDesF_lt i w.2)⟩

/-- An inverse round keeps 32-bit words 32-bit. -/
theorem pseudoDesRoundInv_lt (i : Nat) (w : Nat × Nat) (h1 : w.1 < 2 ^ 32)
    (h2 : w.2 < 2 ^ 32) :
    (pseudoDesRoundInv i w).1 < 2 ^ 32 ∧ (pseudoDesRoundInv i w).2 < 2 ^ 32 :=
  ⟨Nat.xor_lt_two_pow h2 (pseudoDesF_lt i w.1), h1⟩

/-- The inverse mixing undoes the mixing. -/
theorem pseudoDesInv_pseudoDes (l r : Nat) :
    pseudoDesInv (pseudoDes l r).1 (pseudoDes l r).2 = (l, r) := by
  rw [pseudoDesInv_rounds, pseudoDes_rounds]
  simp only [Prod.mk.eta, pseudoDesRoundInv_round]

/-- The mixing undoes the inverse mixing. -/
theorem pseudoDes_pseudoDesInv (l r : Nat) :
    pseudoDes (pseudoDesInv l r).1 (pseudoDesInv l r).2 = (l, r) := by
  rw [pseudoDesInv_rounds, pseudoDes_rounds]
  simp only [Prod.mk.eta, pseudoDesRound_roundInv]

/-- The conversion of an `int32_t` value to `uint32_t` is one-to-one. -/
theorem int32_to_uint32_injective (c1 c2 : Int) (h1 : -2 ^ 31 ≤ c1) (h1u : c1 < 2 ^ 31)
    (h2 : -2 ^ 31 ≤ c2) (h2u : c2 < 2 ^ 31)
    (h : (c1 % (2 ^ 32 : Int)).toNat = (c2 % (2 ^ 32 : Int)).toNat) : c1 = c2 := by
  have e1 : 0 ≤ c1 % (2 ^ 32 : Int) := Int.emod_nonneg _ (by norm_num)
  have e2 : 0 ≤ c2 % (2 ^ 32 : Int) := Int.emod_nonneg _ (by norm_num)
  have h3 : c1 % (2 ^ 32 : Int) = c2 % (2 ^ 32 : Int) := by
    rw [← Int.toNat_of_nonneg e1, ← Int.toNat_of_nonneg e2, h]
  omega

/-- C30: `pseudoDes` is a bijection on pairs of 32-bit words.  Each round of the loop maps
    `(l, r)` to `(r, l XOR F_i(r))`; equal output pairs come from equal input pairs; the
    mixing maps pairs of 32-bit words to pairs of 32-bit words and has a two-sided
    inverse that does the same, so every pair of 32-bit words is the output of exactly
    one such pair; and in `generateRandomNag` two distinct `int32_t` counter values with
    the same companion word `idums` never produce the same mixed pair. -/
theorem pseudoDes_bijective :
    (∀ l r : Nat, pseudoDes l r
        = pseudoDesRound 3 (pseudoDesRound 2 (pseudoDesRound 1 (pseudoDesRound 0 (l, r)))))
    ∧ (∀ (i : Nat) (w : Nat × Nat), pseudoDesRound i w = (w.2, w.1 ^^^ pseudoDesF i w.2)
        ∧ pseudoDesRoundInv i (pseudoDesRound i w) = w
        ∧ pseudoDesRound i (pseudoDesRoundInv i w) = w)
    ∧ (∀ l1 r1 l2 r2 : Nat, pseudoDes l1 r1 = pseudoDes l2 r2 → (l1, r1) = (l2, r2))
    ∧ (∀ l r : Nat, l < 2 ^ 32 → r < 2 ^ 32 →
        (pseudoDes l r).1 < 2 ^ 32 ∧ (pseudoDes l r).2 < 2 ^ 32)
    ∧ (∀ l r : Nat, l < 2 ^ 32 → r < 2 ^ 32 →
        ∃ l0 r0 : Nat, l0 < 2 ^ 32 ∧ r0 < 2 ^ 32 ∧ pseudoDes l0 r0 = (l, r)
          ∧ ∀ l1 r1 : Nat, pseudoDes l1 r1 = (l, r) → (l1, r1) = (l0, r0))
    ∧ (∀ idums c1 c2 : Int, -2 ^ 31 ≤ c1 → c1 < 2 ^ 31 → -2 ^ 31 ≤ c2 → c2 < 2 ^ 31 →
        c1 ≠ c2 →
        pseudoDes (idums % (2 ^ 32 : Int)).toNat (c1 % (2 ^ 32 : Int)).toNat
          ≠ pseudoDes (idums % (2 ^ 32 : Int)).toNat (c2 % (2 ^ 32 : Int)).toNat) := by
  have hinj : ∀ l1 r1 l2 r2 : Nat, pseudoDes l1 r1 = pseudoDes l2 r2 → (l1, r1) = (l2, r2) := by
    intro l1 r1 l2 r2 h
    rw [← pseudoDesInv_pseudoDes l1 r1, ← pseudoDesInv_pseudoDes l2 r2, h]
  refine ⟨pseudoDes_rounds, fun i w => ⟨rfl, pseudoDesRoundInv_round i w,
    pseudoDesRound_roundInv i w⟩, hinj, ?_, ?_, ?_⟩
  · intro l r hl hr
    rw [pseudoDes_rounds]
    have a0 := pseudoDesRound_lt 0 (l, r) hl hr
    have a1 := pseudoDesRound_lt 1 _ a0.1 a0.2
    have a2 := pseudoDesRound_lt 2 _ a1.1 a1.2
    exact pseudoDesRound_lt 3 _ a2.1 a2.2
  · intro l r hl hr
    have b : (pseudoDesInv l r).1 < 2 ^ 32 ∧ (pseudoDesInv l r).2 < 2 ^ 32 := by
      rw [pseudoDesInv_rounds]
      have a3 := pseudoDesRoundInv_lt 3 (l, r) hl hr
      have a2 := pseudoDesRoundInv_lt 2 _ a3.1 a3.2
      have a1 := pseudoDesRoundInv_lt 1 _ a2.1 a2.2
      exact pseudoDesRoundInv_lt 0 _ a1.1 a1.2
    refine ⟨(pseudoDesInv l r).1, (pseudoDesInv l r).2, b.1, b.2,
      pseudoDes_pseudoDesInv l r, ?_⟩
    intro l1 r1 h
    exact hinj l1 r1 _ _ (h.trans (pseudoDes_pseudoDesInv l r).symm)
  · intro idums c1 c2 h1 h1u h2 h2u hne h
    have e := hinj _ _ _ _ h
    exact hne (int32_to_uint32_injective c1 c2 h1 h1u h2 h2u (Prod.mk.inj e).2)

end Sippora
